import Mathlib

/-!
# chain-gateway: health-check engine and JSON-RPC proxy

A shallow embedding of the parts of `pundix/chain-gateway` that the
specification speaks about, and the theorems that settle its claims.

Conventions of the embedding:

* a Go `map[string]T` is an association list with pairwise distinct keys
  (`GoMap.set` replaces a binding); a read of a missing key gives Go's zero
  value through `GoMap.getD`;
* code that touches the network, the clock, the random source or a library
  decoder takes the collaborator as an explicit argument;
* a function that returns `(T, error)` returns `Except`.
-/

set_option autoImplicit false

namespace ChainGateway

deriving instance DecidableEq for Except

/-! ## Go maps -/

/-- Go map with string keys: an association list. -/
abbrev GoMap (β : Type) := List (String × β)

namespace GoMap

variable {β : Type}

/-- The two-value read `v, ok := m[k]`. -/
def get? (m : GoMap β) (k : String) : Option β := List.lookup k m

/-- The one-value read `m[k]`, with the zero value `d` for a missing key. -/
def getD (m : GoMap β) (k : String) (d : β) : β := (m.get? k).getD d

/-- The write `m[k] = v`. -/
def set (m : GoMap β) (k : String) (v : β) : GoMap β :=
  (k, v) :: m.filter (fun p => p.1 != k)

/-- The loop `for k, v := range src { dst[k] = v }`. The iteration order of a Go
map is unspecified and immaterial, the keys of a map being distinct; the list
is walked from its end so that the binding a read of `src` finds is the one
that is written last. -/
def mergeInto (dst : GoMap β) (src : GoMap β) : GoMap β :=
  src.foldr (fun kv acc => set acc kv.1 kv.2) dst

end GoMap

/-! ## internal/checker/types.go -/

/-- Go struct `Matcher`. -/
structure Matcher where
  MatchType : String
  Key : String
  Value : String
  deriving DecidableEq, Repr

/-- Go struct `HealthCheckCondition` (the strategy is kept as its string). -/
structure HealthCheckCondition where
  Ignore : List String
  CheckStrategy : String
  Payload : String
  Matchers : List Matcher
  deriving DecidableEq, Repr

/-- Method `(c *HealthCheckCondition) ignore`: `lo.Contains(c.Ignore, url)`. -/
def HealthCheckCondition.ignore (c : HealthCheckCondition) (url : String) : Bool :=
  c.Ignore.contains url

/-- The filter of `HealthCheckConditionList.Check`: a URL stays in the working
list unless a result is recorded for it and that result is false. -/
def keepUrl (ret : GoMap Bool) (u : String) : Bool :=
  match ret.get? u with
  | some valid => valid
  | none => true

/-- The loop of `HealthCheckConditionList.Check`, from the state `(ret, urls)`
over the conditions still to run. The checker is any function of the chain id,
the URL list and the condition over a state `σ` (caches, stored heights);
an error of the checker ends the loop with that error. -/
def HealthCheckConditionList.loop {σ ε : Type}
    (checker : σ → String → List String → HealthCheckCondition → Except ε (GoMap Bool) × σ)
    (chainId : String) :
    List HealthCheckCondition → GoMap Bool → List String → σ → Except ε (GoMap Bool) × σ
  | [], ret, _, s => (.ok ret, s)
  | condition :: rest, ret, urls, s =>
    let urls1 := urls.filter (keepUrl ret)
    match checker s chainId urls1 condition with
    | (.error err, s1) => (.error err, s1)
    | (.ok curRet, s1) =>
      HealthCheckConditionList.loop checker chainId rest (GoMap.mergeInto ret curRet) urls1 s1

/-- Method `HealthCheckConditionList.Check`. -/
def HealthCheckConditionList.Check {σ ε : Type}
    (cl : List HealthCheckCondition)
    (checker : σ → String → List String → HealthCheckCondition → Except ε (GoMap Bool) × σ)
    (chainId : String) (urls : List String) (s : σ) : Except ε (GoMap Bool) × σ :=
  HealthCheckConditionList.loop checker chainId cl [] urls s

/-! ## internal/upstream/upstream.go -/

/-- The filter of the check-upstream job on the result of the condition list:
`lo.Filter(urls, func(u) { return ret[u] })`. -/
def publishedUrls (urls : List String) (ret : GoMap Bool) : List String :=
  urls.filter (fun u => ret.getD u false)

/-- Conjunction of the verdicts of the conditions on one URL, evaluated from the
left and stopping at the first condition that rejects the URL. -/
def shortCircuitAnd (verdict : HealthCheckCondition → String → Bool) (u : String) :
    List HealthCheckCondition → Bool
  | [] => true
  | c :: rest => if verdict c u then shortCircuitAnd verdict u rest else false

/-! ## internal/checker: response cache -/

/-- Go struct `TimedCache[T]`; `time` and `expire` in nanoseconds. -/
structure TimedCache (α : Type) where
  value : α
  time : Int
  expire : Int

/-- Function `NewTimedCache(value, expire)`, with `now` the reading of `time.Now()`. -/
def NewTimedCache {α : Type} (value : α) (expire : Int) (now : Int) : TimedCache α :=
  { value := value, time := now, expire := expire }

/-- Method `(c *TimedCache[T]) Get()`, with `now` the clock reading of `time.Since`. -/
def TimedCache.Get {α : Type} (c : TimedCache α) (now : Int) : α × Bool :=
  if now - c.time > c.expire then (c.value, false) else (c.value, true)

/-- Method `(c *TimedCache[T]) Set(value)`: the time-to-live of the entry is kept. -/
def TimedCache.Set {α : Type} (c : TimedCache α) (value : α) (now : Int) : TimedCache α :=
  { c with value := value, time := now }

/-- Method `(c *TimedCache[T]) Expire()`. -/
def TimedCache.Expire {α : Type} (c : TimedCache α) (now : Int) : TimedCache α :=
  { c with time := now - c.expire }

/-- Go type `CheckCaches`. -/
abbrev CheckCaches (V : Type) := GoMap (TimedCache V)

/-- One second, as a `time.Duration`. -/
def second : Int := 1000000000

/-- The clock readings of one run of a per-URL check, in the order in which the
code takes them: `NewTimedCache` and `Expire` inside `match` on a missing key,
`Get`, and the write of `put`. -/
structure Clock where
  tNew : Int
  tExpire : Int
  tGet : Int
  tPut : Int

/-- Method `CheckCaches.makeKey`: the request URL followed by the body. `GetBody` of a
request built over a string or byte reader does not fail. -/
def CheckCaches.makeKey (reqUrl : String) (body : String) : String := reqUrl ++ body

/-- Method `CheckCaches.match` on the key of the request: the stored entry, or a fresh
entry over `empty` with a one-second life that is expired at once. -/
def CheckCaches.match {V : Type} (cc : CheckCaches V) (key : String) (empty : V)
    (tNew tExpire : Int) : TimedCache V :=
  match cc.get? key with
  | some resp => resp
  | none => (NewTimedCache empty second tNew).Expire tExpire

/-- Method `CheckCaches.put` on the key of the request. -/
def CheckCaches.put {V : Type} (cc : CheckCaches V) (key : String) (value : V)
    (expire : Int) (now : Int) : CheckCaches V :=
  match cc.get? key with
  | none => GoMap.set cc key (NewTimedCache value expire now)
  | some cache => GoMap.set cc key (cache.Set value now)

/-! ## internal/checker: the probe -/

/-- The collaborators of a probe, over the type `V` of a decoded response
(`map[string]interface{}`). -/
structure ProbeEnv (V : Type) where
  /-- Result of `http.NewRequest` on the URL: the string of the parsed URL, or `none` when
  it returns an error. -/
  newRequest : String → Option String
  /-- Result of `JsonRpcCaller.Call` on the request URL and payload: `none` when it returns an
  error (transport error, status other than 200, undecodable body). -/
  call : String → String → Option V
  /-- The test `value == nil`. -/
  isNil : V → Bool
  /-- The test `value["error"] != nil`. -/
  hasError : V → Bool
  /-- Result of `TextTemplate("{{.key}}").Parse(value)`: `none` when it returns an error. -/
  render : String → V → Option String
  /-- The empty map `checkCacheValue{}`. -/
  emptyValue : V

/-- Errors a checker returns (a run-time panic on `Matchers[0]` included). -/
inductive CheckErr where
  | newRequest
  | template
  | parseHeight
  | indexOutOfRange
  | regexpCompile
  deriving DecidableEq, Repr

/-- First part of `valueMatchChecker.check` (checker.go 133-162), which
`blockHeightChecker.getHeight` (286-317) and `simpleChecker.check` (356-383) repeat:
build the request, read the cache, and on a miss call the endpoint and store the
response. The result is an error, `none` when the function returns its zero
verdict with a nil error, or the response to match; then the caches, and whether
the endpoint was called. -/
def fetchValue {V : Type} (env : ProbeEnv V) (cacheExpire : Int) (clock : Clock)
    (url : String) (condition : HealthCheckCondition) (caches : CheckCaches V) :
    Except CheckErr (Option V) × CheckCaches V × Bool :=
  match env.newRequest url with
  | none => (.error .newRequest, caches, false)
  | some reqUrl =>
    let key := CheckCaches.makeKey reqUrl condition.Payload
    let cache := CheckCaches.match caches key env.emptyValue clock.tNew clock.tExpire
    match cache.Get clock.tGet with
    | (value, true) => (.ok (some value), caches, false)
    | (_, false) =>
      match env.call reqUrl condition.Payload with
      | none => (.ok none, caches, true)
      | some value =>
        if env.isNil value || env.hasError value then (.ok none, caches, true)
        else (.ok (some value), CheckCaches.put caches key value cacheExpire clock.tPut, true)

/-- Run a per-URL check on every URL of the list. The goroutines of the source
are run one after the other in list order, each over the caches left by the one
before; the clock readings are those of one goroutine. Results: the per-URL
results in list order, the caches, and the URLs whose endpoint was called. -/
def runChecks {V R : Type} (f : String → CheckCaches V → R × CheckCaches V × Bool) :
    List String → CheckCaches V → List (String × R) × CheckCaches V × List String
  | [], caches => ([], caches, [])
  | u :: us, caches =>
    let r := f u caches
    let rest := runChecks f us r.2.1
    ((u, r.1) :: rest.1, rest.2.1, if r.2.2 then u :: rest.2.2 else rest.2.2)

/-- The receive loop of `valueMatchChecker.Check` and `simpleChecker.Check`: the
first error received ends the check, every other result is written to `ret`. -/
def collectVerdicts : List (String × Except CheckErr Bool) → GoMap Bool →
    Except CheckErr (GoMap Bool)
  | [], ret => .ok ret
  | (_, .error err) :: _, _ => .error err
  | (url, .ok valid) :: rest, ret => collectVerdicts rest (ret.set url valid)

/-! ### ValueMatch -/

/-- The matcher loop of `valueMatchChecker.check` from the current `checkResult`. -/
def valueMatchChecker.matchAll {V : Type} (env : ProbeEnv V) (value : V) :
    List Matcher → Bool → Except CheckErr Bool
  | [], checkResult => .ok checkResult
  | matcher :: rest, _ =>
    match env.render matcher.Key value with
    | none => .error .template
    | some val =>
      let eq := val == matcher.Value
      let checkResult := if matcher.MatchType == "!=" then !eq else eq
      if !checkResult then .ok checkResult
      else valueMatchChecker.matchAll env value rest checkResult

/-- Method `valueMatchChecker.check`. -/
def valueMatchChecker.check {V : Type} (env : ProbeEnv V) (cacheExpire : Int) (clock : Clock)
    (url : String) (condition : HealthCheckCondition) (caches : CheckCaches V) :
    Except CheckErr Bool × CheckCaches V × Bool :=
  match fetchValue env cacheExpire clock url condition caches with
  | (.error err, caches1, probed) => (.error err, caches1, probed)
  | (.ok none, caches1, probed) => (.ok false, caches1, probed)
  | (.ok (some value), caches1, probed) =>
    (valueMatchChecker.matchAll env value condition.Matchers false, caches1, probed)

/-- The per-URL function of the first loop of `valueMatchChecker.Check`: an
ignored URL gets the verdict true without a call of `check`. -/
def valueMatchChecker.verdictOf {V : Type} (env : ProbeEnv V) (cacheExpire : Int) (clock : Clock)
    (condition : HealthCheckCondition) (url : String) (caches : CheckCaches V) :
    Except CheckErr Bool × CheckCaches V × Bool :=
  if condition.ignore url then (.ok true, caches, false)
  else valueMatchChecker.check env cacheExpire clock url condition caches

/-- Method `valueMatchChecker.Check`. -/
def valueMatchChecker.Check {V : Type} (env : ProbeEnv V) (cacheExpire : Int) (clock : Clock)
    (urls : List String) (condition : HealthCheckCondition) (caches : CheckCaches V) :
    Except CheckErr (GoMap Bool) × CheckCaches V × List String :=
  let r := runChecks (valueMatchChecker.verdictOf env cacheExpire clock condition) urls caches
  (collectVerdicts r.1 [], r.2.1, r.2.2)

/-! ### Simple -/

/-- Method `simpleChecker.check`. -/
def simpleChecker.check {V : Type} (env : ProbeEnv V) (cacheExpire : Int) (clock : Clock)
    (url : String) (condition : HealthCheckCondition) (caches : CheckCaches V) :
    Except CheckErr Bool × CheckCaches V × Bool :=
  if condition.ignore url then (.ok true, caches, false)
  else
    match fetchValue env cacheExpire clock url condition caches with
    | (.error err, caches1, probed) => (.error err, caches1, probed)
    | (.ok none, caches1, probed) => (.ok false, caches1, probed)
    | (.ok (some _), caches1, probed) => (.ok true, caches1, probed)

/-- Method `simpleChecker.Check`. -/
def simpleChecker.Check {V : Type} (env : ProbeEnv V) (cacheExpire : Int) (clock : Clock)
    (urls : List String) (condition : HealthCheckCondition) (caches : CheckCaches V) :
    Except CheckErr (GoMap Bool) × CheckCaches V × List String :=
  let r := runChecks (fun url cs => simpleChecker.check env cacheExpire clock url condition cs)
    urls caches
  (collectVerdicts r.1 [], r.2.1, r.2.2)

/-! ### Manual -/

/-- The matcher loop of `manualChecker.Check` on one URL from the current
`checkResult`; `compile` is `regexp.MustCompile` followed by `Match`, `none` when
the pattern does not compile (a panic). -/
def manualChecker.matchAll (compile : String → Option (String → Bool)) (url : String) :
    List Matcher → Bool → Except CheckErr Bool
  | [], checkResult => .ok checkResult
  | matcher :: rest, _ =>
    match compile matcher.Value with
    | none => .error .regexpCompile
    | some re =>
      let checkResult := if matcher.MatchType == "!=" then !(re url) else re url
      if !checkResult then .ok checkResult
      else manualChecker.matchAll compile url rest checkResult

/-- Method `manualChecker.Check` (internal/checker). -/
def manualChecker.Check (compile : String → Option (String → Bool))
    (urls : List String) (condition : HealthCheckCondition) : Except CheckErr (GoMap Bool) :=
  collectVerdicts (urls.map (fun url =>
    (url, manualChecker.matchAll compile url condition.Matchers false))) []

/-! ### BlockHeight -/

/-- Value of a digit of `strconv.ParseUint`: `0-9`, then letters of either case
from ten on. -/
def digitValue (c : Char) : Option Nat :=
  if '0' ≤ c ∧ c ≤ '9' then some (c.toNat - '0'.toNat)
  else if 'a' ≤ c ∧ c ≤ 'z' then some (c.toNat - 'a'.toNat + 10)
  else if 'A' ≤ c ∧ c ≤ 'Z' then some (c.toNat - 'A'.toNat + 10)
  else none

/-- The digit loop of `strconv.ParseUint` in an explicit base, without the
bound: `none` on a character that is no digit of the base. -/
def parseDigits (base : Nat) : List Char → Nat → Option Nat
  | [], n => some n
  | c :: cs, n =>
    match digitValue c with
    | none => none
    | some d => if d ≥ base then none else parseDigits base cs (n * base + d)

/-- Function `strconv.ParseInt(s, base, 64)` for an explicit base: `none` on any error
(empty string, bad digit, value outside int64). -/
def parseInt64 (s : List Char) (base : Nat) : Option Int :=
  let body (neg : Bool) (digits : List Char) : Option Int :=
    match digits with
    | [] => none
    | _ =>
      match parseDigits base digits 0 with
      | none => none
      | some un =>
        if !neg && un ≥ 2 ^ 63 then none
        else if neg && un > 2 ^ 63 then none
        else some (if neg then -(un : Int) else (un : Int))
  match s with
  | [] => none
  | '+' :: rest => body false rest
  | '-' :: rest => body true rest
  | _ => body false s

/-- Method `blockHeightChecker.parseHeight`. -/
def blockHeightChecker.parseHeight (val : String) : Option Int :=
  match val.data with
  | '0' :: 'x' :: rest => parseInt64 rest 16
  | cs => parseInt64 cs 10

/-- Two's-complement wrap of an integer to int64. -/
def wrapInt64 (x : Int) : Int := (x + 2 ^ 63) % 2 ^ 64 - 2 ^ 63

/-- Function `lo.Max`: zero on an empty collection. -/
def loMax : List Int → Int
  | [] => 0
  | x :: xs => xs.foldl (fun m item => if item > m then item else m) x

/-- Method `blockHeightChecker.getHeight`. -/
def blockHeightChecker.getHeight {V : Type} (env : ProbeEnv V) (cacheExpire : Int)
    (clock : Clock) (url : String) (condition : HealthCheckCondition) (caches : CheckCaches V) :
    Except CheckErr Int × CheckCaches V × Bool :=
  match fetchValue env cacheExpire clock url condition caches with
  | (.error err, caches1, probed) => (.error err, caches1, probed)
  | (.ok none, caches1, probed) => (.ok (-1), caches1, probed)
  | (.ok (some value), caches1, probed) =>
    match condition.Matchers with
    | [] => (.error .indexOutOfRange, caches1, probed)
    | matcher :: _ =>
      match env.render matcher.Key value with
      | none => (.error .template, caches1, probed)
      | some val =>
        if val == "" || val == "<no value>" then (.ok (-1), caches1, probed)
        else
          match blockHeightChecker.parseHeight val with
          | none => (.ok (-1), caches1, probed)
          | some height => (.ok height, caches1, probed)

/-- The maps and the slice the receive loop of `blockHeightChecker.Check` fills. -/
structure HeightAcc where
  ret : GoMap Bool
  heightMap : GoMap Int
  heights : List Int

/-- The receive loop of `blockHeightChecker.Check`. -/
def blockHeightChecker.collect : List (String × Except CheckErr Int) → HeightAcc →
    Except CheckErr HeightAcc
  | [], acc => .ok acc
  | (_, .error err) :: _, _ => .error err
  | (url, .ok height) :: rest, acc =>
    if height = -1 then
      blockHeightChecker.collect rest { acc with ret := acc.ret.set url false }
    else if height = 0 then
      blockHeightChecker.collect rest { acc with ret := acc.ret.set url true }
    else
      blockHeightChecker.collect rest
        { acc with heightMap := acc.heightMap.set url height, heights := acc.heights ++ [height] }

/-- The verdict of the last loop of `blockHeightChecker.Check` on one height. -/
def heightValid (matchType : String) (max height tolerance : Int) : Bool :=
  (matchType == "<" && decide (wrapInt64 (max - height) < tolerance)) ||
    (matchType == "<=" && decide (wrapInt64 (max - height) ≤ tolerance))

/-- The part of `blockHeightChecker.Check` after the receive loop (lines
238-268): the tolerance, the maximum and the stored height, and the verdict of
every URL of `heightMap`. Results: the verdicts or the error, and `lastBlocks`. -/
def blockHeightChecker.verdicts (matcher : Matcher) (lastBlocks : GoMap Int) (chainId : String)
    (acc : HeightAcc) : Except CheckErr (GoMap Bool) × GoMap Int :=
  if acc.heights.length = 0 then (.ok acc.ret, lastBlocks)
  else
    match blockHeightChecker.parseHeight matcher.Value with
    | none => (.error .parseHeight, lastBlocks)
    | some tolerance =>
      let max0 := loMax acc.heights
      let stored := lastBlocks.get? chainId
      let keep := match stored with
        | some lastBlock => decide (lastBlock > max0)
        | none => false
      let max := if keep then stored.getD 0 else max0
      let lastBlocks1 := if keep then lastBlocks else lastBlocks.set chainId max0
      (.ok (GoMap.mergeInto acc.ret
          (acc.heightMap.map (fun p => (p.1, heightValid matcher.MatchType max p.2 tolerance)))),
        lastBlocks1)

/-- The per-URL function of the first loop of `blockHeightChecker.Check`: an
ignored URL gets the height 0 without a call of the height function. -/
def blockHeightChecker.heightOf {V : Type}
    (getHeightFn : String → HealthCheckCondition → CheckCaches V →
      Except CheckErr Int × CheckCaches V × Bool)
    (condition : HealthCheckCondition) (url : String) (caches : CheckCaches V) :
    Except CheckErr Int × CheckCaches V × Bool :=
  if condition.ignore url then (.ok 0, caches, false)
  else getHeightFn url condition caches

/-- Method `blockHeightChecker.Check`, over the height function of the checker
(`getHeightFn`) and its `lastBlocks`. Results: the verdicts or the error, then
`lastBlocks`, the caches, and the URLs whose endpoint was called. -/
def blockHeightChecker.Check {V : Type}
    (getHeightFn : String → HealthCheckCondition → CheckCaches V →
      Except CheckErr Int × CheckCaches V × Bool)
    (lastBlocks : GoMap Int) (chainId : String) (urls : List String)
    (condition : HealthCheckCondition) (caches : CheckCaches V) :
    Except CheckErr (GoMap Bool) × GoMap Int × CheckCaches V × List String :=
  match condition.Matchers with
  | [] => (.error .indexOutOfRange, lastBlocks, caches, [])
  | matcher :: _ =>
    let r := runChecks (blockHeightChecker.heightOf getHeightFn condition) urls caches
    match blockHeightChecker.collect r.1
        { ret := [], heightMap := [], heights := List.replicate urls.length 0 } with
    | .error err => (.error err, lastBlocks, r.2.1, r.2.2)
    | .ok acc =>
      let v := blockHeightChecker.verdicts matcher lastBlocks chainId acc
      (v.1, v.2, r.2.1, r.2.2)

/-! ## Concrete collaborators for the examples -/

/-- A decoded response of the examples: whether it carries a non-null `error`
member, and its `result` member. -/
structure Reply where
  error : Bool
  result : String
  deriving DecidableEq, Repr

/-- Probe collaborators over a table of endpoints: a URL of the table answers
with its reply, an endpoint listed with `none` and every other URL fail the
call; a URL with a blank is rejected by `http.NewRequest`; the template
`{{.result}}` renders the `result` member, another key of one segment renders the
empty string, and a longer path fails on the string it meets. -/
def tableEnv (table : List (String × Option Reply)) : ProbeEnv Reply where
  newRequest := fun url => if url.data.contains ' ' then none else some url
  call := fun reqUrl _ => (List.lookup reqUrl table).join
  isNil := fun _ => false
  hasError := fun v => v.error
  render := fun key v =>
    if key == "result" then some v.result
    else if key.data.contains '.' then none
    else some ""
  emptyValue := { error := false, result := "" }

/-- Clock readings of the examples: four successive nanoseconds. -/
def exampleClock : Clock := { tNew := 1000, tExpire := 1001, tGet := 1002, tPut := 1003 }

/-- The block-height condition of the examples: tolerance 2 under `<`. -/
def heightCondition : HealthCheckCondition :=
  { Ignore := [], CheckStrategy := "BlockHeight", Payload := "\x7b\"method\":\"eth_blockNumber\"\x7d",
    Matchers := [{ MatchType := "<", Key := "result", Value := "0x2" }] }

/-- The probe of `url` fails on these caches: the request is built, the cache
has no live entry for it, and the call returns an error (transport error,
status other than 200, undecodable body), a nil map, or a response with a
non-null `error` member. -/
def probeFails {V : Type} (env : ProbeEnv V) (clock : Clock) (url : String)
    (condition : HealthCheckCondition) (caches : CheckCaches V) : Bool :=
  match env.newRequest url with
  | none => false
  | some reqUrl =>
    !((CheckCaches.match caches (CheckCaches.makeKey reqUrl condition.Payload) env.emptyValue
        clock.tNew clock.tExpire).Get clock.tGet).2 &&
      (match env.call reqUrl condition.Payload with
        | none => true
        | some value => env.isNil value || env.hasError value)

/-- The tolerance of a block-height condition: `parseHeight(Matchers[0].Value)`,
`none` when there is no matcher or its value does not parse. -/
def blockHeightChecker.tolerance (condition : HealthCheckCondition) : Option Int :=
  match condition.Matchers with
  | [] => none
  | matcher :: _ => blockHeightChecker.parseHeight matcher.Value

/-! ## cloudflare/workers/gateway-jsonrpc/main.go: the trace -/

/-- Go struct `requestTrace` (`ID` is the joined string `withRequest` stores). -/
structure requestTrace where
  Protocol : String
  ID : String
  Method : String
  ChainId : String
  Source : String
  Url : String
  Latency : Int
  Group : String
  Service : String
  Status : String
  Message : String
  VisitorIp : String
  Origin : String
  Version : String
  Retries : Int
  Mode : String
  deriving DecidableEq, Repr

/-- Go struct `JsonRPCError`. -/
structure JsonRPCError where
  Code : Int
  Message : String
  deriving DecidableEq, Repr

/-- Go struct `JsonRPCResponse`: `Error` is a pointer, nil for a null or absent
member. -/
structure JsonRPCResponse where
  Error : Option JsonRPCError
  deriving DecidableEq, Repr

/-- The two decodings `withResponse` asks of `encoding/json`. -/
structure JsonCodec where
  /-- Result of `json.Unmarshal(bodyBytes, &jsonResponse)`: `none` when it returns an error,
  as it does on a body that is a JSON array. -/
  unmarshalResponse : String → Option JsonRPCResponse
  /-- Result of `json.Unmarshal(bodyBytes, &jsonResponses)`: `none` when it returns an error. -/
  unmarshalResponses : String → Option (List JsonRPCResponse)

/-- Function `newRequestTraceBuilder(service, group)`. -/
def newRequestTraceBuilder (service group : String) : requestTrace :=
  { Protocol := "jsonrpc", ID := "", Method := "", ChainId := "", Source := "", Url := "",
    Latency := 0, Group := group, Service := service, Status := "", Message := "",
    VisitorIp := "", Origin := "", Version := "", Retries := 0, Mode := "" }

/-- Method `requestTraceBuilder.withError`. -/
def requestTraceBuilder.withError (rt : requestTrace) (code : Int) (message : String) :
    requestTrace :=
  { rt with Status := toString code, Message := message }

/-- Method `requestTraceBuilder.withMode`. -/
def requestTraceBuilder.withMode (rt : requestTrace) (mode : String) : requestTrace :=
  { rt with Mode := mode }

/-- Method `requestTraceBuilder.incrementRetries`. -/
def requestTraceBuilder.incrementRetries (rt : requestTrace) : requestTrace :=
  { rt with Retries := rt.Retries + 1 }

/-- Method `requestTraceBuilder.withUpstreamNode`. -/
def requestTraceBuilder.withUpstreamNode (rt : requestTrace) (url : String) : requestTrace :=
  { rt with Url := url }

/-- Method `requestTraceBuilder.withLargeResponse` (`http.StatusMultiStatus` is 207). -/
def requestTraceBuilder.withLargeResponse (rt : requestTrace) (latency : Int) : requestTrace :=
  { rt with Status := toString (207 : Int), Message := "Response entity too large",
            Latency := latency }

/-- The per-element status and message of `withResponse`. -/
def responseStatus (jr : JsonRPCResponse) : String × String :=
  match jr.Error with
  | some err => (toString err.Code, err.Message)
  | none => ("200", "OK")

/-- The status and message `withResponse` computes (lines 645-680), `none` when it
returns the error "empty response". -/
def composeStatus (codec : JsonCodec) (statusCode : Int) (bodyBytes : String) :
    Option (String × String) :=
  if statusCode ≠ 200 then some (toString statusCode, bodyBytes)
  else
    match codec.unmarshalResponse bodyBytes with
    | some jsonResponse =>
      some (String.intercalate "&" ([jsonResponse].map (fun jr => (responseStatus jr).1)),
        String.intercalate "&" ([jsonResponse].map (fun jr => (responseStatus jr).2)))
    | none =>
      match codec.unmarshalResponses bodyBytes with
      | none => some (toString statusCode, bodyBytes)
      | some jsonResponses =>
        if jsonResponses.length = 0 then none
        else
          some (String.intercalate "&" (jsonResponses.map (fun jr => (responseStatus jr).1)),
            String.intercalate "&" (jsonResponses.map (fun jr => (responseStatus jr).2)))

/-- Method `requestTraceBuilder.withResponse`: the trace, and the error if any. -/
def requestTraceBuilder.withResponse (codec : JsonCodec) (rt : requestTrace) (statusCode : Int)
    (bodyBytes : String) (latency : Int) : requestTrace × Option String :=
  match composeStatus codec statusCode bodyBytes with
  | some (status, message) =>
    ({ rt with Latency := latency, Status := status, Message := message }, none)
  | none => ({ rt with Latency := latency }, some "empty response")

/-! ## gateway-jsonrpc: the fan-out -/

/-- Loop of `callFuncWithRetry`, from call number `i` with `remaining` calls left, over a
state `σ` the calls share; `cur` is `(ret, lastErr)` and the state. -/
def callFuncWithRetry.loop {T E σ : Type} (fn : Nat → σ → (T × Option E) × σ) :
    Nat → Nat → (T × Option E) × σ → (T × Option E) × σ
  | 0, _, cur => cur
  | remaining + 1, i, cur =>
    let r := fn i cur.2
    match r.1.2 with
    | none => r
    | some _ => callFuncWithRetry.loop fn remaining (i + 1) r

/-- Function `callFuncWithRetry`; `zero` is the zero value of `T`. -/
def callFuncWithRetry {T E σ : Type} (callTimes : Nat) (fn : Nat → σ → (T × Option E) × σ)
    (zero : T) (s : σ) : (T × Option E) × σ :=
  callFuncWithRetry.loop fn callTimes 0 ((zero, none), s)

/-- What one upstream request of the fan-out meets. -/
inductive FetchOutcome where
  /-- The call `fetch.NewRequest` returns an error. -/
  | requestError
  /-- The call `cli.Do` returns an error. -/
  | transportError
  /-- A response: its status code, its `ContentLength`, the bytes `io.ReadAll`
  returns, and whether it returns them without an error. -/
  | response (statusCode : Int) (contentLength : Int) (body : String) (readOk : Bool)
  deriving DecidableEq, Repr

/-- Errors of the fan-out closure. -/
inductive FanOutError where
  | request
  | transport
  | readBody
  | emptyResponse
  | retryable (code : Int)
  deriving DecidableEq, Repr

/-- What the fan-out closure of `handlePostMethod` shares between its calls: the
trace, `respBodyBytes`, and (for the statements) the URLs requested so far. -/
structure FanOutState where
  rt : requestTrace
  respBodyBytes : String
  attempted : List String
  deriving DecidableEq, Repr

/-- The closure `handlePostMethod` hands to `callFuncWithRetry` (lines 296-340).
`upstream i url` is what request number `i`, to `url`, meets; `latency i` is
`time.Since(startTime)` at that request. The response is kept as its status
code. -/
def fanOutCall (codec : JsonCodec) (upstream : Nat → String → FetchOutcome)
    (latency : Nat → Int) (targetUrls : List String) (i : Nat) (st : FanOutState) :
    (Option Int × Option FanOutError) × FanOutState :=
  let rt1 := if i ≠ 0 then requestTraceBuilder.incrementRetries st.rt else st.rt
  let targetUrl := targetUrls.getD i ""
  let rt2 := requestTraceBuilder.withUpstreamNode rt1 targetUrl
  let seen := st.attempted ++ [targetUrl]
  match upstream i targetUrl with
  | .requestError =>
    ((none, some .request), { st with rt := rt2, attempted := seen })
  | .transportError =>
    ((none, some .transport), { st with rt := rt2, attempted := seen })
  | .response statusCode contentLength body readOk =>
    if contentLength > 5 * 1024 * 1024 then
      ((some statusCode, none),
        { st with rt := requestTraceBuilder.withLargeResponse rt2 (latency i), attempted := seen })
    else if !readOk then
      ((none, some .readBody), { rt := rt2, respBodyBytes := body, attempted := seen })
    else
      let r := requestTraceBuilder.withResponse codec rt2 statusCode body (latency i)
      match r.2 with
      | some _ =>
        ((none, some .emptyResponse), { rt := r.1, respBodyBytes := body, attempted := seen })
      | none =>
        if r.1.Status == "200" || r.1.Status == "3" || r.1.Status == "200&200" then
          ((some statusCode, none), { rt := r.1, respBodyBytes := body, attempted := seen })
        else
          ((some statusCode, some (.retryable statusCode)),
            { rt := r.1, respBodyBytes := body, attempted := seen })

/-- The fan-out of `handlePostMethod` over the chosen URLs. -/
def fanOut (codec : JsonCodec) (upstream : Nat → String → FetchOutcome)
    (latency : Nat → Int) (targetUrls : List String) (st : FanOutState) :
    (Option Int × Option FanOutError) × FanOutState :=
  callFuncWithRetry targetUrls.length (fanOutCall codec upstream latency targetUrls) none st

/-- An attempt is accepted: the response is large (`ContentLength` over 5 MiB),
or its body is read and the status composed from it is "200", "3" or
"200&200". -/
def acceptedOutcome (codec : JsonCodec) : FetchOutcome → Bool
  | .requestError => false
  | .transportError => false
  | .response statusCode contentLength body readOk =>
    if contentLength > 5 * 1024 * 1024 then true
    else readOk &&
      match composeStatus codec statusCode body with
      | some (status, _) => status == "200" || status == "3" || status == "200&200"
      | none => false

/-! ## gateway-jsonrpc: request parameters and selection -/

/-- Function `strings.Contains` on the characters of the two strings. -/
def containsChars : List Char → List Char → Bool
  | [], sub => sub.isEmpty
  | c :: cs, sub => sub.isPrefixOf (c :: cs) || containsChars cs sub

/-- Function `strings.Contains(s, substr)`. -/
def stringsContains (s substr : String) : Bool := containsChars s.data substr.data

/-- Function `strings.Split(s, ",")` on the characters of the string: the pieces between
the commas, one piece more than there are commas. -/
def splitComma : List Char → List (List Char)
  | [] => [[]]
  | c :: cs =>
    if c = ',' then [] :: splitComma cs
    else
      match splitComma cs with
      | [] => [[c]]
      | piece :: pieces => (c :: piece) :: pieces

/-- Function `strings.Split(s, ",")`. -/
def stringsSplitComma (s : String) : List String := (splitComma s.data).map String.mk

/-- Go struct `requestParams` (headers and start time left out). -/
structure requestParams where
  accessKey : String
  source : String
  chainId : String
  rpcMethod : String
  httpMethod : String
  body : String
  deriving DecidableEq, Repr

/-- Method `requestParams.isPaidMode`. -/
def requestParams.isPaidMode (rp : requestParams) : Bool := stringsContains rp.source "paid"

/-- Method `requestParams.isMevMode`. -/
def requestParams.isMevMode (rp : requestParams) : Bool := stringsContains rp.source "mev"

/-- Method `requestParams.isTxMethod`. -/
def requestParams.isTxMethod (rp : requestParams) : Bool :=
  ["eth_sign", "eth_signTransaction", "eth_sendTransaction", "eth_sendRawTransaction"].any
    (fun method => method == rp.rpcMethod)

/-- The random source of the selection: `Intn(n)` and `Shuffle` of `math/rand`. -/
structure RandSource where
  intn : Nat → Nat
  shuffle : List String → List String

/-- An error answer of the handler: status code and text. -/
structure HttpError where
  code : Nat
  message : String
  deriving DecidableEq, Repr

/-- One random element of a non-empty slice: `arr[rand.Intn(len(arr))]`. -/
def pickOne (rnd : RandSource) (arr : List String) : String :=
  arr.getD (rnd.intn arr.length) ""

/-- The guard of `handlePostMethod` on a requested source (lines 215-226): the
bucket named by the source, `free` unless the source is in paid mode, is
missing or empty. -/
def sourceUnavailable (endpointMap : GoMap (List String)) (rp : requestParams) : Bool :=
  rp.source != "" &&
    (match endpointMap.get? (if !rp.isPaidMode then "free" else rp.source) with
      | some arr => arr.length == 0
      | none => true)

/-- The selection of `handlePostMethod` (lines 209-292) on the endpoint map:
the mode written to the trace and `targetUrls`, or the error answered. -/
def selectTargets (rnd : RandSource) (endpointMap : GoMap (List String)) (rp : requestParams) :
    Except HttpError (String × List String) :=
  if endpointMap.length = 0 then
    .error { code := 400, message := "chainId not support, no available nodes" }
  else if sourceUnavailable endpointMap rp then
    .error { code := 400, message := "source not support, no available nodes" }
  else if rp.isTxMethod then
    if rp.isMevMode then
      match endpointMap.get? "free" with
      | some (x :: xs) => .ok ("mev_tx", [pickOne rnd (x :: xs)])
      | _ => .error { code := 400, message := "chainId or source not support, no available nodes" }
    else
      match endpointMap.get? "paid" with
      | some (x :: xs) => .ok ("paid_tx", [pickOne rnd (x :: xs)])
      | _ =>
        match endpointMap.get? "free" with
        | some (x :: xs) => .ok ("free_tx", [pickOne rnd (x :: xs)])
        | _ =>
          .error { code := 400, message := "chainId or source not support, no available nodes" }
  else if rp.isPaidMode then
    .ok ("paid_query", (rnd.shuffle (endpointMap.getD "paid" [])).take 3)
  else
    let targetUrls := (rnd.shuffle (endpointMap.getD "free" [])).take 3
    if !rp.isMevMode then
      match endpointMap.get? "paid" with
      | some (x :: xs) => .ok ("free_query", targetUrls ++ [pickOne rnd (x :: xs)])
      | _ => .ok ("free_query", targetUrls)
    else .ok ("free_query", targetUrls)

/-! ## gateway-jsonrpc: the endpoints of a chain -/

/-- A row of `ready_upstream` (the columns the handler reads). -/
structure ReadyUpstream where
  Source : String
  Rpc : String
  deriving DecidableEq, Repr

/-- Loop of `StringStream.Unique`, with `seen` the strings met so far. -/
def uniqueFrom : List String → List String → List String
  | [], _ => []
  | str :: rest, seen =>
    if seen.contains str then uniqueFrom rest seen
    else str :: uniqueFrom rest (str :: seen)

/-- Method `StringStream.Unique`. -/
def StringStream.Unique (arr : List String) : List String := uniqueFrom arr []

/-- Method `Rpc.GetUrls`. -/
def Rpc.GetUrls (rpc : String) : List String := stringsSplitComma rpc

/-- Method `Rpc.GetUrlsWithUnique`. -/
def Rpc.GetUrlsWithUnique (rpc : String) : List String :=
  if rpc = "" then [] else StringStream.Unique (Rpc.GetUrls rpc)

/-- Method `Stream.ToMap` keyed by the source: a later row replaces an earlier
row of the same source. -/
def toSourceMap (upstreams : List ReadyUpstream) : GoMap ReadyUpstream :=
  upstreams.foldl (fun m t => m.set t.Source t) []

/-- The free bucket of `getChainEndpoins` when no source is requested: the URLs
of the rows of the map whose source does not contain "paid", without
duplicates. -/
def freeOfAll (upstreamMap : GoMap ReadyUpstream) : List String :=
  StringStream.Unique
    (upstreamMap.foldl (fun free kv =>
      if stringsContains kv.2.Source "paid" then free
      else if kv.2.Rpc ≠ "" then free ++ Rpc.GetUrls kv.2.Rpc
      else free) [])

/-- Method `proxyHandler.getChainEndpoins` on the rows the query returns (the
query having succeeded): the map of the buckets `free` and `paid`. -/
def getChainEndpoins (upstreams : List ReadyUpstream) (rp : requestParams) :
    GoMap (List String) :=
  if upstreams.length = 0 then []
  else
    let upstreamMap := toSourceMap upstreams
    let paid : List String :=
      match upstreamMap.get? "paid" with
      | some upstream => if upstream.Rpc ≠ "" then Rpc.GetUrlsWithUnique upstream.Rpc else []
      | none => []
    let free : List String :=
      if rp.source = "" then freeOfAll upstreamMap
      else if rp.source ≠ "paid" then
        match upstreamMap.get? rp.source with
        | some upstream => if upstream.Rpc ≠ "" then Rpc.GetUrlsWithUnique upstream.Rpc else []
        | none => []
      else []
    [("free", free), ("paid", paid)]

/-! ## gateway-jsonrpc: route rules -/

/-- Go struct `methodRouteRule`. -/
structure methodRouteRule where
  Source : String
  ChainIds : String
  deriving DecidableEq, Repr

/-- Method `methodRouteRule.match`. -/
def methodRouteRule.match (r : methodRouteRule) (chainId : String) : Bool :=
  (stringsSplitComma r.ChainIds).any (fun ID => chainId == ID)

/-- What `GetConfigByKey` returns for the key `route_rules` of module `upstream`. -/
inductive ConfigResult where
  | value (v : String)
  | noRows
  | failed
  deriving DecidableEq, Repr

/-- Errors of `applyRouteRules`. -/
inductive RouteError where
  | query
  | unmarshal
  deriving DecidableEq, Repr

/-- Method `proxyHandler.applyRouteRules`. `unmarshal` is `json.Unmarshal` into a
`map[string]methodRouteRule`: `none` when it returns an error, `some none` when it
leaves the map nil. `skRouteRules` is the `RouteRules` column of the secret key. -/
def applyRouteRules (unmarshal : String → Option (Option (GoMap methodRouteRule)))
    (config : ConfigResult) (skRouteRules : String) (rp : requestParams) :
    Except RouteError requestParams :=
  match config with
  | .failed => .error .query
  | _ =>
    let configValue := match config with
      | .value v => v
      | _ => ""
    let globalRules : Option (Option (GoMap methodRouteRule)) :=
      if configValue ≠ "" then unmarshal configValue else some none
    match globalRules with
    | none => .error .unmarshal
    | some routeRules0 =>
      let merged : Option (Option (GoMap methodRouteRule)) :=
        if skRouteRules ≠ "" then
          match unmarshal skRouteRules with
          | none => none
          | some skRules =>
            match routeRules0 with
            | none => some skRules
            | some routeRules => some (some (GoMap.mergeInto routeRules (skRules.getD [])))
        else some routeRules0
      match merged with
      | none => .error .unmarshal
      | some routeRules =>
        match (routeRules.getD []).get? rp.rpcMethod with
        | some rule => if rule.match rp.chainId then .ok { rp with source := rule.Source } else .ok rp
        | none => .ok rp

/-- A decoder for the three bodies of the examples: a result object, an error
object, and the array of the two. -/
def exampleCodec : JsonCodec where
  unmarshalResponse := fun body =>
    if body = "\x7b\"id\":1,\"result\":1\x7d" then some { Error := none }
    else if body = "\x7b\"id\":2,\"error\":\x7b\"code\":-32601,\"message\":\"m\"\x7d\x7d" then
      some { Error := some { Code := -32601, Message := "m" } }
    else none
  unmarshalResponses := fun body =>
    if body = "[\x7b\"id\":1,\"result\":1\x7d,\x7b\"id\":2,\"error\":\x7b\"code\":-32601,\"message\":\"m\"\x7d\x7d]"
    then some [{ Error := none }, { Error := some { Code := -32601, Message := "m" } }]
    else none

/-- Upstreams of the fan-out examples: the first request meets a response of
6 MiB, every later one a small result object. -/
def largeFirstUpstream : Nat → String → FetchOutcome :=
  fun i _ =>
    if i = 0 then .response 200 6291456 "" true
    else .response 200 19 "\x7b\"id\":1,\"result\":1\x7d" true

/-- Upstreams of the fan-out examples: the first request meets a transport
error, the second an error object, every later one a result object. -/
def failingFirstUpstream : Nat → String → FetchOutcome :=
  fun i _ =>
    if i = 0 then .transportError
    else if i = 1 then
      .response 200 50 "\x7b\"id\":2,\"error\":\x7b\"code\":-32601,\"message\":\"m\"\x7d\x7d" true
    else .response 200 19 "\x7b\"id\":1,\"result\":1\x7d" true

/-- The state in which `handlePostMethod` starts the fan-out: a fresh trace. -/
def freshFanOut : FanOutState :=
  { rt := newRequestTraceBuilder "svc" "grp", respBodyBytes := "", attempted := [] }

/-- A random source for the examples: `Intn` answers the last index and
`Shuffle` reverses the slice. -/
def exampleRand : RandSource where
  intn := fun n => n - 1
  shuffle := fun l => l.reverse

/-- The request of the examples over a method and a source. -/
def exampleRequest (method source : String) : requestParams :=
  { accessKey := "0123456789abcdef0123456789abcdef", source := source, chainId := "1",
    rpcMethod := method, httpMethod := "POST", body := "" }

/-- The value of the `route_rules` configuration the handler reads: empty when
the query finds no row. -/
def ConfigResult.valueOrEmpty : ConfigResult → String
  | .value v => v
  | _ => ""

/-- The rule map a serialized `route_rules` text stands for: no rule for an empty
text or a nil map, `none` when the text does not unmarshal. -/
def decodedRules (unmarshal : String → Option (Option (GoMap methodRouteRule)))
    (text : String) : Option (GoMap methodRouteRule) :=
  if text = "" then some []
  else (unmarshal text).map (fun m => m.getD [])

/-- The effective rule of a method: the rule of the secret key when it has one
for the method, the global rule otherwise. -/
def effectiveRule (globalRules skRules : GoMap methodRouteRule) (method : String) :
    Option methodRouteRule :=
  match skRules.get? method with
  | some rule => some rule
  | none => globalRules.get? method

/-- A decoder of route rules for the examples, over two texts. -/
def exampleRules : String → Option (Option (GoMap methodRouteRule))
  | "global" => some (some [("eth_call", { Source := "chainlist", ChainIds := "1,56" }),
      ("eth_getLogs", { Source := "custom/eth_getLogs", ChainIds := "1" })])
  | "key" => some (some [("eth_call", { Source := "paid", ChainIds := "56,97" })])
  | _ => none

/-- The map that holds `f u` for every URL of the list. -/
def verdictMap (f : String → Bool) : List String → GoMap Bool
  | [] => []
  | u :: us => (verdictMap f us).set u (f u)

/-- A checker for the examples: it accepts exactly the URLs the condition lists
in `Ignore`, and answers for every URL it is handed. -/
def listedChecker : Unit → String → List String → HealthCheckCondition →
    Except CheckErr (GoMap Bool) × Unit :=
  fun s _ urls condition => (.ok (verdictMap (fun u => condition.ignore u) urls), s)

/-- A condition of the examples that lists the given URLs. -/
def listing (urls : List String) : HealthCheckCondition :=
  { Ignore := urls, CheckStrategy := "Simple", Payload := "ping", Matchers := [] }

/-- The condition of the probe examples: `http://a` is ignored, and the one
matcher reads the `result` member (tolerance 100 for BlockHeight). -/
def probeCondition : HealthCheckCondition :=
  { Ignore := ["http://a"], CheckStrategy := "ValueMatch", Payload := "ping",
    Matchers := [{ MatchType := "<=", Key := "result", Value := "0x64" }] }

/-- The endpoints of the probe examples: `http://b` fails the call, `http://c`
answers the height 100, `http://d` answers an error object; `http://a` is not
served at all. -/
def probeEnv : ProbeEnv Reply :=
  tableEnv [("http://b", none), ("http://c", some { error := false, result := "0x64" }),
    ("http://d", some { error := true, result := "" })]

/-- A stand-in for `regexp` in the examples: a pattern matches the URLs that
contain it. -/
def literalRegexp : String → Option (String → Bool) :=
  fun pattern => some (fun url => stringsContains url pattern)

/-! ## A fragment of `regexp` for the examples -/

/-- One item of a pattern of the fragment: a literal character or `.`, possibly
followed by `*`. -/
structure RegexItem where
  /-- The literal character, `none` for `.`. -/
  lit : Option Char
  /-- Whether the item is followed by `*`. -/
  star : Bool

/-- Whether an item accepts a character; `.` accepts every character but the
newline. -/
def RegexItem.accepts (item : RegexItem) (c : Char) : Bool :=
  match item.lit with
  | some l => c == l
  | none => c != '\n'

/-- The characters with a special meaning in a pattern. -/
def regexMeta : List Char :=
  ['\\', '[', ']', '(', ')', '\x7b', '\x7d', '+', '?', '|', '^', '$', '*']

/-- The item of one pattern character. -/
def regexItemOf (c : Char) (star : Bool) : Option RegexItem :=
  if c == '.' then some { lit := none, star := star }
  else if regexMeta.contains c then none
  else some { lit := some c, star := star }

/-- The items of a pattern; `none` outside the fragment. -/
def regexItems : List Char → Option (List RegexItem)
  | [] => some []
  | c :: '*' :: rest =>
    match regexItemOf c true, regexItems rest with
    | some item, some items => some (item :: items)
    | _, _ => none
  | c :: rest =>
    match regexItemOf c false, regexItems rest with
    | some item, some items => some (item :: items)
    | _, _ => none

/-- Zero or more characters accepted by `p`, followed by what `k` accepts. -/
def regexStar (k : List Char → Bool) (p : Char → Bool) : List Char → Bool
  | [] => k []
  | x :: xs => k (x :: xs) || (p x && regexStar k p xs)

/-- Whether the items match a prefix of the input. -/
def regexMatchHere : List RegexItem → List Char → Bool
  | [], _ => true
  | item :: items, input =>
    if item.star then regexStar (regexMatchHere items) item.accepts input
    else
      match input with
      | [] => false
      | x :: xs => item.accepts x && regexMatchHere items xs

/-- A stand-in for `regexp.MustCompile` followed by `Match` on the fragment of
literal characters, `.` and `*`: the pattern matches when it matches somewhere
in the URL. A pattern outside the fragment is treated as one that does not
compile. -/
def miniRegexp : String → Option (String → Bool) :=
  fun pattern =>
    match regexItems pattern.data with
    | none => none
    | some items => some (fun url => regexStar (regexMatchHere items) (fun _ => true) url.data)

/-- The three URLs of the manual example. -/
def manualUrls : List String :=
  ["https://data-seed-prebsc-1-s1.bnbchain.org:8545",
   "https://data-seed-prebsc-2-s1.bnbchain.org:8545",
   "https://bsc-testnet.publicnode.com"]

/-- The condition of the manual example. -/
def manualCondition : HealthCheckCondition :=
  { Ignore := [], CheckStrategy := "Manual", Payload := "",
    Matchers := [{ MatchType := "=", Key := "", Value := ".*data-seed-prebsc.*" }] }

/-! ## Recording what a checker is handed -/

/-- The record of one call of the checker: the URL list it was handed and what
it returned. -/
abbrev CheckLog (ε : Type) := List (List String × Except ε (GoMap Bool))

/-- A checker that behaves as `checker` and appends each call to a log kept
next to the state of `checker`. -/
def recordingChecker {σ ε : Type}
    (checker : σ → String → List String → HealthCheckCondition → Except ε (GoMap Bool) × σ) :
    σ × CheckLog ε → String → List String → HealthCheckCondition →
      Except ε (GoMap Bool) × (σ × CheckLog ε) :=
  fun st chainId urls condition =>
    let r := checker st.1 chainId urls condition
    (r.1, (r.2, st.2 ++ [(urls, r.1)]))

/-- The results recorded by the calls of a log, merged in order into `ret` as
`HealthCheckConditionList.Check` merges them. -/
def recordedResults {ε : Type} (ret : GoMap Bool) (log : CheckLog ε) : GoMap Bool :=
  log.foldl (fun acc entry =>
    match entry.2 with
    | .ok curRet => GoMap.mergeInto acc curRet
    | .error _ => acc) ret

/-- The calls a loop of `HealthCheckConditionList.Check` makes from the state
`(ret, urls)`: each call is handed the working list without the URLs recorded
as false, and a call that returns an error is the last one. -/
def chainFrom {ε : Type} : GoMap Bool → List String → CheckLog ε → Prop
  | _, _, [] => True
  | ret, urls, (handed, result) :: rest =>
    handed = urls.filter (keepUrl ret) ∧
      match result with
      | .ok curRet => chainFrom (GoMap.mergeInto ret curRet) handed rest
      | .error _ => rest = []

/-- A cache that holds one entry for the key `k`, written at time 0 with the
given life. -/
def oneEntryCache (expire : Int) : CheckCaches String :=
  [("k", { value := "old", time := 0, expire := expire })]

/-! ## Rounds of the block-height checker -/

/-- One call of `blockHeightChecker.Check` on a checker: the chain, the URLs,
the condition and the caches it is called with, and the height function as the
endpoints answer at that time. -/
structure HeightRound (V : Type) where
  getHeightFn : String → HealthCheckCondition → CheckCaches V →
    Except CheckErr Int × CheckCaches V × Bool
  chainId : String
  urls : List String
  condition : HealthCheckCondition
  caches : CheckCaches V

/-- The `lastBlocks` of the checker after one round. -/
def blockHeightChecker.round {V : Type} (lastBlocks : GoMap Int) (r : HeightRound V) :
    GoMap Int :=
  (blockHeightChecker.Check r.getHeightFn lastBlocks r.chainId r.urls r.condition r.caches).2.1

/-- The `lastBlocks` of the checker after a sequence of rounds. -/
def blockHeightChecker.rounds {V : Type} (lastBlocks : GoMap Int) (rs : List (HeightRound V)) :
    GoMap Int :=
  rs.foldl blockHeightChecker.round lastBlocks

/-- The heights the first loop of a round obtains, one per URL whose height
function returned without an error (the 0 of an ignored URL and the -1 of a
failed probe included). -/
def blockHeightChecker.observed {V : Type} (r : HeightRound V) : List Int :=
  (runChecks (blockHeightChecker.heightOf r.getHeightFn r.condition) r.urls r.caches).1.filterMap
    (fun p => match p.2 with
      | .ok height => some height
      | .error _ => none)

/-- Whether a round returns a result and not an error. -/
def blockHeightChecker.succeeds {V : Type} (lastBlocks : GoMap Int) (r : HeightRound V) : Bool :=
  match (blockHeightChecker.Check r.getHeightFn lastBlocks r.chainId r.urls r.condition
      r.caches).1 with
  | .ok _ => true
  | .error _ => false

/-- A round of the examples on chain 1 with the block-height condition, the
endpoints answering as the table says. -/
def tableRound (table : List (String × Option Reply)) (urls : List String) :
    HeightRound Reply :=
  { getHeightFn := blockHeightChecker.getHeight (tableEnv table) 60000000000 exampleClock,
    chainId := "1", urls := urls, condition := heightCondition, caches := [] }

/-- The block-height condition of the tolerance examples: the given match type
and tolerance over the `result` member. -/
def toleranceCondition (matchType tolerance : String) : HealthCheckCondition :=
  { Ignore := [], CheckStrategy := "BlockHeight", Payload := "\x7b\"method\":\"eth_blockNumber\"\x7d",
    Matchers := [{ MatchType := matchType, Key := "result", Value := tolerance }] }

/-- The endpoints of the tolerance examples: one at height 100, given in hex,
one at height 98, given in decimal. -/
def toleranceEnv : ProbeEnv Reply :=
  tableEnv [("http://h100", some { error := false, result := "0x64" }),
    ("http://h98", some { error := false, result := "98" })]

/-! ## gateway-jsonrpc: the redaction of the GET endpoint -/

/-- The class `[a-z0-9]` of the first pattern of the redaction. -/
def isLowerAlnum (c : Char) : Bool := c.isLower || c.isDigit

/-- The class `[a-zA-Z-]` of the second pattern of the redaction. -/
def isAlphaHyphen (c : Char) : Bool := c.isAlpha || c == '-'

/-- The group of `.*/(C{n})` on one line, `C` the class `cls`: the greedy `.*`
runs to the last `/` that is followed by `n` characters of the class, and the
group is those `n` characters. -/
def lastKeyInLine (cls : Char → Bool) (n : Nat) : List Char → Option (List Char)
  | [] => none
  | c :: rest =>
    match lastKeyInLine cls n rest with
    | some key => some key
    | none =>
      if c == '/' && (rest.take n).length == n && (rest.take n).all cls then some (rest.take n)
      else none

/-- The lines of a text: the pieces between line breaks. -/
def splitLines : List Char → List (List Char)
  | [] => [[]]
  | c :: rest =>
    match splitLines rest with
    | [] => [[c]]
    | line :: lines => if c == '\n' then [] :: line :: lines else (c :: line) :: lines

/-- Result `match[1]` of `FindStringSubmatch` for the pattern `.*/(C{n})`: `.`
does not match a line break, so the leftmost match lies in the first line that
holds one. -/
def findKey (cls : Char → Bool) (n : Nat) (s : String) : Option String :=
  ((splitLines s.data).findSome? (lastKeyInLine cls n)).map String.mk

/-- Function `strings.Replace(s, old, new, 1)` for a non-empty `old`, on
characters. -/
def replaceFirstChars (old new : List Char) : List Char → List Char
  | [] => []
  | c :: rest =>
    if old.isPrefixOf (c :: rest) then new ++ (c :: rest).drop old.length
    else c :: replaceFirstChars old new rest

/-- Function `strings.Replace(s, old, new, 1)` for a non-empty `old`. -/
def stringsReplaceFirst (s old new : String) : String :=
  String.mk (replaceFirstChars old.data new.data s.data)

/-- The body of the desensitize loop of `handleGetMethod` for one endpoint: the
value left in `endpoints[i]`. Both replacements read the loop variable
`endpoint`, the stored URL. -/
def desensitize (endpoint : String) : String :=
  let endpoints_i :=
    match findKey isLowerAlnum 32 endpoint with
    | some key => stringsReplaceFirst endpoint key "REDACTED"
    | none => endpoint
  match findKey isAlphaHyphen 21 endpoint with
  | some key => stringsReplaceFirst endpoint key "REDACTED"
  | none => endpoints_i

/-! ## internal/proxy/types.go: the gRPC upstream -/

/-- The `grpcUpstream` of one chain: the endpoint list, the connection of each
URL, and the 32-bit counter `next`. `C` is the type of connections. -/
structure grpcUpstream (C : Type) where
  rpc : List String
  clis : GoMap C
  next : Nat

/-- The errors of `grpcUpstream.get`. -/
inductive GrpcErr where
  | zeroEndpoints
  | noClient (url : String)
  deriving DecidableEq, Repr

/-- Method `grpcUpstream.get`: `atomic.AddUint32` adds one modulo 2^32 and
returns the new value, which indexes the endpoint list modulo its length. -/
def grpcUpstream.get {C : Type} (u : grpcUpstream C) : Except GrpcErr C × grpcUpstream C :=
  if u.rpc.length = 0 then (.error .zeroEndpoints, u)
  else
    let next1 := (u.next + 1) % 2 ^ 32
    let idx := next1 % u.rpc.length
    let url := u.rpc.getD idx ""
    match u.clis.get? url with
    | none => (.error (.noClient url), { u with next := next1 })
    | some conn => (.ok conn, { u with next := next1 })

/-- The results of `k` consecutive calls of `get`, and the upstream after them. -/
def grpcUpstream.getMany {C : Type} : Nat → grpcUpstream C →
    List (Except GrpcErr C) × grpcUpstream C
  | 0, u => ([], u)
  | k + 1, u =>
    let r := u.get
    let rest := grpcUpstream.getMany k r.2
    (r.1 :: rest.1, rest.2)

/-- An upstream of three endpoints, each with a connection named by a number,
with the given counter. -/
def threeEndpoints (next : Nat) : grpcUpstream Nat :=
  { rpc := ["a:9090", "b:9090", "c:9090"],
    clis := [("a:9090", 0), ("b:9090", 1), ("c:9090", 2)], next := next }

/-- A Go `delete(m, k)`. -/
def GoMap.delete {β : Type} (m : GoMap β) (k : String) : GoMap β :=
  m.filter (fun p => p.1 != k)

/-- The loop of `grpcUpstream.new`: dial every URL in order into `clis`; `none`
when a dial fails. `dial` is `grpc.NewClient`. -/
def grpcUpstream.newLoop {C : Type} (dial : String → Option C) :
    List String → GoMap C → Option (GoMap C)
  | [], clis => some clis
  | url :: rest, clis =>
    match dial url with
    | none => none
    | some conn => grpcUpstream.newLoop dial rest (clis.set url conn)

/-- Method `grpcUpstream.new`. -/
def grpcUpstream.new {C : Type} (dial : String → Option C) (rpc : List String) :
    Option (GoMap C) :=
  grpcUpstream.newLoop dial rpc []

/-- A `grpcUpstream` together with the delayed closes that `refresh` has
scheduled and that have not run yet, oldest first. -/
structure GrpcState (C : Type) where
  upstream : grpcUpstream C
  pending : List (List String)

/-- Method `grpcUpstream.refresh`; the goroutine that sleeps five seconds and
then calls `close(toDel)` is recorded in `pending`. -/
def grpcUpstream.refresh {C : Type} (dial : String → Option C) (rpc : List String)
    (s : GrpcState C) : GrpcState C :=
  let u := s.upstream
  let toAdd := rpc.filter (fun r => (u.clis.get? r).isNone)
  let toDel := u.rpc.filter (fun r => !rpc.contains r)
  match grpcUpstream.new dial toAdd with
  | none => s
  | some clis =>
    { upstream := { u with rpc := rpc, clis := GoMap.mergeInto u.clis clis },
      pending := if toDel.length > 0 then s.pending ++ [toDel] else s.pending }

/-- Method `grpcUpstream.close`: every listed URL that has a connection gets it
closed and deleted from the map. -/
def grpcUpstream.close {C : Type} (rpc : List String) (u : grpcUpstream C) : grpcUpstream C :=
  { u with clis := rpc.foldl (fun clis url =>
      match clis.get? url with
      | some _ => GoMap.delete clis url
      | none => clis) u.clis }

/-- The oldest delayed close runs. -/
def GrpcState.runClose {C : Type} (s : GrpcState C) : GrpcState C :=
  match s.pending with
  | [] => s
  | urls :: rest => { upstream := grpcUpstream.close urls s.upstream, pending := rest }

/-- Method `grpcUpstreamCaches.put` for one chain, with the value
`fetchUpstream` builds from a record (its rpc list, no connection, counter 0):
a chain the cache does not hold gets the value after `value.refresh(value.rpc)`,
a chain it holds gets its upstream refreshed. -/
def grpcUpstreamCaches.put {C : Type} (dial : String → Option C)
    (cached : Option (GrpcState C)) (rpc : List String) : GrpcState C :=
  match cached with
  | none =>
    grpcUpstream.refresh dial rpc
      { upstream := { rpc := rpc, clis := [], next := 0 }, pending := [] }
  | some upstream => grpcUpstream.refresh dial rpc upstream

/-- A dial that succeeds on every URL; the connection is named by its target. -/
def dialAll : String → Option String := fun url => some url

/-! ## pkg/upstream/upstream.go: the registry -/

/-- A row of `upstream` or of `ready_upstream` (`pkg_db.Upstream`,
`pkg_db.ReadyUpstream`): the columns the registry reads and writes. -/
structure UpstreamRow where
  ChainID : String
  Source : String
  Rpc : String
  CreatedAt : Int
  deriving DecidableEq, Repr

/-- A table of the store: its rows. -/
abbrev Table := List UpstreamRow

/-- The two tables of the store the registry writes. -/
structure Store where
  upstream : Table
  readyUpstream : Table
  deriving DecidableEq, Repr

/-- Modelled from the spec: queries `ListUpstreamsBySource` and
`ListReadyUpstreamsBySource`, the rows of the table with the given source. -/
def Queries.listBySource (t : Table) (source : String) : Table :=
  t.filter (fun r => r.Source == source)

/-- Modelled from the spec: queries `CreateUpstream` and `CreateReadyUpstream`,
which insert one row. -/
def Queries.create (t : Table) (row : UpstreamRow) : Table := t ++ [row]

/-- Modelled from the spec: queries `UpdateUpstreamRpc` and
`UpdateReadyUpstreamRpc`, which set the rpc and the timestamp of the rows of the
given chain id and source. -/
def Queries.updateRpc (t : Table) (rpc chainId source : String) (createdAt : Int) : Table :=
  t.map (fun r =>
    if r.ChainID == chainId && r.Source == source then
      { r with Rpc := rpc, CreatedAt := createdAt }
    else r)

/-- Modelled from the spec: queries `DelUpstreamByChainIdSource` and
`DelReadyUpstreamByChainIdSource`, which remove the rows of the given chain id
and source. -/
def Queries.delByChainIdSource (t : Table) (chainId source : String) : Table :=
  t.filter (fun r => !(r.ChainID == chainId && r.Source == source))

/-- Modelled from the spec: queries `DelUpstreamBySource` and
`DelReadyUpstreamBySource`, which remove the rows of the given source. -/
def Queries.delBySource (t : Table) (source : String) : Table :=
  t.filter (fun r => r.Source != source)

/-- Method `Stream.ToMap` keyed by the chain id: a later row replaces an
earlier row of the same chain id. -/
def toChainMap (rows : Table) : GoMap UpstreamRow :=
  rows.foldl (fun m v => m.set v.ChainID v) []

/-- The zero value of a row, which a Go map read returns for a missing key. -/
def zeroRow : UpstreamRow := { ChainID := "", Source := "", Rpc := "", CreatedAt := 0 }

/-- The insert loop of `Register` and of `Refresh`: one row per published entry
whose chain id is not in `dbUpstreamMap`. -/
def upstreamRegistry.createNew (dbUpstreamMap : GoMap UpstreamRow) (upstreams : Table)
    (t : Table) : Table :=
  (upstreams.filter (fun u => (dbUpstreamMap.get? u.ChainID).isNone)).foldl
    (fun t upstream => Queries.create t
      { ChainID := upstream.ChainID, Source := upstream.Source, Rpc := upstream.Rpc,
        CreatedAt := upstream.CreatedAt }) t

/-- The update loop of `Register` and of `Refresh`: for each published entry
whose chain id is in `dbUpstreamMap`, an update when the rpc of the listed row
differs. -/
def upstreamRegistry.updateOld (dbUpstreamMap : GoMap UpstreamRow) (upstreams : Table)
    (t : Table) : Table :=
  (upstreams.filter (fun u => (dbUpstreamMap.get? u.ChainID).isSome)).foldl
    (fun t upstream =>
      let dbUpstream := dbUpstreamMap.getD upstream.ChainID zeroRow
      if dbUpstream.Rpc != upstream.Rpc then
        Queries.updateRpc t upstream.Rpc upstream.ChainID upstream.Source upstream.CreatedAt
      else t) t

/-- Method `upstreamRegistry.Register`, every query succeeding. -/
def upstreamRegistry.Register (st : Store) (source : String) (upstreams : Table) : Store :=
  match upstreams with
  | [] =>
    { upstream := Queries.delBySource st.upstream source,
      readyUpstream := Queries.delBySource st.readyUpstream source }
  | first :: _ =>
    let dbUpstreams := Queries.listBySource st.upstream first.Source
    let dbUpstreamMap := toChainMap dbUpstreams
    let t1 := upstreamRegistry.createNew dbUpstreamMap upstreams st.upstream
    let t2 := upstreamRegistry.updateOld dbUpstreamMap upstreams t1
    let upstreamMap := toChainMap upstreams
    let delUpstreams := dbUpstreams.filter (fun u => (upstreamMap.get? u.ChainID).isNone)
    delUpstreams.foldl
      (fun s upstream =>
        { upstream := Queries.delByChainIdSource s.upstream upstream.ChainID upstream.Source,
          readyUpstream :=
            Queries.delByChainIdSource s.readyUpstream upstream.ChainID upstream.Source })
      { upstream := t2, readyUpstream := st.readyUpstream }

/-- The body of the loop of `upstreamRegistry.Refresh` for one source of the
group, on the `ready_upstream` table. -/
def upstreamRegistry.refreshSource (t : Table) (source : String) (readyUpstreams : Table) :
    Table :=
  if readyUpstreams.length = 0 then t
  else
    let dbUpstreams := Queries.listBySource t source
    let dbUpstreamMap := toChainMap dbUpstreams
    let t1 := upstreamRegistry.createNew dbUpstreamMap readyUpstreams t
    upstreamRegistry.updateOld dbUpstreamMap readyUpstreams t1

/-- Method `upstreamRegistry.Refresh`, every query succeeding; the group is
listed in the order the loop visits its sources. -/
def upstreamRegistry.Refresh (st : Store) (group : List (String × Table)) : Store :=
  { st with readyUpstream :=
      group.foldl (fun t g => upstreamRegistry.refreshSource t g.1 g.2) st.readyUpstream }

/-- The key of a row: its source and chain id. -/
def UpstreamRow.key (r : UpstreamRow) : String × String := (r.Source, r.ChainID)

/-- A store of the examples: three `upstream` rows of the source `auto`, one of
the source `manual`, and the ready rows of three of them. -/
def exampleStore : Store :=
  { upstream :=
      [{ ChainID := "1", Source := "auto", Rpc := "http://a", CreatedAt := 1 },
       { ChainID := "56", Source := "auto", Rpc := "http://b", CreatedAt := 1 },
       { ChainID := "97", Source := "auto", Rpc := "http://c", CreatedAt := 1 },
       { ChainID := "1", Source := "manual", Rpc := "http://m", CreatedAt := 1 }],
    readyUpstream :=
      [{ ChainID := "56", Source := "auto", Rpc := "http://b", CreatedAt := 1 },
       { ChainID := "97", Source := "auto", Rpc := "http://c", CreatedAt := 1 },
       { ChainID := "1", Source := "manual", Rpc := "http://m", CreatedAt := 1 }] }

/-- A published list of the source `auto`: chain 1 as stored, chain 56 with
another rpc, chain 137 new, and chain 97 absent. -/
def examplePublished : Table :=
  [{ ChainID := "1", Source := "auto", Rpc := "http://a", CreatedAt := 5 },
   { ChainID := "56", Source := "auto", Rpc := "http://b2", CreatedAt := 5 },
   { ChainID := "137", Source := "auto", Rpc := "http://d", CreatedAt := 5 }]

/-! ## internal/checker: ValidCondition -/

/-- Method `valueMatchChecker.ValidCondition`: the error if any, and the
condition as the call leaves it. -/
def valueMatchChecker.ValidCondition (condition : HealthCheckCondition) :
    Option String × HealthCheckCondition :=
  let condition1 := { condition with
    Matchers := condition.Matchers.filter (fun m => m.MatchType == "=" || m.MatchType == "!=") }
  if condition1.Matchers.length = 0 then (some "invalid or empty matchers", condition1)
  else (none, condition1)

/-- Method `blockHeightChecker.ValidCondition`; `grpcBlockHeightChecker` has it
through the embedded `blockHeightChecker`. -/
def blockHeightChecker.ValidCondition (condition : HealthCheckCondition) :
    Option String × HealthCheckCondition :=
  if condition.Payload == "" then (some "invalid or empty payload", condition)
  else
    let condition1 := { condition with
      Matchers := condition.Matchers.filter (fun m => m.MatchType == "<" || m.MatchType == "<=") }
    if condition1.Matchers.length = 0 then (some "invalid or empty matchers", condition1)
    else (none, condition1)

/-- Method `simpleChecker.ValidCondition`. -/
def simpleChecker.ValidCondition (condition : HealthCheckCondition) :
    Option String × HealthCheckCondition :=
  if condition.Payload == "" then (some "invalid or empty payload", condition)
  else (none, condition)

/-- Method `manualChecker.ValidCondition`. -/
def manualChecker.ValidCondition (condition : HealthCheckCondition) :
    Option String × HealthCheckCondition :=
  let condition1 := { condition with
    Matchers := condition.Matchers.filter (fun m => m.MatchType == "=" || m.MatchType == "!=") }
  if condition1.Matchers.length = 0 then (some "invalid or empty matchers", condition1)
  else (none, condition1)

/-- A block-height condition with an empty payload and two matchers, one of a
type the strategy does not allow. -/
def emptyPayloadCondition : HealthCheckCondition :=
  { Ignore := [], CheckStrategy := "BlockHeight", Payload := "",
    Matchers := [{ MatchType := "=", Key := "result", Value := "1" },
      { MatchType := "<", Key := "result", Value := "2" }] }

/-- A condition with matchers of five types and a payload. -/
def mixedCondition : HealthCheckCondition :=
  { Ignore := [], CheckStrategy := "ValueMatch", Payload := "ping",
    Matchers := [{ MatchType := "<", Key := "a", Value := "1" },
      { MatchType := "!=", Key := "b", Value := "2" },
      { MatchType := "=", Key := "c", Value := "3" },
      { MatchType := "<=", Key := "d", Value := "4" },
      { MatchType := ">", Key := "e", Value := "5" }] }

/-! ## internal/checker: the common checker -/

/-- A `HealthChecker` in the registry of a `CommonChecker`: one of the five the
switch of `CommonChecker.Check` creates (each with the client and the cache life
of the common checker), or a checker put into the registry from outside. -/
inductive HealthChecker (X : Type) where
  | valueMatch
  | blockHeight
  | simple
  | manual
  | grpcBlockHeight
  | installed (x : X)
  deriving DecidableEq, Repr

/-- The switch of `CommonChecker.Check` on the strategy: the checker it creates,
`none` in the default case. -/
def CommonChecker.create {X : Type} (strategy : String) : Option (HealthChecker X) :=
  if strategy == "ValueMatch" then some .valueMatch
  else if strategy == "BlockHeight" then some .blockHeight
  else if strategy == "Simple" then some .simple
  else if strategy == "Manual" then some .manual
  else if strategy == "GrpcBlockHeight" then some .grpcBlockHeight
  else none

/-- Method `ValidCondition` of a checker of the registry; `validInstalled` is
the method of a checker put in from outside. -/
def HealthChecker.ValidCondition {X : Type}
    (validInstalled : X → HealthCheckCondition → Option String × HealthCheckCondition) :
    HealthChecker X → HealthCheckCondition → Option String × HealthCheckCondition
  | .valueMatch, condition => valueMatchChecker.ValidCondition condition
  | .blockHeight, condition => blockHeightChecker.ValidCondition condition
  | .simple, condition => simpleChecker.ValidCondition condition
  | .manual, condition => manualChecker.ValidCondition condition
  | .grpcBlockHeight, condition => blockHeightChecker.ValidCondition condition
  | .installed x, condition => validInstalled x condition

/-- A call `CommonChecker.Check` makes on a checker. -/
inductive CheckerCall (X : Type) where
  | validCondition (checker : HealthChecker X)
  | check (checker : HealthChecker X)
  deriving DecidableEq, Repr

/-- The errors `CommonChecker.Check` returns: its own, the one of
`ValidCondition`, the one of the checker. -/
inductive CommonErr where
  | notSupported (strategy : String)
  | invalid (message : String)
  | failed (err : CheckErr)
  deriving DecidableEq, Repr

/-- A `CommonChecker`: its registry, and the calls it has made on checkers. -/
structure CommonChecker (X : Type) where
  checkers : GoMap (HealthChecker X)
  calls : List (CheckerCall X)

/-- Function `New`: a common checker with an empty registry. -/
def CommonChecker.New {X : Type} : CommonChecker X := { checkers := [], calls := [] }

/-- Method `CommonChecker.Check`. `check` is the method `Check` of the checkers,
over a state `σ` of theirs (caches, stored heights); it is called with the
condition as `ValidCondition` left it. -/
def CommonChecker.Check {X σ : Type}
    (validInstalled : X → HealthCheckCondition → Option String × HealthCheckCondition)
    (check : HealthChecker X → String → List String → HealthCheckCondition → σ →
      Except CheckErr (GoMap Bool) × σ)
    (c : CommonChecker X × σ) (chainId : String) (urls : List String)
    (condition : HealthCheckCondition) :
    Except CommonErr (GoMap Bool) × (CommonChecker X × σ) :=
  if urls.length = 0 then (.ok [], c)
  else
    let found : Option (HealthChecker X × GoMap (HealthChecker X)) :=
      match c.1.checkers.get? condition.CheckStrategy with
      | some checker => some (checker, c.1.checkers)
      | none =>
        match CommonChecker.create condition.CheckStrategy with
        | some checker => some (checker, c.1.checkers.set condition.CheckStrategy checker)
        | none => none
    match found with
    | none => (.error (.notSupported condition.CheckStrategy), c)
    | some (checker, checkers1) =>
      let v := checker.ValidCondition validInstalled condition
      match v.1 with
      | some message =>
        (.error (.invalid message),
          ({ checkers := checkers1, calls := c.1.calls ++ [.validCondition checker] }, c.2))
      | none =>
        let r := check checker chainId urls v.2 c.2
        (match r.1 with
          | .ok ret => .ok ret
          | .error err => .error (.failed err),
          ({ checkers := checkers1,
             calls := c.1.calls ++ [.validCondition checker, .check checker] }, r.2))

/-- A checker of the examples put into the registry from outside, as the fake of
the tests: named by the error its `ValidCondition` returns, if any. -/
def fakeValid : Option String → HealthCheckCondition → Option String × HealthCheckCondition :=
  fun validErr condition => (validErr, condition)

/-- The method `Check` of the checkers in the examples: the manual checker runs
on the regexp fragment, every other checker accepts each URL it is handed. -/
def exampleCheck {X : Type} : HealthChecker X → String → List String → HealthCheckCondition →
    Unit → Except CheckErr (GoMap Bool) × Unit
  | .manual, _, urls, condition, s => (manualChecker.Check miniRegexp urls condition, s)
  | _, _, urls, _, s => (.ok (verdictMap (fun _ => true) urls), s)

/-! ## internal/upstream/upstream.go: the check-upstream job -/

/-- Go struct `client.CheckRule`. -/
structure client.CheckRule where
  ChainId : String
  Source : String
  Protocol : String
  Rules : List HealthCheckCondition
  Disabled : Bool

/-- Go struct `client.Upstream`. -/
structure client.Upstream where
  ChainId : String
  Source : String
  RPC : String
  Protocol : String
  deriving DecidableEq, Repr

/-- What one run of the check-upstream job leaves: the state of the checker, the
rules (source and chain id) whose conditions were run, the ready upstreams
handed to `saveReadyUpsteam` that were saved, and the errors logged. -/
structure TickState (σ : Type) where
  checker : σ
  checked : List (String × String)
  saved : List client.Upstream
  logged : List String

/-- The inner loop of the check-upstream job over the rules of one source. The
result says whether the function of the job has returned. `save` is
`saveReadyUpsteam`, true when it returns no error. -/
def checkUpstream.rules {σ ε : Type}
    (checker : σ → String → List String → HealthCheckCondition → Except ε (GoMap Bool) × σ)
    (save : client.Upstream → Bool) (jsonrpcs grpcs : GoMap (List String)) (source : String) :
    List client.CheckRule → TickState σ → Bool × TickState σ
  | [], st => (false, st)
  | rule :: rest, st =>
    if rule.Disabled then checkUpstream.rules checker save jsonrpcs grpcs source rest st
    else
      match (if rule.Protocol == "grpc" then grpcs else jsonrpcs).get? rule.ChainId with
      | none => checkUpstream.rules checker save jsonrpcs grpcs source rest st
      | some urls =>
        let r := HealthCheckConditionList.Check rule.Rules checker rule.ChainId urls st.checker
        let checked := st.checked ++ [(source, rule.ChainId)]
        match r.1 with
        | .error _ =>
          (true, { st with checker := r.2, checked := checked,
                           logged := st.logged ++ ["check upstream fail"] })
        | .ok ret =>
          let upstream : client.Upstream :=
            { ChainId := rule.ChainId, Source := source,
              RPC := String.intercalate "," (publishedUrls urls ret), Protocol := rule.Protocol }
          if save upstream then
            checkUpstream.rules checker save jsonrpcs grpcs source rest
              { st with checker := r.2, checked := checked, saved := st.saved ++ [upstream] }
          else
            (true, { st with checker := r.2, checked := checked,
                             logged := st.logged ++ ["save ready upstream fail"] })

/-- The outer loop of the check-upstream job over the sources, in the order the
loop visits them. -/
def checkUpstream.sources {σ ε : Type}
    (checker : σ → String → List String → HealthCheckCondition → Except ε (GoMap Bool) × σ)
    (save : client.Upstream → Bool) (jsonrpcs grpcs : GoMap (List String)) :
    List (String × List client.CheckRule) → TickState σ → TickState σ
  | [], st => st
  | (source, rules) :: rest, st =>
    let r := checkUpstream.rules checker save jsonrpcs grpcs source rules st
    if r.1 then r.2 else checkUpstream.sources checker save jsonrpcs grpcs rest r.2

/-- One run of the check-upstream job (upstream.go lines 100-158) once the
candidate URLs and the rules are read: `jsonrpcs` and `grpcs` are the candidate
URLs by chain id, `checkRules` the rules by source. -/
def checkUpstream {σ ε : Type}
    (checker : σ → String → List String → HealthCheckCondition → Except ε (GoMap Bool) × σ)
    (save : client.Upstream → Bool) (jsonrpcs grpcs : GoMap (List String))
    (checkRules : List (String × List client.CheckRule)) (s : σ) : TickState σ :=
  checkUpstream.sources checker save jsonrpcs grpcs checkRules
    { checker := s, checked := [], saved := [], logged := [] }

/-- The main checker of the job in the examples: a common checker over the
example checkers. -/
def exampleMainChecker : CommonChecker (Option String) × Unit → String → List String →
    HealthCheckCondition → Except CommonErr (GoMap Bool) × (CommonChecker (Option String) × Unit) :=
  CommonChecker.Check fakeValid exampleCheck

/-- A rule of the examples whose one condition the BlockHeight strategy rejects
(empty payload), on chain 1. -/
def rejectedRule : client.CheckRule :=
  { ChainId := "1", Source := "auto", Protocol := "jsonrpc", Rules := [emptyPayloadCondition],
    Disabled := false }

/-- A rule of the examples with the manual condition, on chain 97. -/
def manualRule : client.CheckRule :=
  { ChainId := "97", Source := "auto", Protocol := "jsonrpc", Rules := [manualCondition],
    Disabled := false }

/-- The candidate URLs of the examples: one of chain 1, the three manual URLs of
chain 97. -/
def exampleCandidates : GoMap (List String) :=
  [("1", ["http://rpc.example"]), ("97", manualUrls)]

/-- A codec of the examples for batch bodies: the body is a JSON array, so the
decoding into one response fails, and the decoding into a list gives one
response with a null error per character of the body. -/
def batchCodec : JsonCodec where
  unmarshalResponse := fun _ => none
  unmarshalResponses := fun body => some (body.data.map (fun _ => { Error := none }))

/-- An upstream of the examples that answers every request with status 200 and
the given body. -/
def okUpstream (body : String) : Nat → String → FetchOutcome :=
  fun _ _ => .response 200 (body.length : Int) body true

/-! ## gateway-jsonrpc: the request of the trace -/

/-- Go struct `JsonRPCRequest`; `ID` is the text the type switch of `withRequest`
renders for the id. -/
structure JsonRPCRequest where
  ID : String
  Method : String
  deriving DecidableEq, Repr

/-- The two decodings `withRequest` asks of `encoding/json`. -/
structure RequestCodec where
  /-- Result of `json.Unmarshal(bodyBytes, &jsonRequest)`: `none` when it returns an error,
  as it does on a body that is a JSON array. -/
  unmarshalRequest : String → Option JsonRPCRequest
  /-- Result of `json.Unmarshal(bodyBytes, &jsonRequestList)`: `none` when it returns an
  error. -/
  unmarshalRequests : String → Option (List JsonRPCRequest)

/-- The request list `withRequest` works on (lines 698-710): the error it
returns, or the list. -/
def requestList (codec : RequestCodec) (bodyBytes : String) :
    Except String (List JsonRPCRequest) :=
  match codec.unmarshalRequest bodyBytes with
  | some jsonRequest => .ok [jsonRequest]
  | none =>
    match codec.unmarshalRequests bodyBytes with
    | none => .error "unmarshal"
    | some jsonRequestList =>
      if jsonRequestList.length = 0 then .error "empty request"
      else .ok jsonRequestList

/-- Method `requestTraceBuilder.withRequest`: the trace, and the error if any;
`visitorIp` and `origin` are the two headers it reads. -/
def requestTraceBuilder.withRequest (codec : RequestCodec) (rt : requestTrace)
    (bodyBytes : String) (visitorIp origin : String) : requestTrace × Option String :=
  match requestList codec bodyBytes with
  | .error err => (rt, some err)
  | .ok jsonRequestList =>
    ({ rt with ID := String.intercalate "&" (jsonRequestList.map (fun jr => jr.ID)),
               Method := String.intercalate "&" (jsonRequestList.map (fun jr => jr.Method)),
               VisitorIp := visitorIp, Origin := origin }, none)

/-- A request decoder of the examples over one body, the batch of a raw
transaction and a call. -/
def exampleRequestCodec : RequestCodec where
  unmarshalRequest := fun _ => none
  unmarshalRequests := fun body =>
    if body = "[tx,call]" then
      some [{ ID := "1", Method := "eth_sendRawTransaction" }, { ID := "2", Method := "eth_call" }]
    else none

/-! ## pkg/checker: the manual checker -/

/-- The errors of `manualChecker.check` of pkg/checker (a panic of
`regexp.MustCompile` included). -/
inductive PkgCheckErr where
  | invalidMatchers
  | regexpCompile
  deriving DecidableEq, Repr

/-- Method `manualChecker.check` of pkg/checker: the matchers of type "=" and
"!=" are kept, an empty list is an error, and every URL is run through the
matcher loop, which is the loop of internal/checker line for line. -/
def pkg_checker.manualChecker.check (compile : String → Option (String → Bool))
    (urls : List String) (condition : HealthCheckCondition) : Except PkgCheckErr (GoMap Bool) :=
  let matchers := condition.Matchers.filter (fun m => m.MatchType == "=" || m.MatchType == "!=")
  if matchers.length = 0 then .error .invalidMatchers
  else
    match collectVerdicts (urls.map (fun url =>
        (url, manualChecker.matchAll compile url matchers false))) [] with
    | .ok ret => .ok ret
    | .error _ => .error .regexpCompile

/-! ## Numerals, in the words of the claim on `parseHeight` -/

/-- Whether a character is a digit of the base: `0-9`, then the letters of
either case from ten on, below the base. -/
def isDigitOf (base : Nat) (c : Char) : Bool :=
  match digitValue c with
  | some d => decide (d < base)
  | none => false

/-- The value of a string of digits in a base, most significant digit first. -/
def numeralValue (base : Nat) (digits : List Char) : Nat :=
  Nat.ofDigits base (digits.reverse.map (fun c => (digitValue c).getD 0))

/-- A valid numeral of value `v` in a base: an optional sign followed by one or
more digits of the base. -/
def IsNumeral (base : Nat) (s : List Char) (v : Int) : Prop :=
  ∃ sign digits, s = sign ++ digits ∧ (sign = [] ∨ sign = ['+'] ∨ sign = ['-']) ∧
    digits ≠ [] ∧ (∀ c ∈ digits, isDigitOf base c = true) ∧
    v = if sign = ['-'] then -(numeralValue base digits : Int) else (numeralValue base digits : Int)

/-! ## internal/checker: the height of a gRPC endpoint -/

/-- Go struct `ConditionGrpcPayload`. -/
structure ConditionGrpcPayload where
  Protoset : String
  Service : String
  Method : String
  deriving DecidableEq, Repr

/-- What `grpcBlockHeightChecker.getHeight` takes from outside, over a type `V`
of decoded responses. -/
structure GrpcEnv (V : Type) where
  /-- Result of `json.Unmarshal` of the payload into a `ConditionGrpcPayload`:
  `none` when it returns an error. -/
  unmarshalPayload : String → Option ConditionGrpcPayload
  /-- Result of `GrpcCaller.Call(url, protoset, service, method)`: `none` when it
  returns an error. -/
  call : String → String → String → String → Option V
  /-- Result of `TextTemplate("{{.key}}").Parse(values)`: `none` when it returns an
  error. -/
  render : String → V → Option String
  /-- Result of `regexp.MustCompile(pattern)`: `none` when it panics, else the
  function `FindStringSubmatch` of the compiled pattern, whose nil result is the
  empty list. -/
  compile : String → Option (String → List String)

/-- Errors of `grpcBlockHeightChecker.getHeight`, the run-time panics included;
the source returns the height -1 next to the errors it returns. -/
inductive GrpcHeightErr where
  | payload
  | template
  | indexOutOfRange
  | regexpCompile
  deriving DecidableEq, Repr

/-- Function `strings.Split` on a one-character separator, over the characters. -/
def splitOnChar (sep : Char) : List Char → List (List Char)
  | [] => [[]]
  | c :: cs =>
    if c = sep then [] :: splitOnChar sep cs
    else
      match splitOnChar sep cs with
      | [] => [[c]]
      | piece :: pieces => (c :: piece) :: pieces

/-- Call `strings.Split(key, "|")`. -/
def splitKey (key : String) : List String := (splitOnChar '|' key.data).map String.mk

/-- The end of `grpcBlockHeightChecker.getHeight`: a string that does not parse
gives the height -1 with a nil error. -/
def grpcBlockHeightChecker.finish (val : String) : Except GrpcHeightErr Int :=
  match blockHeightChecker.parseHeight val with
  | none => .ok (-1)
  | some height => .ok height

/-- Method `grpcBlockHeightChecker.getHeight` (the caches are not used). -/
def grpcBlockHeightChecker.getHeight {V : Type} (env : GrpcEnv V) (url : String)
    (condition : HealthCheckCondition) : Except GrpcHeightErr Int :=
  match env.unmarshalPayload condition.Payload with
  | none => .error .payload
  | some payload =>
    match env.call url payload.Protoset payload.Service payload.Method with
    | none => .ok (-1)
    | some values =>
      match condition.Matchers with
      | [] => .error .indexOutOfRange
      | matcher :: _ =>
        let keys := splitKey matcher.Key
        match env.render (keys.headD "") values with
        | none => .error .template
        | some val =>
          if val == "" || val == "<no value>" then .ok (-1)
          else if keys.length > 1 then
            match env.compile (keys.getD 1 "") with
            | none => .error .regexpCompile
            | some find =>
              match find val with
              | [] => .ok (-1)
              | [_] => .error .indexOutOfRange
              | _ :: group :: _ => grpcBlockHeightChecker.finish group
          else grpcBlockHeightChecker.finish val

/-- A string that is "0x" followed by one or more hexadecimal digits. -/
def isHexLiteral (s : String) : Bool :=
  match s.data with
  | '0' :: 'x' :: d :: ds => (d :: ds).all (fun c => c.isDigit || ('a' ≤ c && c ≤ 'f') || ('A' ≤ c && c ≤ 'F'))
  | _ => false

/-- The endpoint of the gRPC examples: every payload decodes, the endpoint
"localhost:9090" answers with the flat object of the one member `result`, a key
without a dot renders the member of that name, empty when there is none, a
path through a member that is a string fails to render, and the one pattern
that compiles is `^(0x[0-9a-fA-F]+)$`. -/
def exampleGrpcEnv (result : String) : GrpcEnv (GoMap String) where
  unmarshalPayload := fun _ => some { Protoset := "unused", Service := "Svc", Method := "M" }
  call := fun url _ _ _ => if url == "localhost:9090" then some [("result", result)] else none
  render := fun key values =>
    match splitOnChar '.' key.data with
    | [name] => some ((GoMap.get? values (String.mk name)).getD "")
    | name :: _ =>
      match GoMap.get? values (String.mk name) with
      | none => some ""
      | some _ => none
    | [] => none
  compile := fun pattern =>
    if pattern == "^(0x[0-9a-fA-F]+)$" then
      some (fun val => if isHexLiteral val then [val, val] else [])
    else none

/-- A gRPC block-height condition on one key. -/
def grpcCondition (key : String) : HealthCheckCondition :=
  { Ignore := [], CheckStrategy := "GrpcBlockHeight",
    Payload := "\x7b\"protoset\":\"unused\",\"service\":\"Svc\",\"method\":\"M\"\x7d",
    Matchers := [{ MatchType := "<=", Key := key, Value := "2" }] }

/-! ## gateway-jsonrpc: the path of a request -/

/-- A piece of an anchored pattern: literal characters, the group `(C+)` or the
group `(C{n})` over a class `C`. -/
inductive PathItem where
  | lit (s : List Char)
  | plus (cls : Char → Bool)
  | exact (cls : Char → Bool) (n : Nat)

/-- The input after a literal, when the input starts with it. -/
def stripLit : List Char → List Char → Option (List Char)
  | [], input => some input
  | _ :: _, [] => none
  | c :: cs, d :: ds => if c = d then stripLit cs ds else none

/-- The greedy group `(C+)`: the runs of `k` characters are tried from the
longest to the one of a single character, and the first after which the rest of
the pattern matches is taken. -/
def tryRuns (cont : List Char → Option (List (List Char))) (input : List Char) :
    Nat → Option (List (List Char))
  | 0 => none
  | k + 1 =>
    match cont (input.drop (k + 1)) with
    | some groups => some (input.take (k + 1) :: groups)
    | none => tryRuns cont input k

/-- Function `FindStringSubmatch` of a pattern `^…$` made of the pieces, on
the whole input: the groups in order, or `none` when there is no match. -/
def matchItems : List PathItem → List Char → Option (List (List Char))
  | [], input => if input = [] then some [] else none
  | .lit s :: items, input =>
    match stripLit s input with
    | some rest => matchItems items rest
    | none => none
  | .plus cls :: items, input =>
    tryRuns (matchItems items) input (input.takeWhile cls).length
  | .exact cls n :: items, input =>
    if n ≤ input.length ∧ (input.take n).all cls = true then
      match matchItems items (input.drop n) with
      | some groups => some (input.take n :: groups)
      | none => none
    else none

/-- The class `[a-z0-9\-]` of the chain id. -/
def isChainIdChar (c : Char) : Bool := isLowerAlnum c || c == '-'

/-- The zero value of `requestParams`. -/
def requestParams.zero : requestParams :=
  { accessKey := "", source := "", chainId := "", rpcMethod := "", httpMethod := "", body := "" }

/-- Method `proxyHandler.parseV1PathParameters`, the pattern
`^/v1/([a-z0-9\-]+)/([a-z0-9]{32})$`. -/
def parseV1PathParameters (path : String) : Except String requestParams :=
  match matchItems [.lit "/v1/".data, .plus isChainIdChar, .lit "/".data, .exact isLowerAlnum 32]
      path.data with
  | some (chainId :: accessKey :: _) =>
    .ok { requestParams.zero with chainId := String.mk chainId, accessKey := String.mk accessKey }
  | _ => .error "invalid path"

/-- Method `proxyHandler.parseV2PathParameters`, the pattern `^/v2/([a-z0-9]{32})$`. -/
def parseV2PathParameters (path : String) : Except String requestParams :=
  match matchItems [.lit "/v2/".data, .exact isLowerAlnum 32] path.data with
  | some (accessKey :: _) => .ok { requestParams.zero with accessKey := String.mk accessKey }
  | _ => .error "invalid path"

/-- A block-height condition whose tolerance, the value of its matcher, does
not parse as a height; `ValidCondition` accepts it. -/
def badToleranceCondition : HealthCheckCondition :=
  { Ignore := [], CheckStrategy := "BlockHeight", Payload := "ping",
    Matchers := [{ MatchType := "<=", Key := "result", Value := "abc" }] }

/-- The example store with one more `ready_upstream` row of the source `auto`,
on chain 250, for which the `upstream` table has no row. -/
def orphanStore : Store :=
  { exampleStore with
    readyUpstream := exampleStore.readyUpstream ++
      [{ ChainID := "250", Source := "auto", Rpc := "http://o", CreatedAt := 1 }] }

/-! ## Lemmas on Go maps -/

theorem GoMap.get?_set {β : Type} (m : GoMap β) (k : String) (v : β) (u : String) :
    (GoMap.set m k v).get? u = if u = k then some v else m.get? u := by
  unfold GoMap.set GoMap.get?
  by_cases h : u = k
  · subst h
    simp [List.lookup]
  · have hne : (u == k) = false := by simpa using h
    simp only [List.lookup, hne, if_neg h]
    induction m with
    | nil => simp
    | cons p ps ih =>
      obtain ⟨a, b⟩ := p
      by_cases hak : a = k
      · subst hak
        have hua : (u == a) = false := hne
        simp [List.filter, List.lookup, hua, ih]
      · have hak2 : (a != k) = true := by simpa using hak
        simp only [List.filter, hak2, List.lookup]
        cases hu : (u == a) <;> simp [ih]

theorem GoMap.get?_mergeInto {β : Type} (dst src : GoMap β) (u : String) :
    (GoMap.mergeInto dst src).get? u =
      match src.get? u with
      | some v => some v
      | none => dst.get? u := by
  induction src with
  | nil => simp [GoMap.mergeInto, GoMap.get?]
  | cons p ps ih =>
    obtain ⟨a, b⟩ := p
    have hstep : GoMap.mergeInto dst ((a, b) :: ps) = GoMap.set (GoMap.mergeInto dst ps) a b := rfl
    rw [hstep, GoMap.get?_set]
    by_cases h : u = a
    · subst h
      simp [GoMap.get?, List.lookup]
    · have hne : (u == a) = false := by simpa using h
      rw [if_neg h, ih]
      simp [GoMap.get?, List.lookup, hne]

/-! ## The condition chain (C1) -/

theorem keepUrl_eq_of_get? (ret : GoMap Bool) (u : String) (b : Bool)
    (h : ret.get? u = some b) : keepUrl ret u = b := by
  simp [keepUrl, h]

theorem shortCircuitAnd_eq_all (verdict : HealthCheckCondition → String → Bool) (u : String)
    (cl : List HealthCheckCondition) :
    shortCircuitAnd verdict u cl = cl.all (fun c => verdict c u) := by
  induction cl with
  | nil => rfl
  | cons c rest ih =>
    simp only [shortCircuitAnd, List.all_cons, ih]
    cases verdict c u <;> simp

/-- Invariant of the loop of `HealthCheckConditionList.Check` under a checker
that answers `verdict c u` for exactly the URLs it is handed: `acc` is the
conjunction over the conditions already run. -/
theorem loop_spec {σ ε : Type}
    (checker : σ → String → List String → HealthCheckCondition → Except ε (GoMap Bool) × σ)
    (verdict : HealthCheckCondition → String → Bool)
    (hchk : ∀ s chain us c, ∃ m, (checker s chain us c).1 = .ok m ∧
      ∀ u, m.get? u = if u ∈ us then some (verdict c u) else none)
    (chainId : String) (urls : List String) :
    ∀ (cl : List HealthCheckCondition) (ret : GoMap Bool) (w : List String) (s : σ)
      (acc : String → Bool),
      (∀ u ∈ urls, keepUrl ret u = acc u) →
      w.filter (keepUrl ret) = urls.filter acc →
      ∃ ret1, (HealthCheckConditionList.loop checker chainId cl ret w s).1 = .ok ret1 ∧
        (∀ u ∈ urls, keepUrl ret1 u = (acc u && cl.all (fun c => verdict c u))) ∧
        ((cl ≠ [] ∨ ∀ u ∈ urls, (ret.get? u).isSome) → ∀ u ∈ urls, (ret1.get? u).isSome) := by
  intro cl
  induction cl with
  | nil =>
    intro ret w s acc hacc _
    refine ⟨ret, rfl, ?_, ?_⟩
    · intro u hu
      simp [hacc u hu]
    · intro h
      rcases h with h | h
      · exact absurd rfl h
      · exact h
  | cons c rest ih =>
    intro ret w s acc hacc hw
    obtain ⟨m, hm, hget⟩ := hchk s chainId (w.filter (keepUrl ret)) c
    have hrun : HealthCheckConditionList.loop checker chainId (c :: rest) ret w s =
        HealthCheckConditionList.loop checker chainId rest (GoMap.mergeInto ret m)
          (w.filter (keepUrl ret)) (checker s chainId (w.filter (keepUrl ret)) c).2 := by
      rcases hc : checker s chainId (w.filter (keepUrl ret)) c with ⟨r, s1⟩
      rw [hc] at hm
      simp only at hm
      subst hm
      simp [HealthCheckConditionList.loop, hc]
    have hmerged : ∀ u ∈ urls, (GoMap.mergeInto ret m).get? u =
        if acc u then some (verdict c u) else ret.get? u := by
      intro u hu
      rw [GoMap.get?_mergeInto, hget u, hw]
      by_cases ha : acc u = true
      · have hmem : u ∈ urls.filter acc := List.mem_filter.mpr ⟨hu, ha⟩
        simp [hmem, ha]
      · have hmem : u ∉ urls.filter acc := fun hmem => ha (List.mem_filter.mp hmem).2
        simp [hmem, ha]
    have hkeep : ∀ u ∈ urls, keepUrl (GoMap.mergeInto ret m) u = (acc u && verdict c u) := by
      intro u hu
      have h1 := hmerged u hu
      have h2 := hacc u hu
      by_cases ha : acc u = true
      · rw [if_pos ha] at h1
        rw [keepUrl_eq_of_get? _ _ _ h1, ha]
        simp
      · have ha2 : acc u = false := by simpa using ha
        rw [if_neg ha] at h1
        simp only [keepUrl, h1, ha2, Bool.false_and]
        simpa [keepUrl, ha2] using h2
    have hw1 : (w.filter (keepUrl ret)).filter (keepUrl (GoMap.mergeInto ret m)) =
        urls.filter (fun u => acc u && verdict c u) := by
      rw [hw, List.filter_filter]
      apply List.filter_congr
      intro u hu
      rw [hkeep u hu]
      cases acc u <;> simp
    obtain ⟨ret1, hret1, hval, hsome⟩ :=
      ih (GoMap.mergeInto ret m) (w.filter (keepUrl ret))
        (checker s chainId (w.filter (keepUrl ret)) c).2 (fun u => acc u && verdict c u) hkeep hw1
    refine ⟨ret1, by rw [hrun]; exact hret1, ?_, ?_⟩
    · intro u hu
      rw [hval u hu]
      simp [List.all_cons, Bool.and_assoc]
    · intro _
      apply hsome
      right
      intro u hu
      rw [hmerged u hu]
      by_cases ha : acc u = true
      · simp [ha]
      · have ha2 : acc u = false := by simpa using ha
        have h2 := hacc u hu
        rw [ha2] at h2
        rw [if_neg ha]
        unfold keepUrl at h2
        cases hr : ret.get? u with
        | none => rw [hr] at h2; simp at h2
        | some b => simp

/-- C1. Under a checker that returns, for every URL it is handed and for no
other, the verdict `verdict c u`, and for a non-empty condition list,
`HealthCheckConditionList.Check` returns a map whose entry for every candidate
URL is the short-circuit conjunction of the verdicts of all conditions on it
(which is the plain conjunction), and the list the check-upstream job keeps is
the candidate list filtered by that conjunction, in its original order. -/
theorem conditionList_check_is_conjunction {σ ε : Type}
    (checker : σ → String → List String → HealthCheckCondition → Except ε (GoMap Bool) × σ)
    (verdict : HealthCheckCondition → String → Bool)
    (hchk : ∀ s chain us c, ∃ m, (checker s chain us c).1 = .ok m ∧
      ∀ u, m.get? u = if u ∈ us then some (verdict c u) else none)
    (cl : List HealthCheckCondition) (hcl : cl ≠ [])
    (chainId : String) (urls : List String) (s : σ) :
    ∃ ret, (HealthCheckConditionList.Check cl checker chainId urls s).1 = .ok ret ∧
      (∀ u ∈ urls, ret.get? u = some (shortCircuitAnd verdict u cl)) ∧
      (∀ u, shortCircuitAnd verdict u cl = cl.all (fun c => verdict c u)) ∧
      publishedUrls urls ret = urls.filter (fun u => cl.all (fun c => verdict c u)) := by
  obtain ⟨ret, hret, hval, hsome⟩ :=
    loop_spec checker verdict hchk chainId urls cl [] urls s (fun _ => true)
      (by intro u _; simp [keepUrl, GoMap.get?])
      (by apply List.filter_congr; intro u _; simp [keepUrl, GoMap.get?])
  have hentry : ∀ u ∈ urls, ret.get? u = some (cl.all (fun c => verdict c u)) := by
    intro u hu
    have h1 := hval u hu
    have h2 := hsome (Or.inl hcl) u hu
    cases hr : ret.get? u with
    | none => rw [hr] at h2; simp at h2
    | some b =>
      rw [keepUrl_eq_of_get? _ _ _ hr] at h1
      simp [h1]
  refine ⟨ret, hret, ?_, fun u => shortCircuitAnd_eq_all verdict u cl, ?_⟩
  · intro u hu
    rw [hentry u hu, shortCircuitAnd_eq_all]
  · unfold publishedUrls
    apply List.filter_congr
    intro u hu
    simp [GoMap.getD, hentry u hu]

/-! ## Running the per-URL checks -/

theorem runChecks_keys {V R : Type} (f : String → CheckCaches V → R × CheckCaches V × Bool) :
    ∀ (urls : List String) (caches : CheckCaches V),
      (runChecks f urls caches).1.map Prod.fst = urls := by
  intro urls
  induction urls with
  | nil => intro caches; rfl
  | cons u us ih => intro caches; simp [runChecks, ih]

theorem runChecks_mem {V R : Type} (f : String → CheckCaches V → R × CheckCaches V × Bool) :
    ∀ (urls : List String) (caches : CheckCaches V) (p : String × R),
      p ∈ (runChecks f urls caches).1 → ∃ cs, p.2 = (f p.1 cs).1 := by
  intro urls
  induction urls with
  | nil => intro caches p hp; simp [runChecks] at hp
  | cons u us ih =>
    intro caches p hp
    simp only [runChecks, List.mem_cons] at hp
    rcases hp with hp | hp
    · exact ⟨caches, by rw [hp]⟩
    · exact ih _ p hp

theorem runChecks_probes {V R : Type} (f : String → CheckCaches V → R × CheckCaches V × Bool) :
    ∀ (urls : List String) (caches : CheckCaches V) (u : String),
      u ∈ (runChecks f urls caches).2.2 → ∃ cs, (f u cs).2.2 = true := by
  intro urls
  induction urls with
  | nil => intro caches u hu; simp [runChecks] at hu
  | cons v vs ih =>
    intro caches u hu
    simp only [runChecks] at hu
    by_cases hp : (f v caches).2.2 = true
    · rw [if_pos hp, List.mem_cons] at hu
      rcases hu with hu | hu
      · exact ⟨caches, by rw [hu]; exact hp⟩
      · exact ih _ u hu
    · rw [if_neg hp] at hu
      exact ih _ u hu

/-- A URL all of whose results are the verdict `b` reads `b` in the map the
receive loop builds, when it has a result or read `b` before. -/
theorem collectVerdicts_get? (u : String) (b : Bool) :
    ∀ (rs : List (String × Except CheckErr Bool)) (ret ret1 : GoMap Bool),
      collectVerdicts rs ret = .ok ret1 →
      (∀ r ∈ rs, r.1 = u → r.2 = .ok b) →
      (u ∈ rs.map Prod.fst ∨ ret.get? u = some b) →
      ret1.get? u = some b := by
  intro rs
  induction rs with
  | nil =>
    intro ret ret1 h _ hin
    simp only [collectVerdicts, Except.ok.injEq] at h
    subst h
    simpa using hin
  | cons r rest ih =>
    intro ret ret1 h hall hin
    obtain ⟨url, res⟩ := r
    cases res with
    | error e => simp [collectVerdicts] at h
    | ok valid =>
      simp only [collectVerdicts] at h
      apply ih _ _ h (fun r hr => hall r (List.mem_cons_of_mem _ hr))
      by_cases hu : url = u
      · right
        have hv := hall (url, .ok valid) (List.mem_cons_self _ _) hu
        simp only [Except.ok.injEq] at hv
        rw [GoMap.get?_set, hu, hv]
        simp
      · rcases hin with hin | hin
        · simp only [List.map_cons, List.mem_cons] at hin
          rcases hin with hin | hin
          · exact absurd hin.symm hu
          · exact Or.inl hin
        · right
          rw [GoMap.get?_set, if_neg (fun h => hu h.symm)]
          exact hin

theorem GoMap.get?_map_snd {α β : Type} (g : α → β) (m : GoMap α) (u : String) :
    GoMap.get? (m.map (fun p => (p.1, g p.2))) u = (m.get? u).map g := by
  induction m with
  | nil => rfl
  | cons p ps ih =>
    obtain ⟨a, b⟩ := p
    simp only [GoMap.get?, List.map_cons, List.lookup] at ih ⊢
    cases h : (u == a) <;> simp [ih]

theorem GoMap.get?_map_none {α β : Type} (g : String × α → β) (m : GoMap α) (u : String)
    (h : m.get? u = none) : GoMap.get? (m.map (fun p => (p.1, g p))) u = none := by
  induction m with
  | nil => rfl
  | cons p ps ih =>
    obtain ⟨a, b⟩ := p
    simp only [GoMap.get?, List.map_cons, List.lookup] at ih h ⊢
    cases hua : (u == a) with
    | true => simp [hua] at h
    | false =>
      simp only [hua] at h ⊢
      exact ih h

/-- A URL all of whose heights are one of the two reserved values (`0`, read as
valid, or `-1`, read as invalid) gets that verdict in `ret` and no entry in
`heightMap`. -/
theorem blockHeight_collect_reserved (u : String) (h : Int) (b : Bool)
    (hb : (h = 0 ∧ b = true) ∨ (h = -1 ∧ b = false)) :
    ∀ (rs : List (String × Except CheckErr Int)) (acc acc1 : HeightAcc),
      blockHeightChecker.collect rs acc = .ok acc1 →
      (∀ r ∈ rs, r.1 = u → r.2 = .ok h) →
      (u ∈ rs.map Prod.fst ∨ acc.ret.get? u = some b) →
      acc.heightMap.get? u = none →
      acc1.ret.get? u = some b ∧ acc1.heightMap.get? u = none := by
  intro rs
  induction rs with
  | nil =>
    intro acc acc1 hc _ hin hm
    simp only [blockHeightChecker.collect, Except.ok.injEq] at hc
    subst hc
    exact ⟨by simpa using hin, hm⟩
  | cons r rest ih =>
    intro acc acc1 hc hall hin hm
    obtain ⟨url, res⟩ := r
    have hall1 : ∀ r ∈ rest, r.1 = u → r.2 = .ok h :=
      fun r hr => hall r (List.mem_cons_of_mem _ hr)
    have hin1 : url ≠ u → (u ∈ rest.map Prod.fst ∨ acc.ret.get? u = some b) := by
      intro hu
      rcases hin with hin | hin
      · simp only [List.map_cons, List.mem_cons] at hin
        rcases hin with hin | hin
        · exact absurd hin.symm hu
        · exact Or.inl hin
      · exact Or.inr hin
    cases res with
    | error e => simp [blockHeightChecker.collect] at hc
    | ok height =>
      simp only [blockHeightChecker.collect] at hc
      by_cases hu : url = u
      · have hv := hall (url, .ok height) (List.mem_cons_self _ _) hu
        simp only [Except.ok.injEq] at hv
        subst hv
        rcases hb with ⟨h0, hb⟩ | ⟨h1, hb⟩
        · subst h0
          simp only [show ¬ ((0 : Int) = -1) by decide, if_false, if_true] at hc
          exact ih _ _ hc hall1 (Or.inr (by simp [GoMap.get?_set, hu, hb])) hm
        · subst h1
          simp only [if_true] at hc
          exact ih _ _ hc hall1 (Or.inr (by simp [GoMap.get?_set, hu, hb])) hm
      · have hne : ¬ (u = url) := fun h => hu h.symm
        split at hc
        · refine ih _ _ hc hall1 ?_ hm
          rcases hin1 hu with h1 | h1
          · exact Or.inl h1
          · exact Or.inr (by simp [GoMap.get?_set, hne, h1])
        · split at hc
          · refine ih _ _ hc hall1 ?_ hm
            rcases hin1 hu with h1 | h1
            · exact Or.inl h1
            · exact Or.inr (by simp [GoMap.get?_set, hne, h1])
          · refine ih _ _ hc hall1 (hin1 hu) ?_
            simp [GoMap.get?_set, hne, hm]

theorem collectVerdicts_all_ok :
    ∀ (rs : List (String × Except CheckErr Bool)) (ret ret1 : GoMap Bool),
      collectVerdicts rs ret = .ok ret1 → ∀ r ∈ rs, ∃ b, r.2 = .ok b := by
  intro rs
  induction rs with
  | nil => intro _ _ _ r hr; simp at hr
  | cons p rest ih =>
    intro ret ret1 h r hr
    obtain ⟨url, res⟩ := p
    cases res with
    | error e => simp [collectVerdicts] at h
    | ok valid =>
      simp only [collectVerdicts] at h
      rcases List.mem_cons.mp hr with hr | hr
      · exact ⟨valid, by rw [hr]⟩
      · exact ih _ _ h r hr

/-- The verdict `blockHeightChecker.Check` gives a URL all of whose heights are
one of the two reserved values. -/
theorem blockHeight_check_reserved {V : Type}
    (getHeightFn : String → HealthCheckCondition → CheckCaches V →
      Except CheckErr Int × CheckCaches V × Bool)
    (lastBlocks : GoMap Int) (chainId : String) (urls : List String)
    (condition : HealthCheckCondition) (caches : CheckCaches V)
    (u : String) (h : Int) (b : Bool)
    (hb : (h = 0 ∧ b = true) ∨ (h = -1 ∧ b = false)) (hu : u ∈ urls)
    (hall : ∀ r ∈ (runChecks (blockHeightChecker.heightOf getHeightFn condition) urls caches).1,
      r.1 = u → r.2 = .ok h)
    (ret : GoMap Bool)
    (hret : (blockHeightChecker.Check getHeightFn lastBlocks chainId urls condition caches).1
      = .ok ret) :
    ret.get? u = some b := by
  unfold blockHeightChecker.Check at hret
  cases hm : condition.Matchers with
  | nil => simp [hm] at hret
  | cons matcher ms =>
    simp only [hm] at hret
    have hkeys := runChecks_keys (blockHeightChecker.heightOf getHeightFn condition) urls caches
    cases hc : blockHeightChecker.collect
        (runChecks (blockHeightChecker.heightOf getHeightFn condition) urls caches).1
        { ret := [], heightMap := [], heights := List.replicate urls.length 0 } with
    | error e => simp [hc] at hret
    | ok acc =>
      simp only [hc] at hret
      obtain ⟨hr1, hr2⟩ := blockHeight_collect_reserved u h b hb _ _ _ hc hall
        (Or.inl (by rw [hkeys]; exact hu)) rfl
      unfold blockHeightChecker.verdicts at hret
      split at hret
      · simp only [Except.ok.injEq] at hret
        rw [← hret]
        exact hr1
      · cases hp : blockHeightChecker.parseHeight matcher.Value with
        | none => simp [hp] at hret
        | some tolerance =>
          simp only [hp, Except.ok.injEq] at hret
          rw [← hret, GoMap.get?_mergeInto,
            GoMap.get?_map_none (fun p => heightValid matcher.MatchType _ p.2 tolerance) _ _ hr2]
          exact hr1

/-- C9. A URL of the input list that is listed in `condition.Ignore` is not
probed by the ValueMatch, BlockHeight and Simple checkers and reads true in
every result they return, whatever the endpoints answer; the Manual checker
gives the same result whatever `Ignore` holds, the verdict of such a URL being
that of its matchers. -/
theorem ignored_url_is_valid_without_probe {V : Type} (env : ProbeEnv V) (cacheExpire : Int)
    (clock : Clock)
    (getHeightFn : String → HealthCheckCondition → CheckCaches V →
      Except CheckErr Int × CheckCaches V × Bool)
    (lastBlocks : GoMap Int) (chainId : String)
    (compile : String → Option (String → Bool))
    (urls : List String) (condition : HealthCheckCondition) (caches : CheckCaches V)
    (u : String) (hu : u ∈ urls) (hig : condition.ignore u = true) :
    (u ∉ (valueMatchChecker.Check env cacheExpire clock urls condition caches).2.2 ∧
      ∀ ret, (valueMatchChecker.Check env cacheExpire clock urls condition caches).1 = .ok ret →
        ret.get? u = some true) ∧
    (u ∉ (blockHeightChecker.Check getHeightFn lastBlocks chainId urls condition caches).2.2.2 ∧
      ∀ ret, (blockHeightChecker.Check getHeightFn lastBlocks chainId urls condition caches).1
        = .ok ret → ret.get? u = some true) ∧
    (u ∉ (simpleChecker.Check env cacheExpire clock urls condition caches).2.2 ∧
      ∀ ret, (simpleChecker.Check env cacheExpire clock urls condition caches).1 = .ok ret →
        ret.get? u = some true) ∧
    ((∀ ignore, manualChecker.Check compile urls { condition with Ignore := ignore } =
        manualChecker.Check compile urls condition) ∧
      ∀ ret, manualChecker.Check compile urls condition = .ok ret →
        ∃ b, manualChecker.matchAll compile u condition.Matchers false = .ok b ∧
          ret.get? u = some b) := by
  refine ⟨⟨?_, ?_⟩, ⟨?_, ?_⟩, ⟨?_, ?_⟩, ⟨?_, ?_⟩⟩
  · intro hmem
    obtain ⟨cs, hcs⟩ := runChecks_probes _ _ _ _ hmem
    simp [valueMatchChecker.verdictOf, hig] at hcs
  · intro ret hret
    refine collectVerdicts_get? u true _ _ _ hret ?_ (Or.inl ?_)
    · intro r hr hru
      obtain ⟨cs, hcs⟩ := runChecks_mem _ _ _ _ hr
      rw [hcs, hru]
      simp [valueMatchChecker.verdictOf, hig]
    · rw [runChecks_keys]
      exact hu
  · intro hmem
    unfold blockHeightChecker.Check at hmem
    cases hm : condition.Matchers with
    | nil => simp [hm] at hmem
    | cons matcher ms =>
      simp only [hm] at hmem
      have hpr : u ∈ (runChecks (blockHeightChecker.heightOf getHeightFn condition)
          urls caches).2.2 := by
        split at hmem <;> exact hmem
      obtain ⟨cs, hcs⟩ := runChecks_probes _ _ _ _ hpr
      simp [blockHeightChecker.heightOf, hig] at hcs
  · intro ret hret
    refine blockHeight_check_reserved getHeightFn lastBlocks chainId urls condition caches
      u 0 true (Or.inl ⟨rfl, rfl⟩) hu ?_ ret hret
    intro r hr hru
    obtain ⟨cs, hcs⟩ := runChecks_mem _ _ _ _ hr
    rw [hcs, hru]
    simp [blockHeightChecker.heightOf, hig]
  · intro hmem
    obtain ⟨cs, hcs⟩ := runChecks_probes _ _ _ _ hmem
    simp [simpleChecker.check, hig] at hcs
  · intro ret hret
    refine collectVerdicts_get? u true _ _ _ hret ?_ (Or.inl ?_)
    · intro r hr hru
      obtain ⟨cs, hcs⟩ := runChecks_mem _ _ _ _ hr
      rw [hcs, hru]
      simp [simpleChecker.check, hig]
    · rw [runChecks_keys]
      exact hu
  · intro ignore
    rfl
  · intro ret hret
    have hmemu : (u, manualChecker.matchAll compile u condition.Matchers false) ∈
        urls.map (fun url => (url, manualChecker.matchAll compile url condition.Matchers false)) :=
      List.mem_map.mpr ⟨u, hu, rfl⟩
    obtain ⟨b, hb⟩ := collectVerdicts_all_ok _ _ _ hret _ hmemu
    refine ⟨b, hb, collectVerdicts_get? u b _ _ _ hret ?_ (Or.inl ?_)⟩
    · intro r hr hru
      obtain ⟨url, _, hurl⟩ := List.mem_map.mp hr
      rw [← hurl] at hru ⊢
      simp only at hru ⊢
      rw [hru]
      exact hb
    · simp only [List.map_map]
      exact List.mem_map.mpr ⟨u, hu, rfl⟩

/-! ## A failing probe (C10) -/

theorem string_append_right_cancel (a b p : String) (h : a ++ p = b ++ p) : a = b := by
  have h1 : (a ++ p).data = (b ++ p).data := by rw [h]
  simp only [String.data_append] at h1
  exact String.ext (List.append_cancel_right h1)

theorem CheckCaches.get?_put {V : Type} (cc : CheckCaches V) (key : String) (value : V)
    (expire now : Int) (k : String) (hk : k ≠ key) :
    GoMap.get? (CheckCaches.put cc key value expire now) k = GoMap.get? cc k := by
  unfold CheckCaches.put
  cases GoMap.get? cc key <;> simp [GoMap.get?_set, hk]

theorem fetchValue_of_probeFails {V : Type} (env : ProbeEnv V) (cacheExpire : Int)
    (clock : Clock) (u : String) (condition : HealthCheckCondition) (caches : CheckCaches V)
    (h : probeFails env clock u condition caches = true) :
    fetchValue env cacheExpire clock u condition caches = (.ok none, caches, true) := by
  unfold probeFails at h
  unfold fetchValue
  cases hr : env.newRequest u with
  | none => simp [hr] at h
  | some reqUrl =>
    simp only [hr, Bool.and_eq_true, Bool.not_eq_true'] at h ⊢
    obtain ⟨hmiss, hcall⟩ := h
    rcases hg : (CheckCaches.match caches (CheckCaches.makeKey reqUrl condition.Payload)
        env.emptyValue clock.tNew clock.tExpire).Get clock.tGet with ⟨value, hit⟩
    rw [hg] at hmiss
    simp only at hmiss
    subst hmiss
    simp only
    cases hc : env.call reqUrl condition.Payload with
    | none => rfl
    | some value =>
      rw [hc] at hcall
      simp only at hcall
      simp [hcall]

/-- The check of any URL leaves a failing probe failing: it writes the cache
only under the key of a request whose call succeeded. -/
theorem probeFails_fetchValue {V : Type} (env : ProbeEnv V) (cacheExpire : Int)
    (clock : Clock) (u v : String) (condition : HealthCheckCondition) (caches : CheckCaches V)
    (h : probeFails env clock u condition caches = true) :
    probeFails env clock u condition
      (fetchValue env cacheExpire clock v condition caches).2.1 = true := by
  unfold fetchValue
  cases hv : env.newRequest v with
  | none => simpa using h
  | some reqV =>
    simp only
    rcases hg : (CheckCaches.match caches (CheckCaches.makeKey reqV condition.Payload)
        env.emptyValue clock.tNew clock.tExpire).Get clock.tGet with ⟨value, hit⟩
    cases hit with
    | true => simpa using h
    | false =>
      simp only
      cases hc : env.call reqV condition.Payload with
      | none => simpa using h
      | some w =>
        simp only
        by_cases herr : (env.isNil w || env.hasError w) = true
        · simpa [herr] using h
        · simp only [herr, if_false, Bool.false_eq_true]
          unfold probeFails at h ⊢
          cases hr : env.newRequest u with
          | none => simp [hr] at h
          | some reqU =>
            simp only [hr] at h ⊢
            have hne : reqU ≠ reqV := by
              intro heq
              rw [heq, hc] at h
              simp only [Bool.and_eq_true] at h
              exact herr h.2
            have hkey : CheckCaches.makeKey reqU condition.Payload ≠
                CheckCaches.makeKey reqV condition.Payload :=
              fun hk => hne (string_append_right_cancel _ _ _ hk)
            have hm : CheckCaches.match (CheckCaches.put caches
                (CheckCaches.makeKey reqV condition.Payload) w cacheExpire clock.tPut)
                (CheckCaches.makeKey reqU condition.Payload) env.emptyValue clock.tNew
                clock.tExpire =
                CheckCaches.match caches (CheckCaches.makeKey reqU condition.Payload)
                  env.emptyValue clock.tNew clock.tExpire := by
              unfold CheckCaches.match
              rw [CheckCaches.get?_put _ _ _ _ _ _ hkey]
            rw [hm]
            exact h

/-- Removing a URL whose check always gives `fail` and leaves the caches as they
are removes its results and changes nothing else. -/
theorem runChecks_without {V R : Type} (f : String → CheckCaches V → R × CheckCaches V × Bool)
    (u : String) (fail : R) (P : CheckCaches V → Prop)
    (hfail : ∀ cs, P cs → (f u cs).1 = fail ∧ (f u cs).2.1 = cs)
    (hpres : ∀ v cs, P cs → P (f v cs).2.1) :
    ∀ (urls : List String) (cs : CheckCaches V), P cs →
      (runChecks f (urls.filter (fun v => v != u)) cs).1 =
          (runChecks f urls cs).1.filter (fun r => r.1 != u) ∧
        (∀ r ∈ (runChecks f urls cs).1, r.1 = u → r.2 = fail) := by
  intro urls
  induction urls with
  | nil => intro cs _; simp [runChecks]
  | cons v vs ih =>
    intro cs hP
    by_cases hvu : v = u
    · subst hvu
      obtain ⟨h1, h2⟩ := hfail cs hP
      obtain ⟨ih1, ih2⟩ := ih cs hP
      have hf : (v :: vs).filter (fun w => w != v) = vs.filter (fun w => w != v) := by
        simp [List.filter]
      rw [hf]
      simp only [runChecks, h2]
      refine ⟨?_, ?_⟩
      · rw [ih1]
        simp [List.filter]
      · intro r hr _
        rcases List.mem_cons.mp hr with hr | hr
        · rw [hr]; exact h1
        · exact ih2 r hr ‹_›
    · obtain ⟨ih1, ih2⟩ := ih (f v cs).2.1 (hpres v cs hP)
      have hb : (v != u) = true := by simpa using hvu
      have hf : (v :: vs).filter (fun w => w != u) = v :: vs.filter (fun w => w != u) := by
        simp [List.filter, hb]
      rw [hf]
      simp only [runChecks]
      refine ⟨?_, ?_⟩
      · rw [ih1]
        simp [List.filter, hb]
      · intro r hr hru
        rcases List.mem_cons.mp hr with hr | hr
        · rw [hr] at hru
          exact absurd hru hvu
        · exact ih2 r hr hru

theorem collectVerdicts_without (u : String) :
    ∀ (rs : List (String × Except CheckErr Bool)) (ret ret0 r0 : GoMap Bool),
      (∀ r ∈ rs, r.1 = u → r.2 = .ok false) →
      collectVerdicts (rs.filter (fun r => r.1 != u)) ret0 = .ok r0 →
      (∀ v, v ≠ u → ret.get? v = ret0.get? v) →
      ∃ r1, collectVerdicts rs ret = .ok r1 ∧ ∀ v, v ≠ u → r1.get? v = r0.get? v := by
  intro rs
  induction rs with
  | nil =>
    intro ret ret0 r0 _ h hrel
    simp only [List.filter, collectVerdicts, Except.ok.injEq] at h
    subst h
    exact ⟨ret, rfl, hrel⟩
  | cons p rest ih =>
    intro ret ret0 r0 hall h hrel
    obtain ⟨url, res⟩ := p
    have hall1 : ∀ r ∈ rest, r.1 = u → r.2 = .ok false :=
      fun r hr => hall r (List.mem_cons_of_mem _ hr)
    by_cases hu : url = u
    · have hres := hall (url, res) (List.mem_cons_self _ _) hu
      simp only at hres
      subst hres
      have hb : ((url, (Except.ok false : Except CheckErr Bool)).1 != u) = false := by
        simpa using hu
      simp only [List.filter, hb] at h
      simp only [collectVerdicts]
      apply ih _ _ _ hall1 h
      intro v hv
      rw [GoMap.get?_set, if_neg (by rw [hu]; exact hv)]
      exact hrel v hv
    · have hb : ((url, res).1 != u) = true := by simpa using hu
      simp only [List.filter, hb] at h
      cases res with
      | error e => simp [collectVerdicts] at h
      | ok valid =>
        simp only [collectVerdicts] at h ⊢
        apply ih _ _ _ hall1 h
        intro v hv
        rw [GoMap.get?_set, GoMap.get?_set, hrel v hv]

/-- The receive loop of the ValueMatch and Simple checkers over the list with
and without a URL whose check gives false and leaves the caches as they are. -/
theorem verdicts_without {V : Type}
    (f : String → CheckCaches V → Except CheckErr Bool × CheckCaches V × Bool)
    (u : String) (P : CheckCaches V → Prop)
    (hfail : ∀ cs, P cs → (f u cs).1 = .ok false ∧ (f u cs).2.1 = cs)
    (hpres : ∀ v cs, P cs → P (f v cs).2.1)
    (urls : List String) (cs : CheckCaches V) (hP : P cs) (ret0 : GoMap Bool)
    (h0 : collectVerdicts (runChecks f (urls.filter (fun v => v != u)) cs).1 [] = .ok ret0) :
    ∃ ret, collectVerdicts (runChecks f urls cs).1 [] = .ok ret ∧
      (u ∈ urls → ret.get? u = some false) ∧
      ∀ v, v ≠ u → ret.get? v = ret0.get? v := by
  obtain ⟨h1, h2⟩ := runChecks_without f u (.ok false) P hfail hpres urls cs hP
  rw [h1] at h0
  obtain ⟨ret, hret, hrel⟩ := collectVerdicts_without u _ [] [] ret0 h2 h0 (fun _ _ => rfl)
  refine ⟨ret, hret, ?_, hrel⟩
  intro hu
  exact collectVerdicts_get? u false _ _ _ hret h2 (Or.inl (by rw [runChecks_keys]; exact hu))

theorem valueMatch_check_caches {V : Type} (env : ProbeEnv V) (cacheExpire : Int)
    (clock : Clock) (v : String) (condition : HealthCheckCondition) (cs : CheckCaches V) :
    (valueMatchChecker.check env cacheExpire clock v condition cs).2.1 =
      (fetchValue env cacheExpire clock v condition cs).2.1 := by
  unfold valueMatchChecker.check
  rcases fetchValue env cacheExpire clock v condition cs with ⟨r, cs1, p⟩
  rcases r with e | o
  · rfl
  · cases o <;> rfl

theorem simple_check_caches {V : Type} (env : ProbeEnv V) (cacheExpire : Int)
    (clock : Clock) (v : String) (condition : HealthCheckCondition) (cs : CheckCaches V)
    (hig : condition.ignore v = false) :
    (simpleChecker.check env cacheExpire clock v condition cs).2.1 =
      (fetchValue env cacheExpire clock v condition cs).2.1 := by
  unfold simpleChecker.check
  simp only [hig, Bool.false_eq_true, if_false]
  rcases fetchValue env cacheExpire clock v condition cs with ⟨r, cs1, p⟩
  rcases r with e | o
  · rfl
  · cases o <;> rfl

theorem getHeight_caches {V : Type} (env : ProbeEnv V) (cacheExpire : Int)
    (clock : Clock) (v : String) (condition : HealthCheckCondition) (cs : CheckCaches V) :
    (blockHeightChecker.getHeight env cacheExpire clock v condition cs).2.1 =
      (fetchValue env cacheExpire clock v condition cs).2.1 := by
  unfold blockHeightChecker.getHeight
  rcases fetchValue env cacheExpire clock v condition cs with ⟨r, cs1, p⟩
  rcases r with e | o
  · rfl
  · cases o with
    | none => rfl
    | some value =>
      simp only
      cases condition.Matchers with
      | nil => rfl
      | cons m ms =>
        simp only
        cases env.render m.Key value with
        | none => rfl
        | some val =>
          simp only
          split
          · rfl
          · cases blockHeightChecker.parseHeight val <;> rfl

theorem valueMatch_without {V : Type} (env : ProbeEnv V) (cacheExpire : Int) (clock : Clock)
    (condition : HealthCheckCondition) (caches : CheckCaches V) (u : String)
    (hfails : probeFails env clock u condition caches = true)
    (hig : condition.ignore u = false) (urls : List String) (ret0 : GoMap Bool)
    (h0 : (valueMatchChecker.Check env cacheExpire clock (urls.filter (fun v => v != u))
      condition caches).1 = .ok ret0) :
    ∃ ret, (valueMatchChecker.Check env cacheExpire clock urls condition caches).1 = .ok ret ∧
      (u ∈ urls → ret.get? u = some false) ∧
      ∀ v, v ≠ u → ret.get? v = ret0.get? v := by
  refine verdicts_without (valueMatchChecker.verdictOf env cacheExpire clock condition) u
    (fun cs => probeFails env clock u condition cs = true) ?_ ?_ urls caches hfails ret0 h0
  · intro cs hP
    simp [valueMatchChecker.verdictOf, hig, valueMatchChecker.check,
      fetchValue_of_probeFails env cacheExpire clock u condition cs hP]
  · intro v cs hP
    unfold valueMatchChecker.verdictOf
    by_cases hv : condition.ignore v = true
    · simpa [hv] using hP
    · simp only [hv, if_false, Bool.false_eq_true, valueMatch_check_caches]
      exact probeFails_fetchValue env cacheExpire clock u v condition cs hP

theorem simple_without {V : Type} (env : ProbeEnv V) (cacheExpire : Int) (clock : Clock)
    (condition : HealthCheckCondition) (caches : CheckCaches V) (u : String)
    (hfails : probeFails env clock u condition caches = true)
    (hig : condition.ignore u = false) (urls : List String) (ret0 : GoMap Bool)
    (h0 : (simpleChecker.Check env cacheExpire clock (urls.filter (fun v => v != u))
      condition caches).1 = .ok ret0) :
    ∃ ret, (simpleChecker.Check env cacheExpire clock urls condition caches).1 = .ok ret ∧
      (u ∈ urls → ret.get? u = some false) ∧
      ∀ v, v ≠ u → ret.get? v = ret0.get? v := by
  refine verdicts_without
    (fun url cs => simpleChecker.check env cacheExpire clock url condition cs) u
    (fun cs => probeFails env clock u condition cs = true) ?_ ?_ urls caches hfails ret0 h0
  · intro cs hP
    simp [simpleChecker.check, hig,
      fetchValue_of_probeFails env cacheExpire clock u condition cs hP]
  · intro v cs hP
    by_cases hv : condition.ignore v = true
    · simpa [simpleChecker.check, hv] using hP
    · have hv2 : condition.ignore v = false := by simpa using hv
      simp only [simple_check_caches env cacheExpire clock v condition cs hv2]
      exact probeFails_fetchValue env cacheExpire clock u v condition cs hP

theorem loMax_replicate (n : Nat) (hs : List Int) :
    loMax (List.replicate (n + 1) 0 ++ hs) =
      hs.foldl (fun m item => if item > m then item else m) 0 := by
  have hz : ∀ k : Nat, (List.replicate k (0 : Int)).foldl
      (fun m item => if item > m then item else m) 0 = 0 := by
    intro k
    induction k with
    | zero => rfl
    | succ k ih => simpa [List.replicate, List.foldl] using ih
  simp only [List.replicate, List.cons_append, loMax, List.foldl_append, hz]

theorem blockHeight_collect_without (u : String) (n n0 : Nat) :
    ∀ (rs : List (String × Except CheckErr Int)) (acc acc0 a0 : HeightAcc) (hs : List Int),
      (∀ r ∈ rs, r.1 = u → r.2 = .ok (-1)) →
      blockHeightChecker.collect (rs.filter (fun r => r.1 != u)) acc0 = .ok a0 →
      acc.heightMap = acc0.heightMap →
      (∀ v, v ≠ u → acc.ret.get? v = acc0.ret.get? v) →
      acc.heights = List.replicate n 0 ++ hs →
      acc0.heights = List.replicate n0 0 ++ hs →
      ∃ a hs1, blockHeightChecker.collect rs acc = .ok a ∧
        a.heightMap = a0.heightMap ∧
        (∀ v, v ≠ u → a.ret.get? v = a0.ret.get? v) ∧
        a.heights = List.replicate n 0 ++ hs1 ∧
        a0.heights = List.replicate n0 0 ++ hs1 := by
  intro rs
  induction rs with
  | nil =>
    intro acc acc0 a0 hs _ h hmap hrel hh hh0
    simp only [List.filter, blockHeightChecker.collect, Except.ok.injEq] at h
    subst h
    exact ⟨acc, hs, rfl, hmap, hrel, hh, hh0⟩
  | cons p rest ih =>
    intro acc acc0 a0 hs hall h hmap hrel hh hh0
    obtain ⟨url, res⟩ := p
    have hall1 : ∀ r ∈ rest, r.1 = u → r.2 = .ok (-1) :=
      fun r hr => hall r (List.mem_cons_of_mem _ hr)
    by_cases hu : url = u
    · have hres := hall (url, res) (List.mem_cons_self _ _) hu
      simp only at hres
      subst hres
      have hb : ((url, (Except.ok (-1) : Except CheckErr Int)).1 != u) = false := by
        simpa using hu
      simp only [List.filter, hb] at h
      simp only [blockHeightChecker.collect, if_true]
      refine ih ⟨acc.ret.set url false, acc.heightMap, acc.heights⟩ acc0 a0 hs hall1 h hmap
        ?_ hh hh0
      intro v hv
      simp only
      rw [GoMap.get?_set, if_neg (by rw [hu]; exact hv)]
      exact hrel v hv
    · have hb : ((url, res).1 != u) = true := by simpa using hu
      simp only [List.filter, hb] at h
      cases res with
      | error e => simp [blockHeightChecker.collect] at h
      | ok height =>
        simp only [blockHeightChecker.collect] at h ⊢
        by_cases h1 : height = -1
        · simp only [h1, if_true] at h ⊢
          refine ih ⟨acc.ret.set url false, acc.heightMap, acc.heights⟩
            ⟨acc0.ret.set url false, acc0.heightMap, acc0.heights⟩ a0 hs hall1 h hmap ?_ hh hh0
          intro v hv
          simp only
          rw [GoMap.get?_set, GoMap.get?_set, hrel v hv]
        · by_cases h2 : height = 0
          · simp only [h1, h2, if_true, if_false] at h ⊢
            refine ih ⟨acc.ret.set url true, acc.heightMap, acc.heights⟩
              ⟨acc0.ret.set url true, acc0.heightMap, acc0.heights⟩ a0 hs hall1 h hmap ?_ hh hh0
            intro v hv
            simp only
            rw [GoMap.get?_set, GoMap.get?_set, hrel v hv]
          · simp only [h1, h2, if_false] at h ⊢
            refine ih ⟨acc.ret, acc.heightMap.set url height, acc.heights ++ [height]⟩
              ⟨acc0.ret, acc0.heightMap.set url height, acc0.heights ++ [height]⟩ a0
              (hs ++ [height]) hall1 h ?_ ?_ ?_ ?_
            · simp only [hmap]
            · exact hrel
            · simp only [hh, List.append_assoc]
            · simp only [hh0, List.append_assoc]

/-- The last part of `blockHeightChecker.Check` on two states of the receive
loop that differ only in the verdict of `u` and in the number of leading
zeros of `heights`. -/
theorem blockHeight_verdicts_without (u : String) (matcher : Matcher) (lastBlocks : GoMap Int)
    (chainId : String) (a a0 : HeightAcc) (n n0 : Nat) (hs : List Int) (tolerance : Int)
    (htol : blockHeightChecker.parseHeight matcher.Value = some tolerance)
    (hmap : a.heightMap = a0.heightMap)
    (hrel : ∀ v, v ≠ u → a.ret.get? v = a0.ret.get? v)
    (hh : a.heights = List.replicate (n + 1) 0 ++ hs)
    (hh0 : a0.heights = List.replicate n0 0 ++ hs)
    (hn0 : 0 < n0 ∨ (hs = [] ∧ a0.heightMap = []))
    (ret0 : GoMap Bool)
    (h0 : (blockHeightChecker.verdicts matcher lastBlocks chainId a0).1 = .ok ret0) :
    ∃ ret, (blockHeightChecker.verdicts matcher lastBlocks chainId a).1 = .ok ret ∧
      ∀ v, v ≠ u → ret.get? v = ret0.get? v := by
  have hlen : ¬ (a.heights.length = 0) := by
    rw [hh]
    simp
  unfold blockHeightChecker.verdicts at h0 ⊢
  simp only [hlen, if_false, htol]
  by_cases hl0 : a0.heights.length = 0
  · simp only [hl0, if_true, Except.ok.injEq] at h0
    subst h0
    have hnil : hs = [] ∧ a0.heightMap = [] := by
      rcases hn0 with hpos | hnil
      · rw [hh0] at hl0
        simp at hl0
        omega
      · exact hnil
    refine ⟨_, rfl, ?_⟩
    intro v hv
    rw [GoMap.get?_mergeInto, hmap, hnil.2]
    simpa [GoMap.get?] using hrel v hv
  · simp only [hl0, if_false, htol, Except.ok.injEq] at h0
    have hpos : 0 < n0 := by
      rcases hn0 with hpos | hnil
      · exact hpos
      · rw [hh0, hnil.1] at hl0
        by_contra hz
        have : n0 = 0 := by omega
        rw [this] at hl0
        simp at hl0
    obtain ⟨k, hk⟩ : ∃ k, n0 = k + 1 := ⟨n0 - 1, by omega⟩
    have hmax : loMax a.heights = loMax a0.heights := by
      rw [hh, hh0, hk, loMax_replicate, loMax_replicate]
    refine ⟨_, rfl, ?_⟩
    intro v hv
    rw [← h0, GoMap.get?_mergeInto, GoMap.get?_mergeInto, hmap, hmax, hrel v hv]

theorem filter_ne_eq_self (u : String) (urls : List String) (hu : u ∉ urls) :
    urls.filter (fun v => v != u) = urls := by
  apply List.filter_eq_self.mpr
  intro v hv
  have : v ≠ u := fun h => hu (h ▸ hv)
  simpa using this

theorem blockHeight_without {V : Type} (env : ProbeEnv V) (cacheExpire : Int) (clock : Clock)
    (lastBlocks : GoMap Int) (chainId : String)
    (condition : HealthCheckCondition) (caches : CheckCaches V) (u : String)
    (hfails : probeFails env clock u condition caches = true)
    (hig : condition.ignore u = false)
    (htol : (blockHeightChecker.tolerance condition).isSome = true)
    (urls : List String) (ret0 : GoMap Bool)
    (h0 : (blockHeightChecker.Check (blockHeightChecker.getHeight env cacheExpire clock)
      lastBlocks chainId (urls.filter (fun v => v != u)) condition caches).1 = .ok ret0) :
    ∃ ret, (blockHeightChecker.Check (blockHeightChecker.getHeight env cacheExpire clock)
        lastBlocks chainId urls condition caches).1 = .ok ret ∧
      (u ∈ urls → ret.get? u = some false) ∧
      ∀ v, v ≠ u → ret.get? v = ret0.get? v := by
  by_cases hu : u ∈ urls
  swap
  · rw [filter_ne_eq_self u urls hu] at h0
    exact ⟨ret0, h0, fun h => absurd h hu, fun _ _ => rfl⟩
  obtain ⟨h1, h2⟩ := runChecks_without
    (blockHeightChecker.heightOf (blockHeightChecker.getHeight env cacheExpire clock) condition)
    u (.ok (-1)) (fun cs => probeFails env clock u condition cs = true)
    (by
      intro cs hP
      simp [blockHeightChecker.heightOf, hig, blockHeightChecker.getHeight,
        fetchValue_of_probeFails env cacheExpire clock u condition cs hP])
    (by
      intro v cs hP
      unfold blockHeightChecker.heightOf
      by_cases hv : condition.ignore v = true
      · simpa [hv] using hP
      · simp only [hv, if_false, Bool.false_eq_true, getHeight_caches]
        exact probeFails_fetchValue env cacheExpire clock u v condition cs hP)
    urls caches hfails
  have hexists : ∃ ret, (blockHeightChecker.Check
      (blockHeightChecker.getHeight env cacheExpire clock)
      lastBlocks chainId urls condition caches).1 = .ok ret ∧
      ∀ v, v ≠ u → ret.get? v = ret0.get? v := by
    unfold blockHeightChecker.tolerance at htol
    unfold blockHeightChecker.Check at h0 ⊢
    cases hm : condition.Matchers with
    | nil => simp [hm] at h0
    | cons matcher ms =>
      simp only [hm] at h0 htol ⊢
      obtain ⟨tolerance, htol⟩ := Option.isSome_iff_exists.mp htol
      rw [h1] at h0
      cases hc0 : blockHeightChecker.collect
          ((runChecks (blockHeightChecker.heightOf
            (blockHeightChecker.getHeight env cacheExpire clock) condition) urls caches).1.filter
            (fun r => r.1 != u))
          { ret := [], heightMap := [],
            heights := List.replicate (urls.filter (fun v => v != u)).length 0 } with
      | error e => simp [hc0] at h0
      | ok a0 =>
        simp only [hc0] at h0
        obtain ⟨a, hs1, hca, hmap, hrel, hh, hh0⟩ :=
          blockHeight_collect_without u urls.length (urls.filter (fun v => v != u)).length _
            { ret := [], heightMap := [], heights := List.replicate urls.length 0 }
            _ a0 [] h2 hc0 rfl (fun _ _ => rfl) (by simp) (by simp)
        simp only [hca]
        obtain ⟨k, hk⟩ : ∃ k, urls.length = k + 1 := by
          cases urls with
          | nil => simp at hu
          | cons x xs => exact ⟨xs.length, rfl⟩
        rw [hk] at hh
        have hn0 : 0 < (urls.filter (fun v => v != u)).length ∨ (hs1 = [] ∧ a0.heightMap = []) := by
          by_cases hz : (urls.filter (fun v => v != u)).length = 0
          · right
            have hnil : urls.filter (fun v => v != u) = [] := List.length_eq_zero.mp hz
            have hrs : (runChecks (blockHeightChecker.heightOf
                (blockHeightChecker.getHeight env cacheExpire clock) condition) urls caches).1.filter
                (fun r => r.1 != u) = [] := by
              rw [← h1, hnil]
              rfl
            rw [hrs, hnil] at hc0
            simp only [blockHeightChecker.collect, Except.ok.injEq] at hc0
            subst hc0
            rw [hz] at hh0
            simp only [List.length_nil, List.replicate, List.nil_append] at hh0
            exact ⟨hh0.symm, rfl⟩
          · left
            omega
        exact blockHeight_verdicts_without u matcher lastBlocks chainId a a0 k _ hs1 tolerance
          htol hmap hrel hh hh0 hn0 ret0 h0
  obtain ⟨ret, hret, hrel⟩ := hexists
  refine ⟨ret, hret, fun _ => ?_, hrel⟩
  exact blockHeight_check_reserved _ lastBlocks chainId urls condition caches u (-1) false
    (Or.inr ⟨rfl, rfl⟩) hu h2 ret hret

/-- C10, amended. A URL whose probe fails (the call returns an error, a nil map,
or a response with a non-null `error`) reads false in the result of the
ValueMatch, BlockHeight and Simple checkers, and does not fail the check:
whenever the check of the list without that URL returns a result, the check of
the list returns a result, with false for that URL and the same verdict for
every other URL. For BlockHeight this is for a condition whose tolerance, the
value of its first matcher, parses as a height. -/
theorem failing_probe_is_false_and_local {V : Type} (env : ProbeEnv V) (cacheExpire : Int)
    (clock : Clock) (lastBlocks : GoMap Int) (chainId : String)
    (condition : HealthCheckCondition) (caches : CheckCaches V) (u : String)
    (urls : List String)
    (hfails : probeFails env clock u condition caches = true)
    (hig : condition.ignore u = false) :
    (∀ ret0, (valueMatchChecker.Check env cacheExpire clock (urls.filter (fun v => v != u))
        condition caches).1 = .ok ret0 →
      ∃ ret, (valueMatchChecker.Check env cacheExpire clock urls condition caches).1 = .ok ret ∧
        (u ∈ urls → ret.get? u = some false) ∧ ∀ v, v ≠ u → ret.get? v = ret0.get? v) ∧
    ((blockHeightChecker.tolerance condition).isSome = true →
      ∀ ret0, (blockHeightChecker.Check (blockHeightChecker.getHeight env cacheExpire clock)
        lastBlocks chainId (urls.filter (fun v => v != u)) condition caches).1 = .ok ret0 →
      ∃ ret, (blockHeightChecker.Check (blockHeightChecker.getHeight env cacheExpire clock)
          lastBlocks chainId urls condition caches).1 = .ok ret ∧
        (u ∈ urls → ret.get? u = some false) ∧ ∀ v, v ≠ u → ret.get? v = ret0.get? v) ∧
    (∀ ret0, (simpleChecker.Check env cacheExpire clock (urls.filter (fun v => v != u))
        condition caches).1 = .ok ret0 →
      ∃ ret, (simpleChecker.Check env cacheExpire clock urls condition caches).1 = .ok ret ∧
        (u ∈ urls → ret.get? u = some false) ∧ ∀ v, v ≠ u → ret.get? v = ret0.get? v) :=
  ⟨fun ret0 h0 => valueMatch_without env cacheExpire clock condition caches u hfails hig urls ret0 h0,
   fun htol ret0 h0 => blockHeight_without env cacheExpire clock lastBlocks chainId condition
     caches u hfails hig htol urls ret0 h0,
   fun ret0 h0 => simple_without env cacheExpire clock condition caches u hfails hig urls ret0 h0⟩

/-! ## The trace status of a response (C3) -/

theorem intercalate_singleton (sep s : String) : String.intercalate sep [s] = s := by
  simp [String.intercalate, String.intercalate.go]

/-- C3. `withResponse` on a status other than 200 records the decimal status and
the raw body; on 200 and a body that decodes as one response object it records
"200" and "OK" when `error` is null or absent and the decimal error code and the
error message otherwise; on 200 and a body that decodes as a non-empty array of
response objects it records the "&"-joins, in array order, of the per-element
codes and of the per-element messages. In these cases it returns no error. -/
theorem withResponse_composes_status (codec : JsonCodec) (rt : requestTrace) (statusCode : Int)
    (bodyBytes : String) (latency : Int) :
    (statusCode ≠ 200 →
      requestTraceBuilder.withResponse codec rt statusCode bodyBytes latency =
        ({ rt with Latency := latency, Status := toString statusCode, Message := bodyBytes },
          none)) ∧
    (∀ jr, statusCode = 200 → codec.unmarshalResponse bodyBytes = some jr →
      (jr.Error = none →
        requestTraceBuilder.withResponse codec rt statusCode bodyBytes latency =
          ({ rt with Latency := latency, Status := "200", Message := "OK" }, none)) ∧
      (∀ err, jr.Error = some err →
        requestTraceBuilder.withResponse codec rt statusCode bodyBytes latency =
          ({ rt with Latency := latency, Status := toString err.Code, Message := err.Message },
            none))) ∧
    (∀ jrs, statusCode = 200 → codec.unmarshalResponse bodyBytes = none →
      codec.unmarshalResponses bodyBytes = some jrs → jrs ≠ [] →
      requestTraceBuilder.withResponse codec rt statusCode bodyBytes latency =
        ({ rt with
            Latency := latency,
            Status := String.intercalate "&" (jrs.map (fun jr =>
              match jr.Error with
              | none => "200"
              | some err => toString err.Code)),
            Message := String.intercalate "&" (jrs.map (fun jr =>
              match jr.Error with
              | none => "OK"
              | some err => err.Message)) }, none)) := by
  refine ⟨?_, ?_, ?_⟩
  · intro h
    simp [requestTraceBuilder.withResponse, composeStatus, h]
  · intro jr h200 hjr
    refine ⟨?_, ?_⟩
    · intro hnone
      simp [requestTraceBuilder.withResponse, composeStatus, h200, hjr, responseStatus, hnone,
        intercalate_singleton]
    · intro err herr
      simp [requestTraceBuilder.withResponse, composeStatus, h200, hjr, responseStatus, herr,
        intercalate_singleton]
  · intro jrs h200 hnone hjrs hne
    have hlen : jrs.length ≠ 0 := fun h => hne (List.length_eq_zero.mp h)
    have h1 : jrs.map (fun jr => (responseStatus jr).1) = jrs.map (fun jr =>
        match jr.Error with
        | none => "200"
        | some err => toString err.Code) := by
      apply List.map_congr_left
      intro jr _
      unfold responseStatus
      cases jr.Error <;> rfl
    have h2 : jrs.map (fun jr => (responseStatus jr).2) = jrs.map (fun jr =>
        match jr.Error with
        | none => "OK"
        | some err => err.Message) := by
      apply List.map_congr_left
      intro jr _
      unfold responseStatus
      cases jr.Error <;> rfl
    simp only [requestTraceBuilder.withResponse, composeStatus, h200, hnone, hjrs, hlen, ne_eq,
      not_true_eq_false, if_false, h1, h2]

/-- C3, the batch of the specification: a result and an error -32601 "m" give the
status "200&-32601" and the message "OK&m". -/
theorem withResponse_composes_status_witness :
    requestTraceBuilder.withResponse exampleCodec (newRequestTraceBuilder "svc" "grp") 200
        "[\x7b\"id\":1,\"result\":1\x7d,\x7b\"id\":2,\"error\":\x7b\"code\":-32601,\"message\":\"m\"\x7d\x7d]" 7 =
      ({ newRequestTraceBuilder "svc" "grp" with
          Latency := 7, Status := "200&-32601", Message := "OK&m" }, none) := by
  have h := (withResponse_composes_status exampleCodec (newRequestTraceBuilder "svc" "grp") 200
    "[\x7b\"id\":1,\"result\":1\x7d,\x7b\"id\":2,\"error\":\x7b\"code\":-32601,\"message\":\"m\"\x7d\x7d]" 7).2.2
    [{ Error := none }, { Error := some { Code := -32601, Message := "m" } }]
    rfl (by decide) (by decide) (by decide)
  rw [h]
  decide

/-! ## The fan-out (C4) -/

theorem withResponse_keeps (codec : JsonCodec) (rt : requestTrace) (statusCode : Int)
    (bodyBytes : String) (latency : Int) :
    (requestTraceBuilder.withResponse codec rt statusCode bodyBytes latency).1.Retries = rt.Retries ∧
    (requestTraceBuilder.withResponse codec rt statusCode bodyBytes latency).1.Url = rt.Url := by
  unfold requestTraceBuilder.withResponse
  cases composeStatus codec statusCode bodyBytes with
  | none => exact ⟨rfl, rfl⟩
  | some p => exact ⟨rfl, rfl⟩

/-- One call of the fan-out closure: it records the URL, counts a retry on
every call but the first, and returns no error exactly on an accepted
attempt. -/
theorem fanOutCall_spec (codec : JsonCodec) (upstream : Nat → String → FetchOutcome)
    (latency : Nat → Int) (targetUrls : List String) (i : Nat) (st : FanOutState) :
    (fanOutCall codec upstream latency targetUrls i st).2.attempted =
        st.attempted ++ [targetUrls.getD i ""] ∧
    (fanOutCall codec upstream latency targetUrls i st).2.rt.Url = targetUrls.getD i "" ∧
    (fanOutCall codec upstream latency targetUrls i st).2.rt.Retries =
        (if i ≠ 0 then st.rt.Retries + 1 else st.rt.Retries) ∧
    ((fanOutCall codec upstream latency targetUrls i st).1.2 = none ↔
      acceptedOutcome codec (upstream i (targetUrls.getD i "")) = true) := by
  unfold fanOutCall
  dsimp only
  cases hout : upstream i (targetUrls.getD i "") with
  | requestError =>
    refine ⟨rfl, rfl, ?_, by simp [acceptedOutcome]⟩
    by_cases hi : i = 0 <;> simp [hi, requestTraceBuilder.withUpstreamNode,
      requestTraceBuilder.incrementRetries]
  | transportError =>
    refine ⟨rfl, rfl, ?_, by simp [acceptedOutcome]⟩
    by_cases hi : i = 0 <;> simp [hi, requestTraceBuilder.withUpstreamNode,
      requestTraceBuilder.incrementRetries]
  | response statusCode contentLength body readOk =>
    simp only [acceptedOutcome]
    by_cases hlarge : contentLength > 5 * 1024 * 1024
    · simp only [hlarge, if_true]
      refine ⟨(by first | rfl | trivial), rfl, ?_, by simp⟩
      by_cases hi : i = 0 <;> simp [hi, requestTraceBuilder.withUpstreamNode,
        requestTraceBuilder.incrementRetries, requestTraceBuilder.withLargeResponse]
    · simp only [hlarge, if_false]
      cases readOk with
      | false =>
        simp only [Bool.not_false, if_true, Bool.false_and]
        refine ⟨(by first | rfl | trivial), rfl, ?_, by simp⟩
        by_cases hi : i = 0 <;> simp [hi, requestTraceBuilder.withUpstreamNode,
          requestTraceBuilder.incrementRetries]
      | true =>
        simp only [Bool.not_true, Bool.false_eq_true, if_false, Bool.true_and]
        have hk := withResponse_keeps codec (requestTraceBuilder.withUpstreamNode
          (if i ≠ 0 then requestTraceBuilder.incrementRetries st.rt else st.rt)
          (targetUrls.getD i "")) statusCode body (latency i)
        have hretries : (requestTraceBuilder.withUpstreamNode
            (if i ≠ 0 then requestTraceBuilder.incrementRetries st.rt else st.rt)
            (targetUrls.getD i "")).Retries =
            (if i ≠ 0 then st.rt.Retries + 1 else st.rt.Retries) := by
          by_cases hi : i = 0 <;> simp [hi, requestTraceBuilder.withUpstreamNode,
            requestTraceBuilder.incrementRetries]
        have hurl : (requestTraceBuilder.withUpstreamNode
            (if i ≠ 0 then requestTraceBuilder.incrementRetries st.rt else st.rt)
            (targetUrls.getD i "")).Url = targetUrls.getD i "" := rfl
        rw [hretries] at hk
        rw [hurl] at hk
        unfold requestTraceBuilder.withResponse at hk ⊢
        cases hcs : composeStatus codec statusCode body with
        | none =>
          simp only [hcs] at hk ⊢
          exact ⟨(by first | rfl | trivial), hk.2, hk.1, by simp⟩
        | some p =>
          obtain ⟨status, message⟩ := p
          simp only [hcs] at hk ⊢
          by_cases hacc : (status == "200" || status == "3" || status == "200&200") = true
          · simp only [hacc, if_true]
            exact ⟨(by first | rfl | trivial), hk.2, hk.1, by simp⟩
          · simp only [hacc, if_false, Bool.false_eq_true]
            exact ⟨(by first | rfl | trivial), hk.2, hk.1, by simp⟩

theorem take_succ_getD (l : List String) (i : Nat) (h : i < l.length) :
    l.take i ++ [l.getD i ""] = l.take (i + 1) := by
  rw [List.take_succ]
  congr 1
  simp [List.getD, List.getElem?_eq_getElem h]

/-- Invariant of the loop of `callFuncWithRetry` over the fan-out closure. -/
theorem fanOut_loop_spec (codec : JsonCodec) (upstream : Nat → String → FetchOutcome)
    (latency : Nat → Int) (targetUrls : List String) (r0 : Int) :
    ∀ (remaining i : Nat) (cur : (Option Int × Option FanOutError) × FanOutState),
      i + remaining = targetUrls.length →
      cur.2.attempted = targetUrls.take i →
      (∀ j, j < i → acceptedOutcome codec (upstream j (targetUrls.getD j "")) = false) →
      (i = 0 → cur.2.rt.Retries = r0) →
      (0 < i → cur.2.rt.Retries = r0 + ((i : Int) - 1) ∧
        cur.2.rt.Url = targetUrls.getD (i - 1) "" ∧ cur.1.2 ≠ none) →
      ∃ k, i ≤ k ∧ k ≤ targetUrls.length ∧ (0 < remaining → i < k) ∧
        (callFuncWithRetry.loop (fanOutCall codec upstream latency targetUrls)
          remaining i cur).2.attempted = targetUrls.take k ∧
        (∀ j, j + 1 < k → acceptedOutcome codec (upstream j (targetUrls.getD j "")) = false) ∧
        (k < targetUrls.length → 0 < k ∧
          acceptedOutcome codec (upstream (k - 1) (targetUrls.getD (k - 1) "")) = true) ∧
        (0 < k →
          (callFuncWithRetry.loop (fanOutCall codec upstream latency targetUrls)
            remaining i cur).2.rt.Retries = r0 + ((k : Int) - 1) ∧
          (callFuncWithRetry.loop (fanOutCall codec upstream latency targetUrls)
            remaining i cur).2.rt.Url = targetUrls.getD (k - 1) "" ∧
          ((callFuncWithRetry.loop (fanOutCall codec upstream latency targetUrls)
            remaining i cur).1.2 = none ↔
            acceptedOutcome codec (upstream (k - 1) (targetUrls.getD (k - 1) "")) = true)) := by
  intro remaining
  induction remaining with
  | zero =>
    intro i cur hlen hatt hrej _ hpos
    refine ⟨i, le_refl i, by omega, by omega, hatt, ?_, by omega, ?_⟩
    · intro j hj
      exact hrej j (by omega)
    · intro hi
      obtain ⟨h1, h2, h3⟩ := hpos hi
      refine ⟨h1, h2, ?_⟩
      have hfalse := hrej (i - 1) (by omega)
      constructor
      · intro h; exact absurd h h3
      · intro h; rw [hfalse] at h; exact absurd h (by decide)
  | succ remaining ih =>
    intro i cur hlen hatt hrej hzero hpos
    obtain ⟨c1, c2, c3, c4⟩ := fanOutCall_spec codec upstream latency targetUrls i cur.2
    have hi : i < targetUrls.length := by omega
    have hatt1 : (fanOutCall codec upstream latency targetUrls i cur.2).2.attempted =
        targetUrls.take (i + 1) := by
      rw [c1, hatt, take_succ_getD targetUrls i hi]
    have hret1 : (fanOutCall codec upstream latency targetUrls i cur.2).2.rt.Retries =
        r0 + (((i + 1 : Nat) : Int) - 1) := by
      rw [c3]
      by_cases h0 : i = 0
      · subst h0
        simp [hzero rfl]
      · have := (hpos (by omega)).1
        simp only [h0, ne_eq, not_false_eq_true, if_true, this]
        push_cast
        ring
    simp only [callFuncWithRetry.loop]
    cases herr : (fanOutCall codec upstream latency targetUrls i cur.2).1.2 with
    | none =>
      simp only [herr]
      have hacc := c4.mp herr
      refine ⟨i + 1, by omega, by omega, by omega, hatt1, ?_, ?_, ?_⟩
      · intro j hj
        exact hrej j (by omega)
      · intro _
        exact ⟨by omega, by simpa using hacc⟩
      · intro _
        refine ⟨hret1, by simpa using c2, ?_⟩
        simp only [Nat.add_sub_cancel]
        constructor <;> intro _ <;> first | exact hacc | trivial
    | some e =>
      simp only [herr]
      have hrejI : acceptedOutcome codec (upstream i (targetUrls.getD i "")) = false := by
        cases hb : acceptedOutcome codec (upstream i (targetUrls.getD i "")) with
        | false => rfl
        | true =>
          have := c4.mpr hb
          rw [herr] at this
          exact absurd this (by simp)
      obtain ⟨k, hk1, hk2, _, hk4, hk5, hk6, hk7⟩ :=
        ih (i + 1) (fanOutCall codec upstream latency targetUrls i cur.2) (by omega) hatt1
          (by
            intro j hj
            by_cases hji : j = i
            · rw [hji]; exact hrejI
            · exact hrej j (by omega))
          (by omega)
          (by
            intro _
            refine ⟨hret1, by simpa using c2, ?_⟩
            rw [herr]
            simp)
      exact ⟨k, by omega, hk2, by omega, hk4, hk5, hk6, hk7⟩

/-- C4 (amended). The fan-out requests the chosen URLs in list order and makes
`k` requests, at most as many as there are URLs: every request before the last
is not accepted, and the loop stops before the list is exhausted only on an
accepted request, a request being accepted exactly when its response is large
(`ContentLength` over 5 MiB, recorded as status "207") or the status composed
from its body is "200", "200&200" or "3". When there is at least one URL, at
least one request is made, the retries counter of a fresh trace ends at `k - 1`
and the trace's URL is that of the last request. -/
theorem fanOut_attempts (codec : JsonCodec) (upstream : Nat → String → FetchOutcome)
    (latency : Nat → Int) (targetUrls : List String) (st : FanOutState)
    (hretries : st.rt.Retries = 0) (hattempted : st.attempted = []) :
    ∃ k, k ≤ targetUrls.length ∧
      (fanOut codec upstream latency targetUrls st).2.attempted = targetUrls.take k ∧
      (∀ j, j + 1 < k → acceptedOutcome codec (upstream j (targetUrls.getD j "")) = false) ∧
      (k < targetUrls.length → 0 < k ∧
        acceptedOutcome codec (upstream (k - 1) (targetUrls.getD (k - 1) "")) = true) ∧
      (0 < targetUrls.length → 0 < k ∧
        (fanOut codec upstream latency targetUrls st).2.rt.Retries = (k : Int) - 1 ∧
        (fanOut codec upstream latency targetUrls st).2.rt.Url = targetUrls.getD (k - 1) "") := by
  obtain ⟨k, _, hk2, hk3, hk4, hk5, hk6, hk7⟩ :=
    fanOut_loop_spec codec upstream latency targetUrls 0 targetUrls.length 0 ((none, none), st)
      (by omega) (by simpa using hattempted) (by intro j hj; omega) (fun _ => hretries)
      (by intro h; omega)
  refine ⟨k, hk2, hk4, hk5, hk6, ?_⟩
  intro hn
  have hk : 0 < k := hk3 hn
  obtain ⟨h1, h2, _⟩ := hk7 hk
  refine ⟨hk, ?_, h2⟩
  unfold fanOut callFuncWithRetry
  rw [h1]
  ring

/-- C4, as stated, fails on a large response: over two URLs whose first answer
carries a `ContentLength` of 6 MiB the loop stops after the first request with
no error, and the status of the trace is "207", none of "200", "200&200", "3". -/
theorem fanOut_stops_on_large_response :
    (fanOut exampleCodec largeFirstUpstream (fun _ => 5) ["https://u0", "https://u1"]
        freshFanOut).2.attempted = ["https://u0"] ∧
    (fanOut exampleCodec largeFirstUpstream (fun _ => 5) ["https://u0", "https://u1"]
        freshFanOut).1.2 = none ∧
    (fanOut exampleCodec largeFirstUpstream (fun _ => 5) ["https://u0", "https://u1"]
        freshFanOut).2.rt.Status = "207" := by
  decide

/-- C4 (amended) on three URLs whose first request meets a transport error,
whose second an error object and whose third a result: three requests, two
retries, and the third URL in the trace. -/
theorem fanOut_attempts_witness :
    (fanOut exampleCodec failingFirstUpstream (fun _ => 5)
        ["https://u0", "https://u1", "https://u2"] freshFanOut).2.attempted =
      ["https://u0", "https://u1", "https://u2"] ∧
    (fanOut exampleCodec failingFirstUpstream (fun _ => 5)
        ["https://u0", "https://u1", "https://u2"] freshFanOut).2.rt.Retries = 2 ∧
    ∃ k, k ≤ 3 ∧
      (fanOut exampleCodec failingFirstUpstream (fun _ => 5)
        ["https://u0", "https://u1", "https://u2"] freshFanOut).2.attempted =
        ["https://u0", "https://u1", "https://u2"].take k ∧
      (0 < 3 → 0 < k ∧
        (fanOut exampleCodec failingFirstUpstream (fun _ => 5)
          ["https://u0", "https://u1", "https://u2"] freshFanOut).2.rt.Retries = (k : Int) - 1 ∧
        (fanOut exampleCodec failingFirstUpstream (fun _ => 5)
          ["https://u0", "https://u1", "https://u2"] freshFanOut).2.rt.Url =
          ["https://u0", "https://u1", "https://u2"].getD (k - 1) "") := by
  obtain ⟨k, h1, h2, _, _, h5⟩ := fanOut_attempts exampleCodec failingFirstUpstream (fun _ => 5)
    ["https://u0", "https://u1", "https://u2"] freshFanOut rfl rfl
  exact ⟨by decide, by decide, k, h1, h2, h5⟩

/-! ## The selection (C5, C6) -/

theorem pickOne_mem (rnd : RandSource) (hintn : ∀ n, 0 < n → rnd.intn n < n)
    (x : String) (xs : List String) : pickOne rnd (x :: xs) ∈ x :: xs := by
  unfold pickOne
  have h := hintn (x :: xs).length (by simp)
  rw [List.getD_eq_getElem _ _ h]
  exact List.getElem_mem _

theorem getD_of_get? {β : Type} (m : GoMap β) (k : String) (v d : β)
    (h : m.get? k = some v) : m.getD k d = v := by
  simp [GoMap.getD, h]

/-- C5. For a transaction-sending method, whenever `handlePostMethod` reaches the
draw (it answers no error before) exactly one URL is chosen: with a source
containing "mev" it is a member of the free bucket, whatever the paid bucket
holds, and the mode is "mev_tx"; otherwise with a non-empty paid bucket it is a
member of the paid bucket and the mode is "paid_tx", and with an empty paid
bucket it is a member of the free bucket and the mode is "free_tx". The draw is
reached exactly when the endpoint map is not empty, the guard on the requested
source passes, and the bucket to draw from is not empty (free for a mev
source, paid or else free otherwise). -/
theorem tx_selection (rnd : RandSource) (hintn : ∀ n, 0 < n → rnd.intn n < n)
    (endpointMap : GoMap (List String)) (rp : requestParams)
    (htx : rp.isTxMethod = true) :
    (∀ mode urls, selectTargets rnd endpointMap rp = .ok (mode, urls) →
      (rp.isMevMode = true →
        mode = "mev_tx" ∧ ∃ x ∈ endpointMap.getD "free" [], urls = [x]) ∧
      (rp.isMevMode = false → endpointMap.getD "paid" [] ≠ [] →
        mode = "paid_tx" ∧ ∃ x ∈ endpointMap.getD "paid" [], urls = [x]) ∧
      (rp.isMevMode = false → endpointMap.getD "paid" [] = [] →
        mode = "free_tx" ∧ ∃ x ∈ endpointMap.getD "free" [], urls = [x])) ∧
    ((∃ sel, selectTargets rnd endpointMap rp = .ok sel) ↔
      (endpointMap.length ≠ 0 ∧ sourceUnavailable endpointMap rp = false ∧
        (if rp.isMevMode then endpointMap.getD "free" [] ≠ []
         else (endpointMap.getD "paid" [] ≠ [] ∨ endpointMap.getD "free" [] ≠ [])))) := by
  have hpick : ∀ x xs, pickOne rnd (x :: xs) = x ∨ pickOne rnd (x :: xs) ∈ xs :=
    fun x xs => List.mem_cons.mp (pickOne_mem rnd hintn x xs)
  unfold selectTargets
  by_cases hlen : endpointMap.length = 0
  · simp [hlen]
  by_cases hguard : sourceUnavailable endpointMap rp = true
  · simp [hlen, hguard]
  simp only [hlen, hguard, if_false, Bool.false_eq_true, htx, if_true]
  rcases hp : endpointMap.get? "paid" with _ | (_ | ⟨y, ys⟩) <;>
  rcases hf : endpointMap.get? "free" with _ | (_ | ⟨x, xs⟩) <;>
  cases hmev : rp.isMevMode <;>
  simp [GoMap.getD, hp, hf, hmev, hlen, hguard, hpick]

/-- C5 on the scenario of the specification: `eth_sendRawTransaction`, no source,
an empty paid bucket and two free URLs. -/
theorem tx_selection_witness :
    selectTargets exampleRand [("free", ["https://u1", "https://u2"]), ("paid", [])]
        (exampleRequest "eth_sendRawTransaction" "") = .ok ("free_tx", ["https://u2"]) ∧
    ("free_tx" = "free_tx" ∧
      ∃ x ∈ GoMap.getD [("free", ["https://u1", "https://u2"]), ("paid", [])] "free" [],
        ["https://u2"] = [x]) :=
  ⟨by decide,
   ((tx_selection exampleRand (fun n hn => Nat.sub_lt hn Nat.one_pos)
      [("free", ["https://u1", "https://u2"]), ("paid", [])]
      (exampleRequest "eth_sendRawTransaction" "") (by decide)).1 "free_tx" ["https://u2"]
      (by decide)).2.2 (by decide) (by decide)⟩

/-- C6. For a method that is no transaction-sending method, whenever
`handlePostMethod` builds a target list: with a source containing "paid" the
list is the first `min 3 |paid|` entries of a permutation of the paid bucket
and the mode is "paid_query"; otherwise it is the first `min 3 |free|` entries
of a permutation of the free bucket, followed by one URL of the paid bucket
exactly when that bucket is non-empty and the source does not contain "mev",
and the mode is "free_query". The list has at most four URLs. A target list is
built exactly when the endpoint map is not empty and the guard on the
requested source passes. -/
theorem query_selection (rnd : RandSource) (hintn : ∀ n, 0 < n → rnd.intn n < n)
    (hshuffle : ∀ l, (rnd.shuffle l).Perm l)
    (endpointMap : GoMap (List String)) (rp : requestParams)
    (hquery : rp.isTxMethod = false) :
    (∀ mode urls, selectTargets rnd endpointMap rp = .ok (mode, urls) →
      (rp.isPaidMode = true →
        mode = "paid_query" ∧
        ∃ perm : List String, perm.Perm (endpointMap.getD "paid" []) ∧
          urls = perm.take (min 3 (endpointMap.getD "paid" []).length)) ∧
      (rp.isPaidMode = false →
        mode = "free_query" ∧
        ∃ perm : List String, perm.Perm (endpointMap.getD "free" []) ∧
          ((endpointMap.getD "paid" [] ≠ [] ∧ rp.isMevMode = false →
            ∃ x ∈ endpointMap.getD "paid" [],
              urls = perm.take (min 3 (endpointMap.getD "free" []).length) ++ [x]) ∧
          (¬ (endpointMap.getD "paid" [] ≠ [] ∧ rp.isMevMode = false) →
            urls = perm.take (min 3 (endpointMap.getD "free" []).length)))) ∧
      urls.length ≤ 4) ∧
    ((∃ sel, selectTargets rnd endpointMap rp = .ok sel) ↔
      (endpointMap.length ≠ 0 ∧ sourceUnavailable endpointMap rp = false)) := by
  refine ⟨fun mode urls hsel => ?_, ?_⟩
  swap
  · unfold selectTargets
    by_cases hlen : endpointMap.length = 0
    · simp [hlen]
    by_cases hguard : sourceUnavailable endpointMap rp = true
    · simp [hlen, hguard]
    simp only [hlen, hguard, if_false, Bool.false_eq_true, hquery]
    rcases hp : endpointMap.get? "paid" with _ | (_ | ⟨y, ys⟩) <;>
    cases hmev : rp.isMevMode <;>
    cases hpm : rp.isPaidMode <;>
    simp [hlen, hguard]
  have htake : ∀ l : List String, (rnd.shuffle l).take 3 =
      (rnd.shuffle l).take (min 3 l.length) := by
    intro l
    rw [← (hshuffle l).length_eq]
    rcases Nat.le_total 3 (rnd.shuffle l).length with h | h
    · rw [Nat.min_eq_left h]
    · rw [Nat.min_eq_right h, List.take_length, List.take_of_length_le h]
  unfold selectTargets at hsel
  by_cases hlen : endpointMap.length = 0
  · simp [hlen] at hsel
  by_cases hguard : sourceUnavailable endpointMap rp = true
  · simp [hlen, hguard] at hsel
  simp only [hlen, hguard, if_false, Bool.false_eq_true] at hsel
  simp only [hquery, if_false, Bool.false_eq_true] at hsel
  by_cases hpaidmode : rp.isPaidMode = true
  · simp only [hpaidmode, if_true, Except.ok.injEq, Prod.mk.injEq] at hsel
    refine ⟨fun _ => ⟨hsel.1.symm, rnd.shuffle (endpointMap.getD "paid" []), hshuffle _, ?_⟩,
      fun h => absurd hpaidmode (by simp [h]), ?_⟩
    · rw [← hsel.2, htake]
    · rw [← hsel.2, List.length_take]
      omega
  · have hpm : rp.isPaidMode = false := by simpa using hpaidmode
    simp only [hpm, if_false, Bool.false_eq_true] at hsel
    have hpaidcases : ∀ (x : String) (xs : List String),
        endpointMap.get? "paid" = some (x :: xs) → endpointMap.getD "paid" [] = x :: xs :=
      fun x xs h => getD_of_get? _ _ _ _ h
    have hpaidnil : (∀ (x : String) (xs : List String),
        endpointMap.get? "paid" = some (x :: xs) → False) → endpointMap.getD "paid" [] = [] := by
      intro hno
      cases hg : endpointMap.get? "paid" with
      | none => simp [GoMap.getD, hg]
      | some arr =>
        cases arr with
        | nil => simp [GoMap.getD, hg]
        | cons y ys => exact absurd hg (hno y ys)
    refine ⟨fun h => absurd h hpaidmode, fun _ => ?_, ?_⟩
    · by_cases hmev : rp.isMevMode = true
      · simp only [hmev, Bool.not_true, Bool.false_eq_true, if_false, Except.ok.injEq,
          Prod.mk.injEq] at hsel
        refine ⟨hsel.1.symm, rnd.shuffle (endpointMap.getD "free" []), hshuffle _, ?_, ?_⟩
        · intro h
          rw [hmev] at h
          exact absurd h.2 (by decide)
        · intro _
          rw [← hsel.2, htake]
      · have hm : rp.isMevMode = false := by simpa using hmev
        simp only [hm, Bool.not_false, if_true] at hsel
        split at hsel
        · rename_i x xs hp
          simp only [Except.ok.injEq, Prod.mk.injEq] at hsel
          refine ⟨hsel.1.symm, rnd.shuffle (endpointMap.getD "free" []), hshuffle _, ?_, ?_⟩
          · intro _
            refine ⟨pickOne rnd (x :: xs), ?_, ?_⟩
            · rw [hpaidcases x xs hp]
              exact pickOne_mem rnd hintn x xs
            · rw [← hsel.2, htake]
          · intro h
            exfalso
            apply h
            rw [hpaidcases x xs hp]
            exact ⟨by simp, hm⟩
        · rename_i hno
          simp only [Except.ok.injEq, Prod.mk.injEq] at hsel
          refine ⟨hsel.1.symm, rnd.shuffle (endpointMap.getD "free" []), hshuffle _, ?_, ?_⟩
          · intro h
            exact absurd (hpaidnil (fun x xs hx => hno x xs hx)) h.1
          · intro _
            rw [← hsel.2, htake]
    · by_cases hmev : rp.isMevMode = true
      · simp only [hmev, Bool.not_true, Bool.false_eq_true, if_false, Except.ok.injEq,
          Prod.mk.injEq] at hsel
        rw [← hsel.2, List.length_take]
        omega
      · have hm : rp.isMevMode = false := by simpa using hmev
        simp only [hm, Bool.not_false, if_true] at hsel
        split at hsel
        · simp only [Except.ok.injEq, Prod.mk.injEq] at hsel
          rw [← hsel.2, List.length_append, List.length_take]
          simp only [List.length_singleton]
          omega
        · simp only [Except.ok.injEq, Prod.mk.injEq] at hsel
          rw [← hsel.2, List.length_take]
          omega

/-! ## Route rules (C8) -/

/-- C8. When the configuration query does not fail and both rule texts
unmarshal, `applyRouteRules` returns the request with its source replaced by the
source of the effective rule of its method (the rule of the secret key if it has
one for the method, the global rule otherwise), provided there is one and the
chain id of the request equals one of the comma-separated entries of its
`ChainIds`; in every other case it returns the request unchanged. -/
theorem applyRouteRules_resolves_source
    (unmarshal : String → Option (Option (GoMap methodRouteRule)))
    (config : ConfigResult) (skRouteRules : String) (rp : requestParams)
    (globalRules skRules : GoMap methodRouteRule)
    (hconfig : config ≠ .failed)
    (hglobal : decodedRules unmarshal config.valueOrEmpty = some globalRules)
    (hsk : decodedRules unmarshal skRouteRules = some skRules) :
    applyRouteRules unmarshal config skRouteRules rp =
      .ok (match effectiveRule globalRules skRules rp.rpcMethod with
        | some rule =>
          if (stringsSplitComma rule.ChainIds).any (fun ID => rp.chainId == ID) then
            { rp with source := rule.Source }
          else rp
        | none => rp) := by
  unfold decodedRules at hglobal hsk
  unfold effectiveRule
  unfold applyRouteRules
  cases config with
  | failed => exact absurd rfl hconfig
  | value v =>
    simp only [ConfigResult.valueOrEmpty] at hglobal ⊢
    by_cases hv : v = ""
    · simp only [hv, if_true, Option.some.injEq] at hglobal
      subst hglobal
      simp only [hv, ne_eq, not_true_eq_false, if_false]
      by_cases hs : skRouteRules = ""
      · simp only [hs, if_true, Option.some.injEq] at hsk
        subst hsk
        simp [hs, GoMap.get?, methodRouteRule.match, apply_ite Except.ok]
      · simp only [hs, if_false, Option.map_eq_some'] at hsk
        obtain ⟨m, hm, hmk⟩ := hsk
        subst hmk
        simp only [hs, ne_eq, not_false_eq_true, if_true, hm]
        cases hr : GoMap.get? (m.getD []) rp.rpcMethod with
        | none => simp [GoMap.get?]
        | some rule => simp [methodRouteRule.match, apply_ite Except.ok]
    · simp only [hv, if_false, Option.map_eq_some'] at hglobal
      obtain ⟨g, hg, hgk⟩ := hglobal
      subst hgk
      simp only [hv, ne_eq, not_false_eq_true, if_true, hg]
      by_cases hs : skRouteRules = ""
      · simp only [hs, if_true, Option.some.injEq] at hsk
        subst hsk
        simp only [hs, ne_eq, not_true_eq_false, if_false]
        cases hr : GoMap.get? (g.getD []) rp.rpcMethod with
        | none => simp [GoMap.get?]
        | some rule => simp [GoMap.get?, methodRouteRule.match, apply_ite Except.ok]
      · simp only [hs, if_false, Option.map_eq_some'] at hsk
        obtain ⟨m, hm, hmk⟩ := hsk
        subst hmk
        simp only [hs, ne_eq, not_false_eq_true, if_true, hm]
        cases g with
        | none =>
          simp only [Option.getD_none]
          cases hr : GoMap.get? (m.getD []) rp.rpcMethod with
          | none => simp [GoMap.get?]
          | some rule => simp [methodRouteRule.match, apply_ite Except.ok]
        | some gm =>
          simp only [Option.getD_some, GoMap.get?_mergeInto]
          cases hr : GoMap.get? (m.getD []) rp.rpcMethod with
          | none =>
            simp only
            cases hr2 : GoMap.get? gm rp.rpcMethod with
            | none => rfl
            | some rule => simp [methodRouteRule.match, apply_ite Except.ok]
          | some rule => simp [methodRouteRule.match, apply_ite Except.ok]
  | noRows =>
    simp only [ConfigResult.valueOrEmpty, if_true, Option.some.injEq] at hglobal
    subst hglobal
    simp only [ne_eq, not_true_eq_false, if_false]
    by_cases hs : skRouteRules = ""
    · simp only [hs, if_true, Option.some.injEq] at hsk
      subst hsk
      simp [hs, GoMap.get?, methodRouteRule.match, apply_ite Except.ok]
    · simp only [hs, if_false, Option.map_eq_some'] at hsk
      obtain ⟨m, hm, hmk⟩ := hsk
      subst hmk
      simp only [hs, ne_eq, not_false_eq_true, if_true, hm]
      cases hr : GoMap.get? (m.getD []) rp.rpcMethod with
      | none => simp [GoMap.get?]
      | some rule => simp [methodRouteRule.match, apply_ite Except.ok]

/-- C8 on a request for `eth_call` on chain 56 with a global rule to chainlist and
a key rule to paid: the key's rule replaces the global one. -/
theorem applyRouteRules_resolves_source_witness :
    applyRouteRules exampleRules (.value "global") "key"
        { exampleRequest "eth_call" "" with chainId := "56" } =
      .ok { exampleRequest "eth_call" "paid" with chainId := "56" } := by
  rw [applyRouteRules_resolves_source exampleRules (.value "global") "key"
    { exampleRequest "eth_call" "" with chainId := "56" }
    [("eth_call", { Source := "chainlist", ChainIds := "1,56" }),
      ("eth_getLogs", { Source := "custom/eth_getLogs", ChainIds := "1" })]
    [("eth_call", { Source := "paid", ChainIds := "56,97" })]
    (by decide) (by decide) (by decide)]
  decide

/-! ## The buckets of a chain (C7) -/

theorem mem_uniqueFrom (x : String) :
    ∀ (l seen : List String), x ∈ uniqueFrom l seen ↔ x ∈ l ∧ x ∉ seen := by
  intro l
  induction l with
  | nil => intro seen; simp [uniqueFrom]
  | cons a rest ih =>
    intro seen
    unfold uniqueFrom
    by_cases ha : seen.contains a = true
    · have ha2 : a ∈ seen := by simpa using ha
      simp only [ha, if_true, ih, List.mem_cons]
      constructor
      · rintro ⟨h1, h2⟩
        exact ⟨Or.inr h1, h2⟩
      · rintro ⟨h1 | h1, h2⟩
        · exact absurd (h1 ▸ ha2) h2
        · exact ⟨h1, h2⟩
    · have ha2 : a ∉ seen := by simpa using ha
      simp only [ha, if_false, Bool.false_eq_true, List.mem_cons, ih]
      constructor
      · rintro (h | ⟨h1, h2⟩)
        · exact ⟨Or.inl h, h ▸ ha2⟩
        · exact ⟨Or.inr h1, fun hs => h2 (Or.inr hs)⟩
      · rintro ⟨h1 | h1, h2⟩
        · exact Or.inl h1
        · by_cases hxa : x = a
          · exact Or.inl hxa
          · exact Or.inr ⟨h1, fun hs => hs.elim hxa h2⟩

theorem nodup_uniqueFrom : ∀ (l seen : List String), (uniqueFrom l seen).Nodup := by
  intro l
  induction l with
  | nil => intro seen; simp [uniqueFrom]
  | cons a rest ih =>
    intro seen
    unfold uniqueFrom
    by_cases ha : seen.contains a = true
    · simp only [ha, if_true]
      exact ih seen
    · simp only [ha, if_false, Bool.false_eq_true, List.nodup_cons]
      refine ⟨?_, ih _⟩
      intro hmem
      exact ((mem_uniqueFrom a rest (a :: seen)).mp hmem).2 (List.mem_cons_self _ _)

theorem mem_unique (x : String) (l : List String) : x ∈ StringStream.Unique l ↔ x ∈ l := by
  simp [StringStream.Unique, mem_uniqueFrom]

theorem mem_getUrlsWithUnique (x : String) (rpc : String) (h : rpc ≠ "") :
    x ∈ Rpc.GetUrlsWithUnique rpc ↔ x ∈ Rpc.GetUrls rpc := by
  simp [Rpc.GetUrlsWithUnique, h, mem_unique]

theorem nodup_getUrlsWithUnique (rpc : String) : (Rpc.GetUrlsWithUnique rpc).Nodup := by
  unfold Rpc.GetUrlsWithUnique
  split
  · exact List.nodup_nil
  · exact nodup_uniqueFrom _ _

theorem GoMap.set_fresh {β : Type} (m : GoMap β) (k : String) (v : β)
    (h : ∀ p ∈ m, p.1 ≠ k) : GoMap.set m k v = (k, v) :: m := by
  unfold GoMap.set
  congr 1
  apply List.filter_eq_self.mpr
  intro p hp
  simpa using h p hp

/-- With pairwise distinct sources, the map of the rows by source holds every
row, the last row first. -/
theorem toSourceMap_of_nodup :
    ∀ (upstreams : List ReadyUpstream) (acc : GoMap ReadyUpstream),
      (∀ t ∈ upstreams, ∀ p ∈ acc, p.1 ≠ t.Source) →
      (upstreams.map (fun t => t.Source)).Nodup →
      upstreams.foldl (fun m t => m.set t.Source t) acc =
        (upstreams.map (fun t => (t.Source, t))).reverse ++ acc := by
  intro upstreams
  induction upstreams with
  | nil => intro acc _ _; rfl
  | cons t rest ih =>
    intro acc hfresh hnodup
    simp only [List.map_cons, List.nodup_cons] at hnodup
    simp only [List.foldl_cons]
    rw [GoMap.set_fresh acc t.Source t (hfresh t (List.mem_cons_self _ _))]
    rw [ih _ ?_ hnodup.2]
    · simp
    · intro t2 ht2 p hp
      rcases List.mem_cons.mp hp with hp | hp
      · rw [hp]
        intro heq
        apply hnodup.1
        simp only [List.mem_map]
        exact ⟨t2, ht2, heq.symm⟩
      · exact hfresh t2 (List.mem_cons_of_mem _ ht2) p hp

theorem lookup_eq_some_iff {β : Type} (k : String) (v : β) :
    ∀ (l : List (String × β)), (l.map Prod.fst).Nodup →
      (List.lookup k l = some v ↔ (k, v) ∈ l) := by
  intro l
  induction l with
  | nil => intro _; simp
  | cons p rest ih =>
    intro hnodup
    obtain ⟨a, b⟩ := p
    simp only [List.map_cons, List.nodup_cons] at hnodup
    by_cases hka : k = a
    · subst hka
      simp only [List.lookup, beq_self_eq_true, Option.some.injEq, List.mem_cons, Prod.mk.injEq,
        true_and]
      constructor
      · intro h; exact Or.inl h.symm
      · rintro (h | h)
        · exact h.symm
        · exact absurd (List.mem_map.mpr ⟨(k, v), h, rfl⟩) hnodup.1
    · have hne : (k == a) = false := by simpa using hka
      simp only [List.lookup, hne, List.mem_cons, Prod.mk.injEq, ih hnodup.2]
      constructor
      · intro h; exact Or.inr h
      · rintro (h | h)
        · exact absurd h.1 hka
        · exact h

theorem toSourceMap_get? (upstreams : List ReadyUpstream)
    (hnodup : (upstreams.map (fun t => t.Source)).Nodup) (source : String) (row : ReadyUpstream) :
    (toSourceMap upstreams).get? source = some row ↔ row ∈ upstreams ∧ row.Source = source := by
  unfold toSourceMap GoMap.get?
  rw [toSourceMap_of_nodup upstreams [] (by simp) hnodup, List.append_nil]
  rw [lookup_eq_some_iff]
  · simp only [List.mem_reverse, List.mem_map, Prod.mk.injEq]
    constructor
    · rintro ⟨t, ht, h1, h2⟩
      subst h2
      exact ⟨ht, h1⟩
    · rintro ⟨h1, h2⟩
      exact ⟨row, h1, h2, rfl⟩
  · rw [List.map_reverse, List.map_map]
    exact List.nodup_reverse.mpr hnodup

theorem mem_toSourceMap (upstreams : List ReadyUpstream)
    (hnodup : (upstreams.map (fun t => t.Source)).Nodup) (kv : String × ReadyUpstream) :
    kv ∈ toSourceMap upstreams ↔ kv.2 ∈ upstreams ∧ kv.1 = kv.2.Source := by
  unfold toSourceMap
  rw [toSourceMap_of_nodup upstreams [] (by simp) hnodup, List.append_nil]
  simp only [List.mem_reverse, List.mem_map]
  constructor
  · rintro ⟨t, ht, h⟩
    rw [← h]
    exact ⟨ht, rfl⟩
  · rintro ⟨h1, h2⟩
    exact ⟨kv.2, h1, by rw [← h2]⟩

theorem mem_freeLoop (x : String) :
    ∀ (m : GoMap ReadyUpstream) (free : List String),
      x ∈ m.foldl (fun free kv =>
        if stringsContains kv.2.Source "paid" then free
        else if kv.2.Rpc ≠ "" then free ++ Rpc.GetUrls kv.2.Rpc
        else free) free ↔
      x ∈ free ∨ ∃ kv ∈ m, stringsContains kv.2.Source "paid" = false ∧ kv.2.Rpc ≠ "" ∧
        x ∈ Rpc.GetUrls kv.2.Rpc := by
  intro m
  induction m with
  | nil => intro free; simp
  | cons kv rest ih =>
    intro free
    simp only [List.foldl_cons, ih, List.mem_cons, exists_eq_or_imp]
    by_cases hp : stringsContains kv.2.Source "paid" = true
    · simp [hp]
    · have hp2 : stringsContains kv.2.Source "paid" = false := by simpa using hp
      by_cases hr : kv.2.Rpc = ""
      · simp [hp2, hr]
      · simp only [hp2, Bool.false_eq_true, if_false, ne_eq, hr, not_false_eq_true, if_true,
          List.mem_append, true_and]
        tauto

/-- C7 (amended). For rows of pairwise distinct sources, `getChainEndpoins` fills
two buckets without duplicates: the paid bucket holds exactly the URLs of the
row whose source is "paid"; with no requested source the free bucket holds
exactly the URLs of the rows whose source does not contain "paid"; with a
requested source other than "paid" the free bucket holds exactly the URLs of
the row of that source; with the requested source "paid" the free bucket is
empty. -/
theorem getChainEndpoins_buckets (upstreams : List ReadyUpstream) (rp : requestParams)
    (hrows : upstreams ≠ [])
    (hnodup : (upstreams.map (fun t => t.Source)).Nodup) :
    (∀ x, x ∈ (getChainEndpoins upstreams rp).getD "paid" [] ↔
      ∃ row ∈ upstreams, row.Source = "paid" ∧ row.Rpc ≠ "" ∧ x ∈ Rpc.GetUrls row.Rpc) ∧
    (rp.source = "" → ∀ x, x ∈ (getChainEndpoins upstreams rp).getD "free" [] ↔
      ∃ row ∈ upstreams, stringsContains row.Source "paid" = false ∧ row.Rpc ≠ "" ∧
        x ∈ Rpc.GetUrls row.Rpc) ∧
    (rp.source ≠ "" → rp.source ≠ "paid" →
      ∀ x, x ∈ (getChainEndpoins upstreams rp).getD "free" [] ↔
        ∃ row ∈ upstreams, row.Source = rp.source ∧ row.Rpc ≠ "" ∧ x ∈ Rpc.GetUrls row.Rpc) ∧
    (rp.source = "paid" → (getChainEndpoins upstreams rp).getD "free" [] = []) ∧
    ((getChainEndpoins upstreams rp).getD "free" []).Nodup ∧
    ((getChainEndpoins upstreams rp).getD "paid" []).Nodup := by
  have hlen : ¬ (upstreams.length = 0) := fun h => hrows (List.length_eq_zero.mp h)
  have hrow : ∀ (source : String) (x : String),
      x ∈ (match (toSourceMap upstreams).get? source with
        | some upstream => if upstream.Rpc ≠ "" then Rpc.GetUrlsWithUnique upstream.Rpc else []
        | none => []) ↔
      ∃ row ∈ upstreams, row.Source = source ∧ row.Rpc ≠ "" ∧ x ∈ Rpc.GetUrls row.Rpc := by
    intro source x
    cases hg : (toSourceMap upstreams).get? source with
    | none =>
      simp only [List.not_mem_nil, false_iff]
      rintro ⟨row, hmem, hsrc, _, _⟩
      have := (toSourceMap_get? upstreams hnodup source row).mpr ⟨hmem, hsrc⟩
      rw [hg] at this
      exact absurd this (by simp)
    | some upstream =>
      obtain ⟨hmem, hsrc⟩ := (toSourceMap_get? upstreams hnodup source upstream).mp hg
      simp only
      by_cases hr : upstream.Rpc = ""
      · simp only [hr, ne_eq, not_true_eq_false, if_false, List.not_mem_nil, false_iff]
        rintro ⟨row, hmem2, hsrc2, hr2, _⟩
        have h2 := (toSourceMap_get? upstreams hnodup source row).mpr ⟨hmem2, hsrc2⟩
        rw [hg] at h2
        simp only [Option.some.injEq] at h2
        rw [← h2] at hr2
        exact hr2 hr
      · simp only [ne_eq, hr, not_false_eq_true, if_true, mem_getUrlsWithUnique x _ hr]
        constructor
        · intro hx
          exact ⟨upstream, hmem, hsrc, hr, hx⟩
        · rintro ⟨row, hmem2, hsrc2, _, hx⟩
          have h2 := (toSourceMap_get? upstreams hnodup source row).mpr ⟨hmem2, hsrc2⟩
          rw [hg] at h2
          simp only [Option.some.injEq] at h2
          rw [h2]
          exact hx
  have hrowNodup : ∀ (source : String),
      (match (toSourceMap upstreams).get? source with
        | some upstream => if upstream.Rpc ≠ "" then Rpc.GetUrlsWithUnique upstream.Rpc else []
        | none => []).Nodup := by
    intro source
    cases (toSourceMap upstreams).get? source with
    | none => exact List.nodup_nil
    | some upstream =>
      simp only
      split
      · exact nodup_getUrlsWithUnique _
      · exact List.nodup_nil
  have hpaid : (getChainEndpoins upstreams rp).getD "paid" [] =
      (match (toSourceMap upstreams).get? "paid" with
        | some upstream => if upstream.Rpc ≠ "" then Rpc.GetUrlsWithUnique upstream.Rpc else []
        | none => []) := by
    simp [getChainEndpoins, hlen, GoMap.getD, GoMap.get?, List.lookup]
  have hfree : (getChainEndpoins upstreams rp).getD "free" [] =
      (if rp.source = "" then freeOfAll (toSourceMap upstreams)
       else if rp.source ≠ "paid" then
        (match (toSourceMap upstreams).get? rp.source with
          | some upstream => if upstream.Rpc ≠ "" then Rpc.GetUrlsWithUnique upstream.Rpc else []
          | none => [])
       else []) := by
    simp [getChainEndpoins, hlen, GoMap.getD, GoMap.get?, List.lookup]
  refine ⟨?_, ?_, ?_, ?_, ?_, ?_⟩
  · intro x
    rw [hpaid]
    exact hrow "paid" x
  · intro hs x
    rw [hfree, if_pos hs]
    unfold freeOfAll
    rw [mem_unique, mem_freeLoop]
    simp only [List.not_mem_nil, false_or]
    constructor
    · rintro ⟨kv, hkv, h1, h2, h3⟩
      exact ⟨kv.2, ((mem_toSourceMap upstreams hnodup kv).mp hkv).1, h1, h2, h3⟩
    · rintro ⟨row, hmem, h1, h2, h3⟩
      exact ⟨(row.Source, row), (mem_toSourceMap upstreams hnodup _).mpr ⟨hmem, rfl⟩, h1, h2, h3⟩
  · intro hs hp x
    rw [hfree, if_neg hs, if_pos hp]
    exact hrow rp.source x
  · intro hs
    rw [hfree]
    simp [hs]
  · rw [hfree]
    split
    · exact nodup_uniqueFrom _ _
    · split
      · exact hrowNodup rp.source
      · exact List.nodup_nil
  · rw [hpaid]
    exact hrowNodup "paid"

/-- C7, as stated, fails on a row whose source contains "paid" without being
"paid": the URL of a `paid2` row is in neither bucket. -/
theorem getChainEndpoins_drops_paid2 :
    stringsContains "paid2" "paid" = true ∧
    "https://rpc.paid2.example" ∈ Rpc.GetUrls "https://rpc.paid2.example" ∧
    getChainEndpoins [{ Source := "paid2", Rpc := "https://rpc.paid2.example" }]
      (exampleRequest "eth_call" "") = [("free", []), ("paid", [])] := by
  decide

/-- C7 (amended) on three rows: the buckets of a chain with a `chainlist` row, a
`paid` row and a `paid2` row, no source requested. -/
theorem getChainEndpoins_buckets_witness :
    getChainEndpoins
        [{ Source := "chainlist", Rpc := "https://a,https://b,https://a" },
         { Source := "paid", Rpc := "https://p" },
         { Source := "paid2", Rpc := "https://q" }]
        (exampleRequest "eth_call" "") =
      [("free", ["https://a", "https://b"]), ("paid", ["https://p"])] ∧
    (∀ x, x ∈ GoMap.getD (getChainEndpoins
        [{ Source := "chainlist", Rpc := "https://a,https://b,https://a" },
         { Source := "paid", Rpc := "https://p" },
         { Source := "paid2", Rpc := "https://q" }]
        (exampleRequest "eth_call" "")) "paid" [] ↔
      ∃ row ∈ [({ Source := "chainlist", Rpc := "https://a,https://b,https://a" } : ReadyUpstream),
         { Source := "paid", Rpc := "https://p" },
         { Source := "paid2", Rpc := "https://q" }],
        row.Source = "paid" ∧ row.Rpc ≠ "" ∧ x ∈ Rpc.GetUrls row.Rpc) :=
  ⟨by decide,
   (getChainEndpoins_buckets
      [{ Source := "chainlist", Rpc := "https://a,https://b,https://a" },
       { Source := "paid", Rpc := "https://p" },
       { Source := "paid2", Rpc := "https://q" }]
      (exampleRequest "eth_call" "") (by decide) (by decide)).1⟩

/-! ## Examples -/

theorem verdictMap_get? (f : String → Bool) (u : String) :
    ∀ (us : List String), (verdictMap f us).get? u = if u ∈ us then some (f u) else none := by
  intro us
  induction us with
  | nil => rfl
  | cons v vs ih =>
    simp only [verdictMap, GoMap.get?_set, ih, List.mem_cons]
    by_cases h : u = v
    · simp [h]
    · simp [h]

theorem listedChecker_spec : ∀ (s : Unit) (chain : String) (us : List String)
    (c : HealthCheckCondition), ∃ m, (listedChecker s chain us c).1 = .ok m ∧
      ∀ u, m.get? u = if u ∈ us then some (c.ignore u) else none :=
  fun _ _ us c => ⟨_, rfl, fun u => verdictMap_get? (fun u => c.ignore u) u us⟩

/-- C1 on three URLs and two conditions: only the URL both conditions accept is
published. -/
theorem conditionList_check_is_conjunction_witness :
    ∃ ret, (HealthCheckConditionList.Check [listing ["a", "b"], listing ["b", "c"]]
        listedChecker "1" ["a", "b", "c"] ()).1 = .ok ret ∧
      (∀ u ∈ ["a", "b", "c"], ret.get? u =
        some (shortCircuitAnd (fun c u => c.ignore u) u [listing ["a", "b"], listing ["b", "c"]])) ∧
      publishedUrls ["a", "b", "c"] ret = ["b"] := by
  obtain ⟨ret, h1, h2, _, h4⟩ := conditionList_check_is_conjunction listedChecker
    (fun c u => c.ignore u) listedChecker_spec [listing ["a", "b"], listing ["b", "c"]]
    (by decide) "1" ["a", "b", "c"] ()
  exact ⟨ret, h1, h2, by rw [h4]; decide⟩

/-- C2 fails on the code: a URL that returns the height 0 is marked valid
whatever the lag. With `http://c` at height 100 and `http://z` at height 0,
tolerance 2 under `<`, the lag of `http://z` is 100, which is not below 2, and
the check marks it valid. -/
theorem blockHeight_zero_height_marked_valid :
    heightValid "<" 100 0 2 = false ∧
    (blockHeightChecker.Check
        (blockHeightChecker.getHeight
          (tableEnv [("http://c", some { error := false, result := "0x64" }),
            ("http://z", some { error := false, result := "0x0" })])
          60000000000 exampleClock)
        [] "1" ["http://c", "http://z"] heightCondition []).1 =
      .ok [("http://c", true), ("http://z", true)] := by
  decide

/-- C6 on four free URLs and one paid URL, no source: three free URLs and the
paid one. -/
theorem query_selection_witness :
    selectTargets exampleRand
        [("free", ["https://u1", "https://u2", "https://u3", "https://u4"]),
          ("paid", ["https://p1"])]
        (exampleRequest "eth_call" "") =
      .ok ("free_query", ["https://u4", "https://u3", "https://u2", "https://p1"]) ∧
    ["https://u4", "https://u3", "https://u2", "https://p1"].length ≤ 4 :=
  ⟨by decide,
   ((query_selection exampleRand (fun n hn => Nat.sub_lt hn Nat.one_pos)
      (fun l => List.reverse_perm l)
      [("free", ["https://u1", "https://u2", "https://u3", "https://u4"]),
        ("paid", ["https://p1"])]
      (exampleRequest "eth_call" "") (by decide)).1 "free_query"
      ["https://u4", "https://u3", "https://u2", "https://p1"] (by decide)).2.2⟩

/-- C9 on the scenario of the specification: `http://a` is ignored and not
served, `http://b` fails; `http://a` is valid and is not probed by any of the
three checkers, and the Manual checker applies its matcher to it. -/
theorem ignored_url_is_valid_without_probe_witness :
    (valueMatchChecker.Check probeEnv 60000000000 exampleClock ["http://a", "http://b"]
        probeCondition []).1 = .ok [("http://b", false), ("http://a", true)] ∧
    "http://a" ∉ (valueMatchChecker.Check probeEnv 60000000000 exampleClock
        ["http://a", "http://b"] probeCondition []).2.2 ∧
    "http://a" ∉ (blockHeightChecker.Check
        (blockHeightChecker.getHeight probeEnv 60000000000 exampleClock) [] "1"
        ["http://a", "http://b"] probeCondition []).2.2.2 ∧
    "http://a" ∉ (simpleChecker.Check probeEnv 60000000000 exampleClock
        ["http://a", "http://b"] probeCondition []).2.2 ∧
    manualChecker.Check literalRegexp ["http://a", "http://b"] probeCondition =
      .ok [("http://b", false), ("http://a", false)] := by
  have h := ignored_url_is_valid_without_probe probeEnv 60000000000 exampleClock
    (blockHeightChecker.getHeight probeEnv 60000000000 exampleClock) [] "1" literalRegexp
    ["http://a", "http://b"] probeCondition [] "http://a" (by decide) (by decide)
  exact ⟨by decide, h.1.1, h.2.1.1, h.2.2.1.1, by decide⟩

/-- C10 on a list of a healthy endpoint and one whose call fails: the failing
URL reads false and the healthy one keeps the verdict it has alone, for the
three checkers. -/
theorem failing_probe_is_false_and_local_witness :
    (∃ ret, (valueMatchChecker.Check probeEnv 60000000000 exampleClock
        ["http://c", "http://b"] probeCondition []).1 = .ok ret ∧
      ("http://b" ∈ ["http://c", "http://b"] → ret.get? "http://b" = some false) ∧
      ∀ v, v ≠ "http://b" → ret.get? v = GoMap.get? [("http://c", true)] v) ∧
    (∃ ret, (blockHeightChecker.Check
        (blockHeightChecker.getHeight probeEnv 60000000000 exampleClock) [] "1"
        ["http://c", "http://b"] probeCondition []).1 = .ok ret ∧
      ("http://b" ∈ ["http://c", "http://b"] → ret.get? "http://b" = some false) ∧
      ∀ v, v ≠ "http://b" → ret.get? v = GoMap.get? [("http://c", true)] v) ∧
    (∃ ret, (simpleChecker.Check probeEnv 60000000000 exampleClock
        ["http://c", "http://b"] probeCondition []).1 = .ok ret ∧
      ("http://b" ∈ ["http://c", "http://b"] → ret.get? "http://b" = some false) ∧
      ∀ v, v ≠ "http://b" → ret.get? v = GoMap.get? [("http://c", true)] v) := by
  have h := failing_probe_is_false_and_local probeEnv 60000000000 exampleClock [] "1"
    probeCondition [] "http://b" ["http://c", "http://b"] (by decide) (by decide)
  exact ⟨h.1 [("http://c", true)] (by decide),
    h.2.1 (by decide) [("http://c", true)] (by decide),
    h.2.2 [("http://c", true)] (by decide)⟩

/-- C10 fails as stated for BlockHeight when the tolerance does not parse: on
the one URL `http://b`, whose call fails, `Check` returns the error of the
tolerance, while on the list without that URL it returns the empty result. The
condition is one `ValidCondition` accepts. -/
theorem failing_probe_with_bad_tolerance_fails_check :
    probeFails probeEnv exampleClock "http://b" badToleranceCondition [] = true ∧
    badToleranceCondition.ignore "http://b" = false ∧
    (blockHeightChecker.ValidCondition badToleranceCondition).1 = none ∧
    (blockHeightChecker.Check (blockHeightChecker.getHeight probeEnv 60000000000 exampleClock)
        [] "1" ["http://b"] badToleranceCondition []).1 = .error .parseHeight ∧
    (blockHeightChecker.Check (blockHeightChecker.getHeight probeEnv 60000000000 exampleClock)
        [] "1" (["http://b"].filter (fun v => v != "http://b")) badToleranceCondition []).1 =
      .ok [] := by
  refine ⟨by decide, by decide, by decide, by decide, by decide⟩

/-! ## The manual checker (C11) -/

theorem collectVerdicts_ok_of_all :
    ∀ (rs : List (String × Except CheckErr Bool)) (ret : GoMap Bool),
      (∀ r ∈ rs, ∃ b, r.2 = .ok b) → ∃ ret1, collectVerdicts rs ret = .ok ret1 := by
  intro rs
  induction rs with
  | nil => intro ret _; exact ⟨ret, rfl⟩
  | cons p rest ih =>
    intro ret h
    obtain ⟨url, res⟩ := p
    obtain ⟨b, hb⟩ := h (url, res) (List.mem_cons_self _ _)
    simp only at hb
    subst hb
    simp only [collectVerdicts]
    exact ih _ (fun r hr => h r (List.mem_cons_of_mem _ hr))

/-- The verdict of one matcher of the manual checker on a URL. -/
theorem manualChecker_matchAll_spec (compile : String → Option (String → Bool)) (url : String) :
    ∀ (ms : List Matcher) (b0 : Bool),
      (∀ m ∈ ms, (compile m.Value).isSome) →
      manualChecker.matchAll compile url ms b0 =
        .ok (match ms with
          | [] => b0
          | _ :: _ => ms.all (fun m => match compile m.Value with
              | some re => if m.MatchType == "!=" then !(re url) else re url
              | none => false)) := by
  intro ms
  induction ms with
  | nil => intro b0 _; rfl
  | cons m rest ih =>
    intro b0 h
    have hm := h m (List.mem_cons_self _ _)
    obtain ⟨re, hre⟩ := Option.isSome_iff_exists.mp hm
    have ih1 := ih (if m.MatchType == "!=" then !(re url) else re url)
      (fun x hx => h x (List.mem_cons_of_mem _ hx))
    simp only [manualChecker.matchAll, hre, List.all_cons]
    by_cases hc : (if m.MatchType == "!=" then !(re url) else re url) = true
    · rw [hc] at ih1 ⊢
      simp only [Bool.not_true, Bool.false_eq_true, if_false, Bool.true_and]
      rw [ih1]
      cases rest <;> simp
    · simp only [Bool.not_eq_true] at hc
      rw [hc]
      simp

/-- C11. For a condition with a non-empty list of matchers of type "=" or "!="
whose values compile, `manualChecker.Check` returns a result that holds a
verdict for every URL, and the verdict is true iff every matcher passes on the
URL: a "=" matcher passes iff its regular expression matches the URL, a "!="
matcher iff it does not. -/
theorem manualChecker_check_all_matchers (compile : String → Option (String → Bool))
    (urls : List String) (condition : HealthCheckCondition)
    (hne : condition.Matchers ≠ [])
    (htype : ∀ m ∈ condition.Matchers, m.MatchType = "=" ∨ m.MatchType = "!=")
    (hcomp : ∀ m ∈ condition.Matchers, (compile m.Value).isSome) :
    ∃ ret, manualChecker.Check compile urls condition = .ok ret ∧
      ∀ u ∈ urls, (∃ b, ret.get? u = some b) ∧
        (ret.get? u = some true ↔
          ∀ m ∈ condition.Matchers, ∃ re, compile m.Value = some re ∧
            ((m.MatchType = "=" ∧ re u = true) ∨ (m.MatchType = "!=" ∧ re u = false))) := by
  have hall : ∀ r ∈ urls.map (fun url =>
      (url, manualChecker.matchAll compile url condition.Matchers false)),
      ∃ b, r.2 = .ok b := by
    intro r hr
    obtain ⟨url, _, rfl⟩ := List.mem_map.mp hr
    exact ⟨_, manualChecker_matchAll_spec compile url condition.Matchers false hcomp⟩
  obtain ⟨ret, hret⟩ := collectVerdicts_ok_of_all _ [] hall
  refine ⟨ret, hret, ?_⟩
  intro u hu
  have hget := collectVerdicts_get? u
    (condition.Matchers.all (fun m => match compile m.Value with
      | some re => if m.MatchType == "!=" then !(re u) else re u
      | none => false)) _ [] ret hret
    (by
      intro r hr hru
      obtain ⟨url, _, rfl⟩ := List.mem_map.mp hr
      simp only at hru
      subst hru
      simp only
      rw [manualChecker_matchAll_spec compile url condition.Matchers false hcomp]
      cases hms : condition.Matchers with
      | nil => exact absurd hms hne
      | cons _ _ => rfl)
    (Or.inl (by
      simp only [List.map_map]
      exact List.mem_map.mpr ⟨u, hu, rfl⟩))
  refine ⟨⟨_, hget⟩, ?_⟩
  rw [hget]
  simp only [Option.some.injEq, List.all_eq_true]
  constructor
  · intro h m hm
    have h1 := h m hm
    obtain ⟨re, hre⟩ := Option.isSome_iff_exists.mp (hcomp m hm)
    refine ⟨re, hre, ?_⟩
    rw [hre] at h1
    rcases htype m hm with ht | ht
    · left
      refine ⟨ht, ?_⟩
      rw [ht] at h1
      simpa using h1
    · right
      refine ⟨ht, ?_⟩
      rw [ht] at h1
      simpa using h1
  · intro h m hm
    obtain ⟨re, hre, hcase⟩ := h m hm
    rw [hre]
    rcases hcase with ⟨ht, hr⟩ | ⟨ht, hr⟩
    · rw [ht]
      have h2 : ("=" == "!=") = false := by decide
      simp only [h2, Bool.false_eq_true, if_false]
      exact hr
    · rw [ht]
      have h2 : ("!=" == "!=") = true := by decide
      simp only [h2, if_true, hr, Bool.not_false]

theorem manualChecker_check_all_matchers_witness :
    manualCondition.Matchers ≠ [] ∧
    (∀ m ∈ manualCondition.Matchers, m.MatchType = "=" ∨ m.MatchType = "!=") ∧
    (∀ m ∈ manualCondition.Matchers, (miniRegexp m.Value).isSome) ∧
    manualChecker.Check miniRegexp manualUrls manualCondition =
      .ok [("https://bsc-testnet.publicnode.com", false),
           ("https://data-seed-prebsc-2-s1.bnbchain.org:8545", true),
           ("https://data-seed-prebsc-1-s1.bnbchain.org:8545", true)] ∧
    ∃ ret, manualChecker.Check miniRegexp manualUrls manualCondition = .ok ret ∧
      ∀ u ∈ manualUrls, (∃ b, ret.get? u = some b) ∧
        (ret.get? u = some true ↔
          ∀ m ∈ manualCondition.Matchers, ∃ re, miniRegexp m.Value = some re ∧
            ((m.MatchType = "=" ∧ re u = true) ∨ (m.MatchType = "!=" ∧ re u = false))) :=
  ⟨by decide, by decide, by decide, by decide,
    manualChecker_check_all_matchers miniRegexp manualUrls manualCondition
      (by decide) (by decide) (by decide)⟩

/-! ## The working list of the condition chain (C12) -/

theorem recording_loop_log {σ ε : Type}
    (checker : σ → String → List String → HealthCheckCondition → Except ε (GoMap Bool) × σ)
    (chainId : String) :
    ∀ (cl : List HealthCheckCondition) (ret : GoMap Bool) (urls : List String) (s : σ)
      (log0 : CheckLog ε),
      ∃ ext, (HealthCheckConditionList.loop (recordingChecker checker) chainId cl ret urls
          (s, log0)).2.2 = log0 ++ ext ∧ chainFrom ret urls ext ∧ ext.length ≤ cl.length := by
  intro cl
  induction cl with
  | nil =>
    intro ret urls s log0
    exact ⟨[], by simp [HealthCheckConditionList.loop], trivial, le_refl _⟩
  | cons c rest ih =>
    intro ret urls s log0
    simp only [HealthCheckConditionList.loop, recordingChecker]
    cases hres : (checker s chainId (urls.filter (keepUrl ret)) c).1 with
    | error e =>
      refine ⟨[(urls.filter (keepUrl ret), .error e)], rfl, ?_, by simp⟩
      exact ⟨rfl, rfl⟩
    | ok curRet =>
      obtain ⟨ext, h1, h2, h3⟩ := ih (GoMap.mergeInto ret curRet) (urls.filter (keepUrl ret))
        (checker s chainId (urls.filter (keepUrl ret)) c).2
        (log0 ++ [(urls.filter (keepUrl ret), .ok curRet)])
      refine ⟨(urls.filter (keepUrl ret), .ok curRet) :: ext, ?_, ⟨rfl, h2⟩, ?_⟩
      · simp only at h1 ⊢
        rw [h1]
        simp
      · simp only [List.length_cons]
        omega

theorem keepUrl_nil (u : String) : keepUrl [] u = true := by
  simp [keepUrl, GoMap.get?]

theorem chainFrom_adjacent {ε : Type} :
    ∀ (pre : CheckLog ε) (ret : GoMap Bool) (urls : List String)
      (w1 w2 : List String) (r1 r2 : Except ε (GoMap Bool)) (post : CheckLog ε),
      chainFrom ret urls (pre ++ (w1, r1) :: (w2, r2) :: post) →
      w2 = w1.filter (keepUrl (recordedResults ret (pre ++ [(w1, r1)]))) := by
  intro pre
  induction pre with
  | nil =>
    intro ret urls w1 w2 r1 r2 post h
    simp only [List.nil_append, chainFrom] at h
    obtain ⟨_, h2⟩ := h
    cases r1 with
    | error e => simp at h2
    | ok cur =>
      simp only [chainFrom] at h2
      simp only [recordedResults, List.nil_append, List.foldl_cons, List.foldl_nil]
      exact h2.1
  | cons e pre ih =>
    intro ret urls w1 w2 r1 r2 post h
    obtain ⟨w, r⟩ := e
    simp only [List.cons_append, chainFrom] at h
    obtain ⟨_, h2⟩ := h
    cases r with
    | error e => simp at h2
    | ok cur =>
      simp only at h2
      have := ih _ _ w1 w2 r1 r2 post h2
      simpa [recordedResults] using this

theorem chainFrom_sublist {ε : Type} :
    ∀ (mid : CheckLog ε) (ret : GoMap Bool) (urls : List String)
      (w2 : List String) (r2 : Except ε (GoMap Bool)) (post : CheckLog ε),
      chainFrom ret urls (mid ++ (w2, r2) :: post) →
      List.Sublist w2 (urls.filter (keepUrl ret)) := by
  intro mid
  induction mid with
  | nil =>
    intro ret urls w2 r2 post h
    simp only [List.nil_append, chainFrom] at h
    rw [h.1]
  | cons e mid ih =>
    intro ret urls w2 r2 post h
    obtain ⟨w, r⟩ := e
    simp only [List.cons_append, chainFrom] at h
    obtain ⟨h1, h2⟩ := h
    cases r with
    | error e => simp at h2
    | ok cur =>
      simp only at h2
      have := ih _ _ w2 r2 post h2
      rw [← h1]
      exact this.trans (List.filter_sublist _)

theorem chainFrom_excludes {ε : Type} (u : String) :
    ∀ (pre : CheckLog ε) (ret : GoMap Bool) (urls : List String)
      (w1 w2 : List String) (m : GoMap Bool) (r2 : Except ε (GoMap Bool))
      (mid post : CheckLog ε),
      chainFrom ret urls (pre ++ (w1, .ok m) :: (mid ++ (w2, r2) :: post)) →
      m.get? u = some false → u ∉ w2 := by
  intro pre
  induction pre with
  | nil =>
    intro ret urls w1 w2 m r2 mid post h hm hu
    simp only [List.nil_append, chainFrom] at h
    have hsub := chainFrom_sublist mid _ _ w2 r2 post h.2
    have hmem := hsub.subset hu
    have hkeep := (List.mem_filter.mp hmem).2
    have hget : (GoMap.mergeInto ret m).get? u = some false := by
      rw [GoMap.get?_mergeInto, hm]
    simp [keepUrl, hget] at hkeep
  | cons e pre ih =>
    intro ret urls w1 w2 m r2 mid post h hm
    obtain ⟨w, r⟩ := e
    simp only [List.cons_append, chainFrom] at h
    obtain ⟨_, h2⟩ := h
    cases r with
    | error e => simp at h2
    | ok cur =>
      simp only at h2
      exact ih _ _ w1 w2 m r2 mid post h2 hm

/-- C12. In `HealthCheckConditionList.Check` with any checker, recorded call by
call: the first call is handed the full URL list; each later call is handed the
list of the call before it without the URLs whose recorded result is false, a
sub-list in the original order; and a URL that one call marked false is in the
list of no later call. -/
theorem working_list_narrows {σ ε : Type}
    (checker : σ → String → List String → HealthCheckCondition → Except ε (GoMap Bool) × σ)
    (cl : List HealthCheckCondition) (chainId : String) (urls : List String) (s : σ) :
    (∀ w r rest,
      (HealthCheckConditionList.Check cl (recordingChecker checker) chainId urls
        ((s, []) : σ × CheckLog ε)).2.2 = (w, r) :: rest → w = urls) ∧
    (∀ pre w1 r1 w2 r2 post,
      (HealthCheckConditionList.Check cl (recordingChecker checker) chainId urls
        ((s, []) : σ × CheckLog ε)).2.2 = pre ++ (w1, r1) :: (w2, r2) :: post →
      w2 = w1.filter (keepUrl (recordedResults [] (pre ++ [(w1, r1)]))) ∧
        List.Sublist w2 w1) ∧
    (∀ pre w1 m mid w2 r2 post u,
      (HealthCheckConditionList.Check cl (recordingChecker checker) chainId urls
        ((s, []) : σ × CheckLog ε)).2.2 = pre ++ (w1, .ok m) :: (mid ++ (w2, r2) :: post) →
      m.get? u = some false → u ∉ w2) := by
  obtain ⟨ext, h1, h2, _⟩ := recording_loop_log checker chainId cl [] urls s []
  simp only [List.nil_append] at h1
  unfold HealthCheckConditionList.Check
  rw [h1]
  refine ⟨?_, ?_, ?_⟩
  · intro w r rest hlog
    rw [hlog] at h2
    simp only [chainFrom] at h2
    rw [h2.1]
    exact List.filter_eq_self.mpr (fun a _ => keepUrl_nil a)
  · intro pre w1 r1 w2 r2 post hlog
    rw [hlog] at h2
    have := chainFrom_adjacent pre [] urls w1 w2 r1 r2 post h2
    refine ⟨this, ?_⟩
    rw [this]
    exact List.filter_sublist _
  · intro pre w1 m mid w2 r2 post u hlog hm
    rw [hlog] at h2
    exact chainFrom_excludes u pre [] urls w1 w2 m r2 mid post h2 hm

theorem working_list_narrows_witness :
    (HealthCheckConditionList.Check [listing ["a", "b"], listing ["b", "c"]]
        (recordingChecker listedChecker) "1" ["a", "b", "c"]
        (((), []) : Unit × CheckLog CheckErr)).2.2 =
      [(["a", "b", "c"], .ok [("a", true), ("b", true), ("c", false)]),
       (["a", "b"], .ok [("a", false), ("b", true)])] ∧
    (∀ pre w1 m mid w2 r2 post u,
      (HealthCheckConditionList.Check [listing ["a", "b"], listing ["b", "c"]]
        (recordingChecker listedChecker) "1" ["a", "b", "c"]
        (((), []) : Unit × CheckLog CheckErr)).2.2 =
          pre ++ (w1, .ok m) :: (mid ++ (w2, r2) :: post) →
      m.get? u = some false → u ∉ w2) :=
  ⟨by decide,
    (working_list_narrows listedChecker [listing ["a", "b"], listing ["b", "c"]] "1"
      ["a", "b", "c"] ()).2.2⟩

/-! ## The response cache (C15) -/

/-- On a key the cache does not hold, `put` followed by `match` and `Get` hits
with the value put exactly up to the life given to `put`. -/
theorem cache_put_fresh_then_get {V : Type} (cc : CheckCaches V) (key : String) (value empty : V)
    (ttl t t1 tNew tExpire : Int) (hfresh : cc.get? key = none) :
    ((CheckCaches.put cc key value ttl t).match key empty tNew tExpire).Get t1 =
      (value, decide (t1 - t ≤ ttl)) := by
  simp only [CheckCaches.put, hfresh, CheckCaches.match, GoMap.get?_set, if_true,
    NewTimedCache, TimedCache.Get]
  by_cases h : t1 - t > ttl
  · simp only [h, if_true]
    have : ¬ (t1 - t ≤ ttl) := by omega
    simp [this]
  · simp only [h, if_false]
    simp only [not_lt] at h
    simp [h]

/-- On a key the cache holds, `put` followed by `match` and `Get` hits with the
value put up to the life of the entry that was there; the life given to `put`
is not read. -/
theorem cache_put_existing_then_get {V : Type} (cc : CheckCaches V) (key : String)
    (value empty : V) (old : TimedCache V)
    (ttl t t1 tNew tExpire : Int) (hold : cc.get? key = some old) :
    ((CheckCaches.put cc key value ttl t).match key empty tNew tExpire).Get t1 =
      (value, decide (t1 - t ≤ old.expire)) := by
  simp only [CheckCaches.put, hold, CheckCaches.match, GoMap.get?_set, if_true,
    TimedCache.Set, TimedCache.Get]
  by_cases h : t1 - t > old.expire
  · simp only [h, if_true]
    have : ¬ (t1 - t ≤ old.expire) := by omega
    simp [this]
  · simp only [h, if_false]
    simp only [not_lt] at h
    simp [h]

/-- C15 fails as stated: `put` on a key the cache already holds keeps the life
of the old entry. Over an entry with a life of one second, a put with a life of
sixty seconds at second 10 is a miss at second 12; over an entry with a life of
sixty seconds, a put with a life of one second at second 10 is still a hit at
second 15. -/
theorem cache_put_ignores_ttl_on_overwrite :
    ((CheckCaches.put (oneEntryCache second) "k" "new" (60 * second) (10 * second)).match
        "k" "" (12 * second) (12 * second)).Get (12 * second) = ("new", false) ∧
    ((CheckCaches.put (oneEntryCache (60 * second)) "k" "new" second (10 * second)).match
        "k" "" (15 * second) (15 * second)).Get (15 * second) = ("new", true) := by
  constructor <;> decide

/-- C15, amended. After `put(k, v, ttl)` at time `t` on a cache that holds
nothing for `k`, or an entry whose life is `ttl`, `match(k).Get()` returns the
value with a hit at every time up to `t + ttl` and with a miss at every later
time. On a key the cache holds, whatever the life of its entry, `put` sets the
value and the time and keeps that life, which is the one the hit lasts for. -/
theorem cache_put_then_get_within_life {V : Type} (cc : CheckCaches V) (key : String)
    (value empty : V) (ttl t t1 tNew tExpire : Int)
    (hlife : ∀ old, cc.get? key = some old → old.expire = ttl) :
    (t ≤ t1 → t1 ≤ t + ttl →
      ((CheckCaches.put cc key value ttl t).match key empty tNew tExpire).Get t1 =
        (value, true)) ∧
    (t1 > t + ttl →
      ((CheckCaches.put cc key value ttl t).match key empty tNew tExpire).Get t1 =
        (value, false)) ∧
    (∀ (other : Int) (old : TimedCache V), cc.get? key = some old →
      ((CheckCaches.put cc key value other t).match key empty tNew tExpire).Get t1 =
        (value, decide (t1 - t ≤ old.expire))) := by
  have hget : ((CheckCaches.put cc key value ttl t).match key empty tNew tExpire).Get t1 =
      (value, decide (t1 - t ≤ ttl)) := by
    cases h : cc.get? key with
    | none => exact cache_put_fresh_then_get cc key value empty ttl t t1 tNew tExpire h
    | some old =>
      rw [cache_put_existing_then_get cc key value empty old ttl t t1 tNew tExpire h,
        hlife old h]
  refine ⟨?_, ?_, ?_⟩
  · intro _ h2
    rw [hget]
    have : t1 - t ≤ ttl := by omega
    simp [this]
  · intro h
    rw [hget]
    have : ¬ (t1 - t ≤ ttl) := by omega
    simp [this]
  · intro other old hold
    exact cache_put_existing_then_get cc key value empty old other t t1 tNew tExpire hold

theorem cache_put_then_get_within_life_witness :
    ((CheckCaches.put (oneEntryCache (60 * second)) "k" "new" (60 * second) (10 * second)).match
        "k" "" (70 * second) (70 * second)).Get (70 * second) = ("new", true) ∧
    ((CheckCaches.put (oneEntryCache (60 * second)) "k" "new" (60 * second) (10 * second)).match
        "k" "" (71 * second) (71 * second)).Get (71 * second) = ("new", false) :=
  ⟨(cache_put_then_get_within_life (oneEntryCache (60 * second)) "k" "new" ""
      (60 * second) (10 * second) (70 * second) (70 * second) (70 * second)
      (by intro old h; cases h; rfl)).1 (by decide) (by decide),
   (cache_put_then_get_within_life (oneEntryCache (60 * second)) "k" "new" ""
      (60 * second) (10 * second) (71 * second) (71 * second) (71 * second)
      (by intro old h; cases h; rfl)).2.1 (by decide)⟩

/-! ## The stored height over rounds (C13) -/

theorem foldl_max_ge (l : List Int) :
    ∀ m : Int, m ≤ l.foldl (fun m item => if item > m then item else m) m ∧
      ∀ x ∈ l, x ≤ l.foldl (fun m item => if item > m then item else m) m := by
  induction l with
  | nil => intro m; exact ⟨le_refl _, fun x hx => by simp at hx⟩
  | cons a l ih =>
    intro m
    simp only [List.foldl_cons]
    obtain ⟨h1, h2⟩ := ih (if a > m then a else m)
    have hm : m ≤ if a > m then a else m := by split <;> omega
    have ha : a ≤ if a > m then a else m := by split <;> omega
    refine ⟨le_trans hm h1, ?_⟩
    intro x hx
    rcases List.mem_cons.mp hx with hx | hx
    · rw [hx]; exact le_trans ha h1
    · exact h2 x hx

theorem loMax_ge (l : List Int) (x : Int) (hx : x ∈ l) : x ≤ loMax l := by
  cases l with
  | nil => simp at hx
  | cons a l =>
    simp only [loMax]
    rcases List.mem_cons.mp hx with hx | hx
    · rw [hx]; exact (foldl_max_ge l a).1
    · exact (foldl_max_ge l a).2 x hx

theorem GoMap.getD_set {β : Type} (m : GoMap β) (k : String) (v : β) (u : String) (d : β) :
    (m.set k v).getD u d = if u = k then v else m.getD u d := by
  simp only [GoMap.getD, GoMap.get?_set]
  split <;> rfl

/-- The stored heights after the last part of a check: none decreases, and the
one of the chain bounds every collected height when a result is returned. -/
theorem blockHeight_verdicts_stored (matcher : Matcher) (lastBlocks : GoMap Int)
    (chainId : String) (acc : HeightAcc) (hzero : acc.heights = [] ∨ (0 : Int) ∈ acc.heights) :
    (∀ c, lastBlocks.getD c 0 ≤
      (blockHeightChecker.verdicts matcher lastBlocks chainId acc).2.getD c 0) ∧
    (∀ ret, (blockHeightChecker.verdicts matcher lastBlocks chainId acc).1 = .ok ret →
      ∀ h ∈ acc.heights,
        h ≤ (blockHeightChecker.verdicts matcher lastBlocks chainId acc).2.getD chainId 0) := by
  unfold blockHeightChecker.verdicts
  by_cases hlen : acc.heights.length = 0
  · simp only [hlen, if_true]
    refine ⟨fun c => le_refl _, ?_⟩
    intro ret _ h hh
    rw [List.length_eq_zero] at hlen
    rw [hlen] at hh
    simp at hh
  · simp only [hlen, if_false]
    have h0 : (0 : Int) ∈ acc.heights := by
      rcases hzero with h | h
      · rw [h] at hlen; simp at hlen
      · exact h
    have hmax0 : (0 : Int) ≤ loMax acc.heights := loMax_ge _ _ h0
    cases hp : blockHeightChecker.parseHeight matcher.Value with
    | none =>
      simp only
      exact ⟨fun c => le_refl _, fun ret hret => by simp at hret⟩
    | some tolerance =>
      simp only
      cases hst : lastBlocks.get? chainId with
      | none =>
        simp only [Bool.false_eq_true, if_false]
        constructor
        · intro c
          rw [GoMap.getD_set]
          split
          · rename_i hc
            simp only [GoMap.getD, hc, hst, Option.getD_none]
            exact hmax0
          · exact le_refl _
        · intro ret _ h hh
          rw [GoMap.getD_set]
          simp only [if_true]
          exact loMax_ge _ _ hh
      | some lastBlock =>
        simp only
        by_cases hk : lastBlock > loMax acc.heights
        · simp only [hk, decide_True, if_true]
          refine ⟨fun c => le_refl _, ?_⟩
          intro ret _ h hh
          simp only [GoMap.getD, hst, Option.getD_some]
          have := loMax_ge _ _ hh
          omega
        · simp only [hk, decide_False, Bool.false_eq_true, if_false]
          constructor
          · intro c
            rw [GoMap.getD_set]
            split
            · rename_i hc
              simp only [GoMap.getD, hc, hst, Option.getD_some]
              omega
            · exact le_refl _
          · intro ret _ h hh
            rw [GoMap.getD_set]
            simp only [if_true]
            exact loMax_ge _ _ hh

theorem blockHeight_collect_heights :
    ∀ (rs : List (String × Except CheckErr Int)) (acc acc1 : HeightAcc),
      blockHeightChecker.collect rs acc = .ok acc1 →
      (∀ h ∈ acc.heights, h ∈ acc1.heights) ∧
      (∀ u h, (u, Except.ok h) ∈ rs → h = -1 ∨ h = 0 ∨ h ∈ acc1.heights) := by
  intro rs
  induction rs with
  | nil =>
    intro acc acc1 h
    simp only [blockHeightChecker.collect, Except.ok.injEq] at h
    subst h
    exact ⟨fun h hh => hh, fun u h hm => by simp at hm⟩
  | cons p rest ih =>
    intro acc acc1 h
    obtain ⟨url, res⟩ := p
    cases res with
    | error e => simp [blockHeightChecker.collect] at h
    | ok height =>
      simp only [blockHeightChecker.collect] at h
      by_cases h1 : height = -1
      · simp only [h1, if_true] at h
        obtain ⟨ha, hb⟩ := ih _ _ h
        refine ⟨ha, ?_⟩
        intro u x hm
        rcases List.mem_cons.mp hm with hm | hm
        · simp only [Prod.mk.injEq, Except.ok.injEq] at hm
          left; rw [hm.2, h1]
        · exact hb u x hm
      · by_cases h2 : height = 0
        · simp only [h1, h2, if_true, if_false] at h
          have h3 : ¬ ((0 : Int) = -1) := by decide
          simp only [h3, if_false] at h
          obtain ⟨ha, hb⟩ := ih _ _ h
          refine ⟨ha, ?_⟩
          intro u x hm
          rcases List.mem_cons.mp hm with hm | hm
          · simp only [Prod.mk.injEq, Except.ok.injEq] at hm
            right; left; rw [hm.2, h2]
          · exact hb u x hm
        · simp only [h1, h2, if_false] at h
          obtain ⟨ha, hb⟩ := ih _ _ h
          simp only at ha
          refine ⟨fun x hx => ha x (List.mem_append_left _ hx), ?_⟩
          intro u x hm
          rcases List.mem_cons.mp hm with hm | hm
          · simp only [Prod.mk.injEq, Except.ok.injEq] at hm
            right; right
            rw [hm.2]
            exact ha height (List.mem_append_right _ (List.mem_singleton.mpr rfl))
          · exact hb u x hm

/-- The stored heights after one round: none decreases, and the one of the
chain of the round bounds every height obtained in it when the round returns a
result. -/
theorem blockHeight_round_stored {V : Type} (lastBlocks : GoMap Int) (r : HeightRound V) :
    (∀ c, lastBlocks.getD c 0 ≤ (blockHeightChecker.round lastBlocks r).getD c 0) ∧
    (blockHeightChecker.succeeds lastBlocks r = true →
      ∀ h ∈ blockHeightChecker.observed r,
        h ≤ (blockHeightChecker.round lastBlocks r).getD r.chainId 0) := by
  unfold blockHeightChecker.round blockHeightChecker.succeeds blockHeightChecker.observed
    blockHeightChecker.Check
  cases hm : r.condition.Matchers with
  | nil =>
    simp only
    exact ⟨fun c => le_refl _, fun h => by simp at h⟩
  | cons matcher rest =>
    simp only
    cases hc : blockHeightChecker.collect
        (runChecks (blockHeightChecker.heightOf r.getHeightFn r.condition) r.urls r.caches).1
        { ret := [], heightMap := [], heights := List.replicate r.urls.length 0 } with
    | error e =>
      simp only
      exact ⟨fun c => le_refl _, fun h => by simp at h⟩
    | ok acc =>
      simp only
      obtain ⟨ha, hb⟩ := blockHeight_collect_heights _ _ _ hc
      simp only at ha
      have hzero : acc.heights = [] ∨ (0 : Int) ∈ acc.heights := by
        cases hu : r.urls with
        | nil =>
          rw [hu] at hc
          simp only [runChecks, blockHeightChecker.collect, Except.ok.injEq] at hc
          left
          rw [← hc]
          rfl
        | cons u us =>
          right
          apply ha
          rw [hu]
          simp [List.replicate_succ]
      obtain ⟨hv1, hv2⟩ := blockHeight_verdicts_stored matcher lastBlocks r.chainId acc hzero
      refine ⟨hv1, ?_⟩
      intro hs h hh
      cases hres : (blockHeightChecker.verdicts matcher lastBlocks r.chainId acc).1 with
      | error e => rw [hres] at hs; simp at hs
      | ok ret =>
        obtain ⟨p, hp, hph⟩ := List.mem_filterMap.mp hh
        obtain ⟨u, res⟩ := p
        cases res with
        | error e => simp at hph
        | ok x =>
          simp only [Option.some.injEq] at hph
          subst hph
          have hne : r.urls ≠ [] := by
            intro hnil
            rw [hnil] at hp
            simp [runChecks] at hp
          have h0 : (0 : Int) ∈ acc.heights := by
            rcases hzero with hz | hz
            · exfalso
              cases hu : r.urls with
              | nil => exact hne hu
              | cons u us =>
                have := ha 0 (by rw [hu]; simp [List.replicate_succ])
                rw [hz] at this
                simp at this
            · exact hz
          have hz := hv2 ret hres 0 h0
          rcases hb u x hp with hx | hx | hx
          · rw [hx]; omega
          · rw [hx]; exact hz
          · exact hv2 ret hres x hx

theorem blockHeight_rounds_mono {V : Type} :
    ∀ (rs : List (HeightRound V)) (lastBlocks : GoMap Int) (c : String),
      lastBlocks.getD c 0 ≤ (blockHeightChecker.rounds lastBlocks rs).getD c 0 := by
  intro rs
  induction rs with
  | nil => intro lastBlocks c; exact le_refl _
  | cons r rest ih =>
    intro lastBlocks c
    simp only [blockHeightChecker.rounds, List.foldl_cons]
    exact le_trans ((blockHeight_round_stored lastBlocks r).1 c)
      (ih (blockHeightChecker.round lastBlocks r) c)

theorem blockHeight_rounds_append {V : Type} (lastBlocks : GoMap Int)
    (pre post : List (HeightRound V)) :
    blockHeightChecker.rounds lastBlocks (pre ++ post) =
      blockHeightChecker.rounds (blockHeightChecker.rounds lastBlocks pre) post := by
  simp [blockHeightChecker.rounds, List.foldl_append]

/-- C13, amended. Over every sequence of rounds of `blockHeightChecker.Check`
on one checker, the stored height of every chain (0 when none is stored) never
decreases from one round to the next, and after any later round the stored
height of a chain is at least every height obtained in a round for that chain
that returned a result. -/
theorem lastBlocks_monotone_over_rounds {V : Type} (lastBlocks : GoMap Int)
    (pre post : List (HeightRound V)) (r : HeightRound V) :
    (∀ c, (blockHeightChecker.rounds lastBlocks pre).getD c 0 ≤
      (blockHeightChecker.rounds lastBlocks (pre ++ [r])).getD c 0) ∧
    (blockHeightChecker.succeeds (blockHeightChecker.rounds lastBlocks pre) r = true →
      ∀ h ∈ blockHeightChecker.observed r,
        h ≤ (blockHeightChecker.rounds lastBlocks (pre ++ r :: post)).getD r.chainId 0) := by
  constructor
  · intro c
    rw [blockHeight_rounds_append]
    exact blockHeight_rounds_mono [r] _ c
  · intro hs h hh
    rw [blockHeight_rounds_append]
    have h1 := (blockHeight_round_stored (blockHeightChecker.rounds lastBlocks pre) r).2 hs h hh
    have h2 := blockHeight_rounds_mono post
      (blockHeightChecker.round (blockHeightChecker.rounds lastBlocks pre) r) r.chainId
    simp only [blockHeightChecker.rounds, List.foldl_cons] at h2 ⊢
    exact le_trans h1 h2

/-- C13 fails as stated: a round that returns an error leaves `lastBlocks` as it
was. In a first round `http://c` returns the height 100 and the request of the
second URL cannot be built, so the round returns an error and nothing is stored;
a second round obtains the height 50 and stores it, below the 100 of the first
round. -/
theorem lastBlocks_misses_failed_round :
    blockHeightChecker.observed
        (tableRound [("http://c", some { error := false, result := "0x64" })]
          ["http://c", "http://bad url"]) = [100] ∧
    blockHeightChecker.succeeds []
        (tableRound [("http://c", some { error := false, result := "0x64" })]
          ["http://c", "http://bad url"]) = false ∧
    (blockHeightChecker.rounds []
        [tableRound [("http://c", some { error := false, result := "0x64" })]
          ["http://c", "http://bad url"]]).get? "1" = none ∧
    (blockHeightChecker.rounds []
        [tableRound [("http://c", some { error := false, result := "0x64" })]
          ["http://c", "http://bad url"],
         tableRound [("http://c", some { error := false, result := "0x32" })]
          ["http://c"]]).get? "1" = some 50 := by
  decide

theorem lastBlocks_monotone_over_rounds_witness :
    blockHeightChecker.succeeds
        (blockHeightChecker.rounds []
          [tableRound [("http://c", some { error := false, result := "0x64" })] ["http://c"]])
        (tableRound [("http://c", some { error := false, result := "0x32" })] ["http://c"])
      = true ∧
    blockHeightChecker.observed
        (tableRound [("http://c", some { error := false, result := "0x32" })] ["http://c"])
      = [50] ∧
    (blockHeightChecker.rounds []
        [tableRound [("http://c", some { error := false, result := "0x64" })] ["http://c"],
         tableRound [("http://c", some { error := false, result := "0x32" })] ["http://c"]]).get?
      "1" = some 100 ∧
    ∀ h ∈ blockHeightChecker.observed
        (tableRound [("http://c", some { error := false, result := "0x32" })] ["http://c"]),
      h ≤ (blockHeightChecker.rounds []
        ([tableRound [("http://c", some { error := false, result := "0x64" })] ["http://c"]] ++
          tableRound [("http://c", some { error := false, result := "0x32" })] ["http://c"]
            :: [])).getD "1" 0 :=
  ⟨by decide, by decide, by decide,
    (lastBlocks_monotone_over_rounds []
      [tableRound [("http://c", some { error := false, result := "0x64" })] ["http://c"]] []
      (tableRound [("http://c", some { error := false, result := "0x32" })] ["http://c"])).2
      (by decide)⟩

/-! ## The tolerance of the block-height checker (C14) -/

theorem wrapInt64_of_range (x : Int) (h0 : 0 ≤ x) (h1 : x < 2 ^ 63) : wrapInt64 x = x := by
  unfold wrapInt64
  have h2 : (x + 2 ^ 63) % 2 ^ 64 = x + 2 ^ 63 := by
    apply Int.emod_eq_of_lt <;> omega
  rw [h2]
  omega

/-- C14. On a chain with no stored height, when the two URLs of the list return
the positive heights H and H - T and the tolerance of the first matcher is
T > 0: under "<=" both URLs are valid; under "<" the URL at H is valid and the
URL at H - T is not. -/
theorem blockHeight_tolerance_boundary {V : Type}
    (getHeightFn : String → HealthCheckCondition → CheckCaches V →
      Except CheckErr Int × CheckCaches V × Bool)
    (lastBlocks : GoMap Int) (chainId : String) (u1 u2 : String)
    (condition : HealthCheckCondition) (caches : CheckCaches V)
    (matcher : Matcher) (rest : List Matcher) (H T : Int)
    (hm : condition.Matchers = matcher :: rest)
    (htol : blockHeightChecker.parseHeight matcher.Value = some T)
    (hres : (runChecks (blockHeightChecker.heightOf getHeightFn condition) [u1, u2] caches).1 =
      [(u1, .ok H), (u2, .ok (H - T))])
    (hne : u1 ≠ u2) (hT : 0 < T) (hHT : 0 < H - T) (hH : H < 2 ^ 63)
    (hstored : lastBlocks.get? chainId = none) :
    (matcher.MatchType = "<=" → ∃ ret,
      (blockHeightChecker.Check getHeightFn lastBlocks chainId [u1, u2] condition caches).1 =
        .ok ret ∧ ret.get? u1 = some true ∧ ret.get? u2 = some true) ∧
    (matcher.MatchType = "<" → ∃ ret,
      (blockHeightChecker.Check getHeightFn lastBlocks chainId [u1, u2] condition caches).1 =
        .ok ret ∧ ret.get? u1 = some true ∧ ret.get? u2 = some false) := by
  have hH1 : ¬ (H = -1) := by omega
  have hH0 : ¬ (H = 0) := by omega
  have hL1 : ¬ (H - T = -1) := by omega
  have hL0 : ¬ (H - T = 0) := by omega
  have hne2 : ¬ (u2 = u1) := fun h => hne h.symm
  have hcollect : blockHeightChecker.collect [(u1, .ok H), (u2, .ok (H - T))]
      { ret := [], heightMap := [], heights := [0, 0] } =
      .ok { ret := [], heightMap := [(u2, H - T), (u1, H)], heights := [0, 0, H, H - T] } := by
    simp [blockHeightChecker.collect, hH1, hH0, hL1, hL0, GoMap.set, hne]
  have hmax : loMax [0, 0, H, H - T] = H := by
    simp only [loMax, List.foldl_cons, List.foldl_nil]
    have h1 : ¬ ((0 : Int) > 0) := by decide
    have h2 : H > 0 := by omega
    have h3 : ¬ (H - T > H) := by omega
    simp only [h1, h2, h3, if_true, if_false]
  have hcheck : (blockHeightChecker.Check getHeightFn lastBlocks chainId [u1, u2] condition
      caches).1 = .ok [(u2, heightValid matcher.MatchType H (H - T) T),
        (u1, heightValid matcher.MatchType H H T)] := by
    unfold blockHeightChecker.Check
    simp only [hm, hres, List.length_cons, List.length_nil, List.replicate, Nat.reduceAdd,
      hcollect, blockHeightChecker.verdicts, htol, hstored, hmax]
    simp [GoMap.mergeInto, GoMap.set, hne, hne2]
  have hbeq : (u1 == u2) = false := by simp [hne]
  have hw0z : wrapInt64 0 = 0 := wrapInt64_of_range 0 (le_refl _) (by norm_num)
  have hwTz : wrapInt64 T = T := wrapInt64_of_range T (le_of_lt hT) (by omega)
  constructor
  · intro hmt
    refine ⟨_, hcheck, ?_, ?_⟩
    · simp [GoMap.get?, List.lookup, heightValid, hmt, hw0z, hwTz, le_of_lt hT, hbeq]
    · simp [GoMap.get?, List.lookup, heightValid, hmt, hw0z, hwTz]
  · intro hmt
    refine ⟨_, hcheck, ?_, ?_⟩
    · simp [GoMap.get?, List.lookup, heightValid, hmt, hw0z, hwTz, hT, hbeq]
    · have hd : ("<" == "<=") = false := by decide
      simp [GoMap.get?, List.lookup, heightValid, hmt, hw0z, hwTz, hd]

theorem blockHeight_tolerance_boundary_witness :
    (blockHeightChecker.parseHeight "0x64" = some 100 ∧
      blockHeightChecker.parseHeight "100" = some 100 ∧
      blockHeightChecker.parseHeight "0x62" = some 98 ∧
      blockHeightChecker.parseHeight "98" = some 98 ∧
      blockHeightChecker.parseHeight "0x2" = some 2 ∧
      blockHeightChecker.parseHeight "2" = some 2) ∧
    (∃ ret, (blockHeightChecker.Check
        (blockHeightChecker.getHeight toleranceEnv 60000000000 exampleClock) [] "1"
        ["http://h100", "http://h98"] (toleranceCondition "<=" "0x2") []).1 = .ok ret ∧
      ret.get? "http://h100" = some true ∧ ret.get? "http://h98" = some true) ∧
    (∃ ret, (blockHeightChecker.Check
        (blockHeightChecker.getHeight toleranceEnv 60000000000 exampleClock) [] "1"
        ["http://h100", "http://h98"] (toleranceCondition "<" "2") []).1 = .ok ret ∧
      ret.get? "http://h100" = some true ∧ ret.get? "http://h98" = some false) :=
  ⟨by decide,
    (blockHeight_tolerance_boundary
      (blockHeightChecker.getHeight toleranceEnv 60000000000 exampleClock) [] "1"
      "http://h100" "http://h98" (toleranceCondition "<=" "0x2") []
      { MatchType := "<=", Key := "result", Value := "0x2" } [] 100 2
      rfl (by decide) (by decide) (by decide) (by decide) (by decide) (by norm_num) rfl).1 rfl,
    (blockHeight_tolerance_boundary
      (blockHeightChecker.getHeight toleranceEnv 60000000000 exampleClock) [] "1"
      "http://h100" "http://h98" (toleranceCondition "<" "2") []
      { MatchType := "<", Key := "result", Value := "2" } [] 100 2
      rfl (by decide) (by decide) (by decide) (by decide) (by decide) (by norm_num) rfl).2 rfl⟩

/-! ## The redaction of the GET endpoint (C16) -/

/-- C16 fails on the code: a stored URL whose host starts with 21 letters and
hyphens and whose path ends in a key of 32 lower-case alphanumerics leaves the
loop with the key in clear and the host changed, because the second replacement
is made on the stored URL and overwrites the first. A URL with the key as the
only match is redacted as claimed. -/
theorem desensitize_leaves_key_in_clear :
    desensitize "https://polygon-zkevm-mainnet.example.io/v3/0123456789abcdef0123456789abcdef" =
      "https://REDACTED.example.io/v3/0123456789abcdef0123456789abcdef" ∧
    desensitize "https://eth.example.io/v3/0123456789abcdef0123456789abcdef" =
      "https://eth.example.io/v3/REDACTED" := by
  constructor <;> decide

/-! ## Round robin over the connections (C17) -/

theorem grpc_get_spec {C : Type} (u : grpcUpstream C) (conn : Nat → C)
    (hN : 0 < u.rpc.length)
    (hlive : ∀ i, i < u.rpc.length → u.clis.get? (u.rpc.getD i "") = some (conn i))
    (hwrap : u.next + 1 < 2 ^ 32) :
    u.get = (.ok (conn ((u.next + 1) % u.rpc.length)), { u with next := u.next + 1 }) := by
  unfold grpcUpstream.get
  have h0 : ¬ (u.rpc.length = 0) := by omega
  have hmod : (u.next + 1) % 2 ^ 32 = u.next + 1 := Nat.mod_eq_of_lt hwrap
  simp only [h0, if_false, hmod]
  rw [hlive _ (Nat.mod_lt _ hN)]

theorem grpc_getMany_spec {C : Type} (conn : Nat → C) :
    ∀ (k : Nat) (u : grpcUpstream C),
      0 < u.rpc.length →
      (∀ i, i < u.rpc.length → u.clis.get? (u.rpc.getD i "") = some (conn i)) →
      u.next + k < 2 ^ 32 →
      grpcUpstream.getMany k u =
        ((List.range k).map (fun j => .ok (conn ((u.next + 1 + j) % u.rpc.length))),
          { u with next := u.next + k }) := by
  intro k
  induction k with
  | zero => intro u _ _ _; rfl
  | succ k ih =>
    intro u hN hlive hwrap
    have hget := grpc_get_spec u conn hN hlive (by omega)
    have ih1 := ih { u with next := u.next + 1 } hN hlive (by simp only; omega)
    simp only [grpcUpstream.getMany, hget, ih1, List.range_succ_eq_map, List.map_cons,
      List.map_map]
    refine Prod.ext ?_ ?_
    · simp only [Nat.add_zero, List.cons.injEq, true_and]
      apply List.map_congr_left
      intro j _
      simp only [Function.comp, Nat.succ_eq_add_one]
      have : u.next + 1 + 1 + j = u.next + 1 + (j + 1) := by omega
      rw [this]
    · simp only
      have : u.next + 1 + k = u.next + (k + 1) := by omega
      rw [this]

theorem count_shifted_mod (s N i k : Nat) (hN : 0 < N) (hi : i < N) :
    (List.range k).countP (fun j => decide ((s + j) % N = i)) = k / N ∨
    (List.range k).countP (fun j => decide ((s + j) % N = i)) = (k + N - 1) / N := by
  have hcount := Nat.count_modEq_card k hN (i + (N - s % N))
  have hpred : (fun j => decide ((s + j) % N = i)) =
      (fun j => decide (j ≡ i + (N - s % N) [MOD N])) := by
    funext j
    have hs : s % N < N := Nat.mod_lt _ hN
    have hiff : (s + j) % N = i ↔ j ≡ i + (N - s % N) [MOD N] := by
      constructor
      · intro h
        have h1 : j + s ≡ i + (N - s % N) + s [MOD N] := by
          unfold Nat.ModEq
          have e1 : (i + (N - s % N) + s) % N = i := by
            have : i + (N - s % N) + s = i + (N - s % N + s % N) + N * (s / N) := by
              have := Nat.mod_add_div s N
              omega
            rw [this, Nat.add_mul_mod_self_left]
            have : N - s % N + s % N = N := by omega
            rw [this, Nat.add_mod_right]
            exact Nat.mod_eq_of_lt hi
          rw [e1, Nat.add_comm j s]
          exact h
        exact Nat.ModEq.add_right_cancel' s h1
      · intro h
        have h1 : j + s ≡ i + (N - s % N) + s [MOD N] := Nat.ModEq.add_right s h
        unfold Nat.ModEq at h1
        have e1 : (i + (N - s % N) + s) % N = i := by
          have : i + (N - s % N) + s = i + (N - s % N + s % N) + N * (s / N) := by
            have := Nat.mod_add_div s N
            omega
          rw [this, Nat.add_mul_mod_self_left]
          have : N - s % N + s % N = N := by omega
          rw [this, Nat.add_mod_right]
          exact Nat.mod_eq_of_lt hi
        rw [e1, Nat.add_comm j s] at h1
        exact h1
    exact decide_eq_decide.mpr hiff
  rw [hpred]
  have hdef : (List.range k).countP (fun j => decide (j ≡ i + (N - s % N) [MOD N])) =
      Nat.count (fun j => j ≡ i + (N - s % N) [MOD N]) k := rfl
  rw [hdef, hcount]
  by_cases hlt : (i + (N - s % N)) % N < k % N
  · right
    simp only [hlt, if_true]
    have hk := Nat.mod_add_div k N
    have hpos : 0 < k % N := by omega
    have hkN : k % N < N := Nat.mod_lt _ hN
    have e : k + N - 1 = (k % N - 1) + N * (k / N + 1) := by
      rw [Nat.mul_add, Nat.mul_one]
      omega
    rw [e, Nat.add_mul_div_left _ _ hN]
    have : (k % N - 1) / N = 0 := Nat.div_eq_of_lt (by omega)
    omega
  · left
    simp only [hlt, if_false, Nat.add_zero]

/-- C17, amended. For a `grpcUpstream` of N >= 1 endpoints, each with its own
live connection, whose counter does not pass 2^32 within the k calls: the k
consecutive calls of `get` all return a connection, the counter ends k higher,
and each of the N connections is returned ⌊k/N⌋ or ⌈k/N⌉ times. -/
theorem get_round_robin {C : Type} [DecidableEq C] (u : grpcUpstream C) (conn : Nat → C)
    (k : Nat) (hN : 0 < u.rpc.length)
    (hlive : ∀ i, i < u.rpc.length → u.clis.get? (u.rpc.getD i "") = some (conn i))
    (hinj : ∀ i j, i < u.rpc.length → j < u.rpc.length → conn i = conn j → i = j)
    (hwrap : u.next + k < 2 ^ 32) :
    (grpcUpstream.getMany k u).1.length = k ∧
    (∀ r ∈ (grpcUpstream.getMany k u).1, ∃ i, i < u.rpc.length ∧ r = .ok (conn i)) ∧
    (∀ i, i < u.rpc.length →
      ((grpcUpstream.getMany k u).1.countP (fun r => decide (r = .ok (conn i))) = k / u.rpc.length ∨
       (grpcUpstream.getMany k u).1.countP (fun r => decide (r = .ok (conn i))) =
        (k + u.rpc.length - 1) / u.rpc.length)) ∧
    (grpcUpstream.getMany k u).2.next = u.next + k ∧
    (grpcUpstream.getMany k u).2.rpc = u.rpc ∧ (grpcUpstream.getMany k u).2.clis = u.clis := by
  rw [grpc_getMany_spec conn k u hN hlive hwrap]
  refine ⟨by simp, ?_, ?_, rfl, rfl, rfl⟩
  · intro r hr
    obtain ⟨j, _, rfl⟩ := List.mem_map.mp hr
    exact ⟨_, Nat.mod_lt _ hN, rfl⟩
  · intro i hi
    have hpred : ((fun r => decide (r = Except.ok (conn i))) ∘
        (fun j => (Except.ok (conn ((u.next + 1 + j) % u.rpc.length)) : Except GrpcErr C))) =
        (fun j => decide ((u.next + 1 + j) % u.rpc.length = i)) := by
      funext j
      simp only [Function.comp, Except.ok.injEq]
      apply decide_eq_decide.mpr
      constructor
      · intro h
        exact hinj _ _ (Nat.mod_lt _ hN) hi h
      · intro h
        rw [h]
    simp only [List.countP_map, hpred]
    exact count_shifted_mod (u.next + 1) u.rpc.length i k hN hi

/-- C17 fails as stated where the counter passes 2^32: with three endpoints and
the counter at 2^32 - 2, two consecutive calls return the connection of the
first endpoint twice (4294967295 and 0 are both multiples of 3), and ⌈2/3⌉ is 1. -/
theorem get_repeats_at_counter_wrap :
    (grpcUpstream.getMany 2 (threeEndpoints 4294967294)).1 = [.ok 0, .ok 0] ∧
    (grpcUpstream.getMany 2 (threeEndpoints 4294967294)).2.next = 0 ∧
    (2 + (threeEndpoints 4294967294).rpc.length - 1) / (threeEndpoints 4294967294).rpc.length
      = 1 := by
  decide

theorem get_round_robin_witness :
    (grpcUpstream.getMany 4 (threeEndpoints 0)).1 = [.ok 1, .ok 2, .ok 0, .ok 1] ∧
    ((grpcUpstream.getMany 4 (threeEndpoints 0)).1.length = 4 ∧
    (∀ r ∈ (grpcUpstream.getMany 4 (threeEndpoints 0)).1,
      ∃ i, i < (threeEndpoints 0).rpc.length ∧ r = .ok i) ∧
    (∀ i, i < (threeEndpoints 0).rpc.length →
      ((grpcUpstream.getMany 4 (threeEndpoints 0)).1.countP (fun r => decide (r = .ok i)) =
          4 / (threeEndpoints 0).rpc.length ∨
       (grpcUpstream.getMany 4 (threeEndpoints 0)).1.countP (fun r => decide (r = .ok i)) =
        (4 + (threeEndpoints 0).rpc.length - 1) / (threeEndpoints 0).rpc.length)) ∧
    (grpcUpstream.getMany 4 (threeEndpoints 0)).2.next = 0 + 4 ∧
    (grpcUpstream.getMany 4 (threeEndpoints 0)).2.rpc = (threeEndpoints 0).rpc ∧
    (grpcUpstream.getMany 4 (threeEndpoints 0)).2.clis = (threeEndpoints 0).clis) :=
  ⟨by decide,
    get_round_robin (threeEndpoints 0) (fun i => i) 4 (by decide) (by decide)
      (fun _ _ _ _ h => h) (by decide)⟩

/-! ## The refresh of a gRPC upstream (C18) -/

/-- C18 fails on the code: the delayed close deletes by URL, also a URL that a
later refresh made current again. A chain is put with `b:9090`; then, in one
fetch, it is put with `a:9090` and with `b:9090` again (two ready records of the
chain). Once the two delayed closes have run the endpoint list is `b:9090` with
no connection in the map, and `get` fails on it. -/
theorem refresh_back_loses_connection :
    (grpcUpstreamCaches.put dialAll none ["b:9090"]) =
      { upstream := { rpc := ["b:9090"], clis := [("b:9090", "b:9090")], next := 0 },
        pending := [] } ∧
    (grpcUpstreamCaches.put dialAll
      (some (grpcUpstreamCaches.put dialAll
        (some (grpcUpstreamCaches.put dialAll none ["b:9090"])) ["a:9090"])) ["b:9090"]) =
      { upstream :=
          { rpc := ["b:9090"], clis := [("a:9090", "a:9090"), ("b:9090", "b:9090")], next := 0 },
        pending := [["b:9090"], ["a:9090"]] } ∧
    (grpcUpstreamCaches.put dialAll
      (some (grpcUpstreamCaches.put dialAll
        (some (grpcUpstreamCaches.put dialAll none ["b:9090"])) ["a:9090"]))
      ["b:9090"]).runClose.runClose =
      { upstream := { rpc := ["b:9090"], clis := [], next := 0 }, pending := [] } ∧
    (grpcUpstreamCaches.put dialAll
      (some (grpcUpstreamCaches.put dialAll
        (some (grpcUpstreamCaches.put dialAll none ["b:9090"])) ["a:9090"]))
      ["b:9090"]).runClose.runClose.upstream.get.1 = .error (.noClient "b:9090") := by
  refine ⟨rfl, rfl, rfl, by decide⟩

/-! ## The registry (C19, C20) -/

theorem foldl_chainMap_none (c : String) :
    ∀ (rows : Table) (acc : GoMap UpstreamRow),
      (rows.foldl (fun m v => m.set v.ChainID v) acc).get? c = none ↔
        (∀ r ∈ rows, r.ChainID ≠ c) ∧ acc.get? c = none := by
  intro rows
  induction rows with
  | nil => intro acc; simp
  | cons a rest ih =>
    intro acc
    simp only [List.foldl_cons, ih, GoMap.get?_set, List.mem_cons, forall_eq_or_imp]
    by_cases h : c = a.ChainID
    · simp [h]
    · simp only [h, if_false]
      have : a.ChainID ≠ c := fun e => h e.symm
      tauto

theorem foldl_chainMap_some (c : String) (d : UpstreamRow) :
    ∀ (rows : Table) (acc : GoMap UpstreamRow),
      (rows.foldl (fun m v => m.set v.ChainID v) acc).get? c = some d →
        (d ∈ rows ∧ d.ChainID = c) ∨ acc.get? c = some d := by
  intro rows
  induction rows with
  | nil => intro acc h; exact Or.inr h
  | cons a rest ih =>
    intro acc h
    simp only [List.foldl_cons] at h
    rcases ih _ h with h1 | h1
    · exact Or.inl ⟨List.mem_cons_of_mem _ h1.1, h1.2⟩
    · rw [GoMap.get?_set] at h1
      by_cases hc : c = a.ChainID
      · simp only [hc, if_true, Option.some.injEq] at h1
        left
        rw [← h1]
        exact ⟨List.mem_cons_self _ _, hc.symm⟩
      · simp only [hc, if_false] at h1
        exact Or.inr h1

theorem toChainMap_none (rows : Table) (c : String) :
    (toChainMap rows).get? c = none ↔ ∀ r ∈ rows, r.ChainID ≠ c := by
  unfold toChainMap
  rw [foldl_chainMap_none]
  simp [GoMap.get?]

theorem toChainMap_some (rows : Table) (c : String) (d : UpstreamRow)
    (h : (toChainMap rows).get? c = some d) : d ∈ rows ∧ d.ChainID = c := by
  unfold toChainMap at h
  rcases foldl_chainMap_some c d rows [] h with h1 | h1
  · exact h1
  · simp [GoMap.get?] at h1

theorem createNew_eq (dbUpstreamMap : GoMap UpstreamRow) (upstreams t : Table) :
    upstreamRegistry.createNew dbUpstreamMap upstreams t =
      t ++ upstreams.filter (fun u => (dbUpstreamMap.get? u.ChainID).isNone) := by
  unfold upstreamRegistry.createNew
  generalize upstreams.filter (fun u => (dbUpstreamMap.get? u.ChainID).isNone) = l
  induction l generalizing t with
  | nil => simp
  | cons a rest ih =>
    simp only [List.foldl_cons]
    rw [ih]
    simp [Queries.create]

theorem mem_updateRpc (t : Table) (u row : UpstreamRow) :
    row ∈ Queries.updateRpc t u.Rpc u.ChainID u.Source u.CreatedAt ↔
      (row ∈ t ∧ row.key ≠ u.key) ∨ (row = u ∧ ∃ r ∈ t, r.key = u.key) := by
  unfold Queries.updateRpc UpstreamRow.key
  simp only [List.mem_map]
  constructor
  · rintro ⟨r, hr, hrow⟩
    by_cases hk : r.ChainID = u.ChainID ∧ r.Source = u.Source
    · right
      simp only [hk.1, hk.2, beq_self_eq_true, Bool.and_self, if_true] at hrow
      refine ⟨?_, r, hr, by rw [hk.1, hk.2]⟩
      rw [← hrow]
    · left
      have : (r.ChainID == u.ChainID && r.Source == u.Source) = false := by
        simp only [Bool.and_eq_false_iff, beq_eq_false_iff_ne]
        by_contra hcon
        push_neg at hcon
        exact hk hcon
      simp only [this, Bool.false_eq_true, if_false] at hrow
      subst hrow
      refine ⟨hr, ?_⟩
      intro he
      simp only [Prod.mk.injEq] at he
      exact hk ⟨he.2, he.1⟩
  · rintro (⟨hr, hk⟩ | ⟨hrow, r, hr, hk⟩)
    · refine ⟨row, hr, ?_⟩
      have : (row.ChainID == u.ChainID && row.Source == u.Source) = false := by
        simp only [Bool.and_eq_false_iff, beq_eq_false_iff_ne]
        by_contra hcon
        push_neg at hcon
        exact hk (by rw [hcon.1, hcon.2])
      simp only [this, Bool.false_eq_true, if_false]
    · refine ⟨r, hr, ?_⟩
      simp only [Prod.mk.injEq] at hk
      simp only [hk.1, hk.2, beq_self_eq_true, Bool.and_self, if_true]
      rw [hrow]

theorem key_updateRpc (t : Table) (u : UpstreamRow) (k : String × String) :
    (∃ r ∈ Queries.updateRpc t u.Rpc u.ChainID u.Source u.CreatedAt, r.key = k) ↔
      ∃ r ∈ t, r.key = k := by
  constructor
  · rintro ⟨r, hr, hk⟩
    rcases (mem_updateRpc t u r).mp hr with h | h
    · exact ⟨r, h.1, hk⟩
    · obtain ⟨hru, r0, hr0, hk0⟩ := h
      exact ⟨r0, hr0, by rw [hk0, ← hru, hk]⟩
  · rintro ⟨r, hr, hk⟩
    by_cases hku : r.key = u.key
    · exact ⟨u, (mem_updateRpc t u u).mpr (Or.inr ⟨rfl, r, hr, hku⟩), by rw [← hku, hk]⟩
    · exact ⟨r, (mem_updateRpc t u r).mpr (Or.inl ⟨hr, hku⟩), hk⟩

theorem mem_update_fold (cond : UpstreamRow → Bool) (row : UpstreamRow) :
    ∀ (O t : Table), (O.map UpstreamRow.key).Nodup →
      (row ∈ O.foldl (fun t u =>
          if cond u = true then Queries.updateRpc t u.Rpc u.ChainID u.Source u.CreatedAt
          else t) t ↔
        (row ∈ t ∧ ∀ u ∈ O, cond u = true → row.key ≠ u.key) ∨
          (∃ u ∈ O, cond u = true ∧ row = u ∧ ∃ r ∈ t, r.key = u.key)) := by
  intro O
  induction O with
  | nil => intro t _; simp
  | cons a O ih =>
    intro t hnd
    simp only [List.map_cons, List.nodup_cons] at hnd
    have hfresh : ∀ u ∈ O, a.key ≠ u.key := by
      intro u hu he
      exact hnd.1 (List.mem_map.mpr ⟨u, hu, he.symm⟩)
    simp only [List.foldl_cons]
    rw [ih _ hnd.2]
    by_cases hc : cond a = true
    · simp only [hc, if_true]
      constructor
      · rintro (⟨hr, hall⟩ | ⟨u, hu, hcu, hru, hex⟩)
        · rcases (mem_updateRpc t a row).mp hr with h | h
          · left
            refine ⟨h.1, ?_⟩
            intro u hu hcu
            rcases List.mem_cons.mp hu with hu | hu
            · rw [hu]; exact h.2
            · exact hall u hu hcu
          · right
            exact ⟨a, List.mem_cons_self _ _, hc, h.1, h.2⟩
        · right
          exact ⟨u, List.mem_cons_of_mem _ hu, hcu, hru, (key_updateRpc t a u.key).mp hex⟩
      · rintro (⟨hr, hall⟩ | ⟨u, hu, hcu, hru, hex⟩)
        · left
          refine ⟨(mem_updateRpc t a row).mpr (Or.inl ⟨hr, hall a (List.mem_cons_self _ _) hc⟩), ?_⟩
          intro u hu hcu
          exact hall u (List.mem_cons_of_mem _ hu) hcu
        · rcases List.mem_cons.mp hu with hu | hu
          · subst hu
            left
            refine ⟨(mem_updateRpc t u row).mpr (Or.inr ⟨hru, hex⟩), ?_⟩
            intro u2 hu2 _
            rw [hru]
            exact hfresh u2 hu2
          · right
            exact ⟨u, hu, hcu, hru, (key_updateRpc t a u.key).mpr hex⟩
    · simp only [hc, if_false]
      constructor
      · rintro (⟨hr, hall⟩ | ⟨u, hu, hcu, hru, hex⟩)
        · left
          refine ⟨hr, ?_⟩
          intro u hu hcu
          rcases List.mem_cons.mp hu with hu | hu
          · rw [hu] at hcu; exact absurd hcu hc
          · exact hall u hu hcu
        · right
          exact ⟨u, List.mem_cons_of_mem _ hu, hcu, hru, hex⟩
      · rintro (⟨hr, hall⟩ | ⟨u, hu, hcu, hru, hex⟩)
        · left
          exact ⟨hr, fun u hu hcu => hall u (List.mem_cons_of_mem _ hu) hcu⟩
        · rcases List.mem_cons.mp hu with hu | hu
          · rw [hu] at hcu; exact absurd hcu hc
          · right
            exact ⟨u, hu, hcu, hru, hex⟩

theorem mem_delete_fold (row : UpstreamRow) :
    ∀ (dels : Table) (s : Store),
      (row ∈ (dels.foldl (fun s u =>
          ({ upstream := Queries.delByChainIdSource s.upstream u.ChainID u.Source,
             readyUpstream := Queries.delByChainIdSource s.readyUpstream u.ChainID u.Source }
            : Store)) s).upstream ↔
        row ∈ s.upstream ∧ ∀ d ∈ dels, row.key ≠ d.key) ∧
      (row ∈ (dels.foldl (fun s u =>
          ({ upstream := Queries.delByChainIdSource s.upstream u.ChainID u.Source,
             readyUpstream := Queries.delByChainIdSource s.readyUpstream u.ChainID u.Source }
            : Store)) s).readyUpstream ↔
        row ∈ s.readyUpstream ∧ ∀ d ∈ dels, row.key ≠ d.key) := by
  intro dels
  induction dels with
  | nil => intro s; simp
  | cons a dels ih =>
    intro s
    simp only [List.foldl_cons]
    obtain ⟨h1, h2⟩ := ih
      { upstream := Queries.delByChainIdSource s.upstream a.ChainID a.Source,
        readyUpstream := Queries.delByChainIdSource s.readyUpstream a.ChainID a.Source }
    rw [h1, h2]
    have hkey : (!(row.ChainID == a.ChainID && row.Source == a.Source)) = true ↔
        row.key ≠ a.key := by
      simp only [UpstreamRow.key, Bool.not_eq_true', Bool.and_eq_false_iff,
        beq_eq_false_iff_ne, ne_eq, Prod.mk.injEq, not_and]
      constructor
      · intro h hs hc
        rcases h with h | h
        · exact h hc
        · exact h hs
      · intro h
        by_cases hc : row.ChainID = a.ChainID
        · right; intro hs; exact h hs hc
        · left; exact hc
    simp only [Queries.delByChainIdSource, List.mem_filter, hkey, List.mem_cons,
      forall_eq_or_imp]
    constructor <;> tauto

theorem key_unique (t : Table) (hkey : (t.map UpstreamRow.key).Nodup) (d1 d2 : UpstreamRow)
    (h1 : d1 ∈ t) (h2 : d2 ∈ t) (hk : d1.key = d2.key) : d1 = d2 :=
  List.inj_on_of_nodup_map hkey h1 h2 hk

theorem keys_nodup_of_chains (rows : Table) (h : (rows.map (fun r => r.ChainID)).Nodup) :
    (rows.map UpstreamRow.key).Nodup := by
  have : rows.map (fun r => r.ChainID) = (rows.map UpstreamRow.key).map Prod.snd := by
    simp [List.map_map, UpstreamRow.key, Function.comp]
  rw [this] at h
  exact List.Nodup.of_map _ h

theorem source_chainMap_none (t : Table) (s : String) (p : UpstreamRow) (hp : p.Source = s) :
    (toChainMap (Queries.listBySource t s)).get? p.ChainID = none ↔
      ∀ d ∈ t, d.key ≠ p.key := by
  rw [toChainMap_none]
  simp only [Queries.listBySource, List.mem_filter, beq_iff_eq, UpstreamRow.key, ne_eq,
    Prod.mk.injEq, not_and, and_imp]
  constructor
  · intro h d hd hs
    exact h d hd (by rw [hs, hp])
  · intro h d hd hs
    exact h d hd (by rw [hs, hp])

theorem source_chainMap_some (t : Table)
    (hkey : ∀ d1 ∈ t, ∀ d2 ∈ t, d1.key = d2.key → d1 = d2) (s : String)
    (p d : UpstreamRow) (hp : p.Source = s) (hd : d ∈ t) (hk : d.key = p.key) :
    (toChainMap (Queries.listBySource t s)).get? p.ChainID = some d := by
  cases hget : (toChainMap (Queries.listBySource t s)).get? p.ChainID with
  | none =>
    exact absurd hk ((source_chainMap_none t s p hp).mp hget d hd)
  | some d1 =>
    obtain ⟨hm, hc⟩ := toChainMap_some _ _ _ hget
    simp only [Queries.listBySource, List.mem_filter, beq_iff_eq] at hm
    have hk1 : d1.key = d.key := by
      rw [hk]
      simp only [UpstreamRow.key, Prod.mk.injEq]
      exact ⟨by rw [hm.2, hp], hc⟩
    rw [hkey d1 hm.1 d hd hk1]

/-- The rows of a table after the insert loop and the update loop over the
published entries of one source. -/
theorem mem_reconciled (t : Table) (s : String) (P : Table) (row : UpstreamRow)
    (hsrc : ∀ p ∈ P, p.Source = s)
    (hchains : (P.map (fun r => r.ChainID)).Nodup)
    (hkey : ∀ d1 ∈ t, ∀ d2 ∈ t, d1.key = d2.key → d1 = d2) :
    row ∈ upstreamRegistry.updateOld (toChainMap (Queries.listBySource t s)) P
        (upstreamRegistry.createNew (toChainMap (Queries.listBySource t s)) P t) ↔
      (row ∈ t ∧ ∀ p ∈ P, p.key = row.key → p.Rpc = row.Rpc) ∨
        (row ∈ P ∧ ∀ d ∈ t, d.key = row.key → d.Rpc ≠ row.Rpc) := by
  have hPkeys := keys_nodup_of_chains P hchains
  have hOkeys : ((P.filter (fun u =>
      ((toChainMap (Queries.listBySource t s)).get? u.ChainID).isSome)).map
        UpstreamRow.key).Nodup :=
    List.Nodup.sublist (List.Sublist.map _ (List.filter_sublist _)) hPkeys
  rw [createNew_eq]
  unfold upstreamRegistry.updateOld
  have hfold := mem_update_fold
    (fun u => ((toChainMap (Queries.listBySource t s)).getD u.ChainID zeroRow).Rpc != u.Rpc) row
    (P.filter (fun u => ((toChainMap (Queries.listBySource t s)).get? u.ChainID).isSome))
    (t ++ P.filter (fun u => ((toChainMap (Queries.listBySource t s)).get? u.ChainID).isNone))
    hOkeys
  simp only at hfold
  rw [hfold]
  have hcond : ∀ p ∈ P, ∀ d ∈ t, d.key = p.key →
      ((((toChainMap (Queries.listBySource t s)).getD p.ChainID zeroRow).Rpc != p.Rpc) = true ↔
        d.Rpc ≠ p.Rpc) := by
    intro p hp d hd hk
    simp only [GoMap.getD, source_chainMap_some t hkey s p d (hsrc p hp) hd hk,
      Option.getD_some, bne_iff_ne]
  constructor
  · rintro (⟨hr, hall⟩ | ⟨u, hu, hcu, hru, _⟩)
    · rcases List.mem_append.mp hr with hr | hr
      · left
        refine ⟨hr, ?_⟩
        intro p hp hk
        by_contra hne
        have hpO : p ∈ P.filter (fun u =>
            ((toChainMap (Queries.listBySource t s)).get? u.ChainID).isSome) := by
          simp only [List.mem_filter]
          refine ⟨hp, ?_⟩
          rw [source_chainMap_some t hkey s p row (hsrc p hp) hr hk.symm]
          rfl
        have hc := (hcond p hp row hr hk.symm).mpr (fun e => hne e.symm)
        exact hall p hpO hc hk.symm
      · right
        simp only [List.mem_filter, Option.isNone_iff_eq_none] at hr
        refine ⟨hr.1, ?_⟩
        intro d hd hk
        exact absurd hk ((source_chainMap_none t s row (hsrc row hr.1)).mp hr.2 d hd)
    · right
      simp only [List.mem_filter] at hu
      rw [hru]
      refine ⟨hu.1, ?_⟩
      intro d hd hk
      exact (hcond u hu.1 d hd hk).mp hcu
  · rintro (⟨hr, hall⟩ | ⟨hr, hall⟩)
    · left
      refine ⟨List.mem_append_left _ hr, ?_⟩
      intro u hu hcu hk
      simp only [List.mem_filter] at hu
      have := (hcond u hu.1 row hr hk).mp hcu
      exact this (hall u hu.1 hk.symm).symm
    · by_cases hex : ∃ d ∈ t, d.key = row.key
      · obtain ⟨d, hd, hk⟩ := hex
        right
        refine ⟨row, ?_, (hcond row hr d hd hk).mpr (hall d hd hk), rfl,
          d, List.mem_append_left _ hd, hk⟩
        simp only [List.mem_filter]
        refine ⟨hr, ?_⟩
        rw [source_chainMap_some t hkey s row d (hsrc row hr) hd hk]
        rfl
      · push_neg at hex
        have hnone := (source_chainMap_none t s row (hsrc row hr)).mpr hex
        left
        refine ⟨List.mem_append_right _ ?_, ?_⟩
        · simp only [List.mem_filter, Option.isNone_iff_eq_none]
          exact ⟨hr, hnone⟩
        · intro u hu _ hk
          simp only [List.mem_filter] at hu
          have hur : row = u := key_unique P hPkeys row u hr hu.1 hk
          rw [← hur, hnone] at hu
          simp at hu

theorem key_source_chain (a b : UpstreamRow) (h : a.key = b.key) :
    a.Source = b.Source ∧ a.ChainID = b.ChainID := by
  simp only [UpstreamRow.key, Prod.mk.injEq] at h
  exact h

/-- The rows left by the insert loop and the update loop still have at most one
row per source and chain id. -/
theorem reconciled_keyed (t P : Table)
    (hkey : ∀ d1 ∈ t, ∀ d2 ∈ t, d1.key = d2.key → d1 = d2)
    (hPkeys : (P.map UpstreamRow.key).Nodup) (r1 r2 : UpstreamRow)
    (h1 : (r1 ∈ t ∧ ∀ p ∈ P, p.key = r1.key → p.Rpc = r1.Rpc) ∨
      (r1 ∈ P ∧ ∀ d ∈ t, d.key = r1.key → d.Rpc ≠ r1.Rpc))
    (h2 : (r2 ∈ t ∧ ∀ p ∈ P, p.key = r2.key → p.Rpc = r2.Rpc) ∨
      (r2 ∈ P ∧ ∀ d ∈ t, d.key = r2.key → d.Rpc ≠ r2.Rpc))
    (hk : r1.key = r2.key) : r1 = r2 := by
  rcases h1 with ⟨h1, a1⟩ | ⟨h1, a1⟩ <;> rcases h2 with ⟨h2, a2⟩ | ⟨h2, a2⟩
  · exact hkey r1 h1 r2 h2 hk
  · exact absurd (a1 r2 h2 hk.symm).symm (a2 r1 h1 hk)
  · exact absurd (a2 r1 h1 hk).symm (a1 r2 h2 hk.symm)
  · exact key_unique P hPkeys r1 r2 h1 h2 hk

theorem mem_delUpstreams (t : Table) (s : String) (P : Table) (d : UpstreamRow) :
    d ∈ (Queries.listBySource t s).filter (fun u => ((toChainMap P).get? u.ChainID).isNone) ↔
      d ∈ t ∧ d.Source = s ∧ ∀ p ∈ P, p.ChainID ≠ d.ChainID := by
  simp only [List.mem_filter, Queries.listBySource, beq_iff_eq, Option.isNone_iff_eq_none,
    toChainMap_none, and_assoc]

/-- C19, amended. `Register(source, published)` where every published entry
carries the source, the published chain ids are distinct and the `upstream`
table holds at most one row per source and chain id, every query succeeding.
Afterwards: the
rows of other sources are as before in both tables; the `upstream` rows of the
source are the published entries that were new or had a different rpc, as
published, and the stored rows whose rpc equals the published one, untouched;
so as (chain id, rpc) pairs they are exactly the published entries; a
`ready_upstream` row of the source remains iff the published list is not empty
and the row is not the counterpart of an `upstream` row whose chain id is
absent from the published list; and the `upstream` table still holds at most
one row per source and chain id. -/
theorem register_reconciles (st : Store) (source : String) (P : Table)
    (hsrc : ∀ p ∈ P, p.Source = source)
    (hchains : (P.map (fun r => r.ChainID)).Nodup)
    (hkey : ∀ d1 ∈ st.upstream, ∀ d2 ∈ st.upstream, d1.key = d2.key → d1 = d2) :
    (∀ row, row.Source ≠ source →
      ((row ∈ (upstreamRegistry.Register st source P).upstream ↔ row ∈ st.upstream) ∧
       (row ∈ (upstreamRegistry.Register st source P).readyUpstream ↔
          row ∈ st.readyUpstream))) ∧
    (∀ row, row.Source = source →
      (row ∈ (upstreamRegistry.Register st source P).upstream ↔
        (row ∈ P ∧ ∀ d ∈ st.upstream, d.key = row.key → d.Rpc ≠ row.Rpc) ∨
        (row ∈ st.upstream ∧ ∃ p ∈ P, p.key = row.key ∧ p.Rpc = row.Rpc))) ∧
    (∀ c rpc,
      (∃ row ∈ (upstreamRegistry.Register st source P).upstream,
        row.Source = source ∧ row.ChainID = c ∧ row.Rpc = rpc) ↔
      (∃ p ∈ P, p.ChainID = c ∧ p.Rpc = rpc)) ∧
    (∀ row, row.Source = source →
      (row ∈ (upstreamRegistry.Register st source P).readyUpstream ↔
        row ∈ st.readyUpstream ∧ P ≠ [] ∧
          ¬ ∃ d ∈ st.upstream, d.key = row.key ∧ ∀ p ∈ P, p.ChainID ≠ d.ChainID)) ∧
    (∀ d1 ∈ (upstreamRegistry.Register st source P).upstream,
      ∀ d2 ∈ (upstreamRegistry.Register st source P).upstream, d1.key = d2.key → d1 = d2) := by
  have hPkeys := keys_nodup_of_chains P hchains
  -- the rows of the two tables after the call
  have hup : ∀ row, row ∈ (upstreamRegistry.Register st source P).upstream ↔
      P ≠ [] ∧ ((row ∈ st.upstream ∧ ∀ p ∈ P, p.key = row.key → p.Rpc = row.Rpc) ∨
          (row ∈ P ∧ ∀ d ∈ st.upstream, d.key = row.key → d.Rpc ≠ row.Rpc)) ∧
        (∀ d, d ∈ st.upstream ∧ d.Source = source ∧ (∀ p ∈ P, p.ChainID ≠ d.ChainID) →
          row.key ≠ d.key) ∨
      P = [] ∧ row ∈ st.upstream ∧ row.Source ≠ source := by
    intro row
    cases hP : P with
    | nil =>
      simp [upstreamRegistry.Register, Queries.delBySource]
    | cons first rest =>
      have hfirst : first.Source = source := hsrc first (by rw [hP]; exact List.mem_cons_self _ _)
      simp only [upstreamRegistry.Register, hfirst]
      rw [(mem_delete_fold row _ _).1]
      simp only
      rw [← hP, mem_reconciled st.upstream source P row hsrc hchains hkey]
      simp only [mem_delUpstreams]
      have hne : P ≠ [] := by rw [hP]; exact List.cons_ne_nil _ _
      simp only [hne, ne_eq, not_false_eq_true, true_and, false_and, or_false]
  have hready : ∀ row, row ∈ (upstreamRegistry.Register st source P).readyUpstream ↔
      P ≠ [] ∧ row ∈ st.readyUpstream ∧
        (∀ d, d ∈ st.upstream ∧ d.Source = source ∧ (∀ p ∈ P, p.ChainID ≠ d.ChainID) →
          row.key ≠ d.key) ∨
      P = [] ∧ row ∈ st.readyUpstream ∧ row.Source ≠ source := by
    intro row
    cases hP : P with
    | nil =>
      simp [upstreamRegistry.Register, Queries.delBySource]
    | cons first rest =>
      have hfirst : first.Source = source := hsrc first (by rw [hP]; exact List.mem_cons_self _ _)
      simp only [upstreamRegistry.Register, hfirst]
      rw [(mem_delete_fold row _ _).2]
      simp only
      rw [← hP]
      simp only [mem_delUpstreams]
      have hne : P ≠ [] := by rw [hP]; exact List.cons_ne_nil _ _
      simp only [hne, ne_eq, not_false_eq_true, true_and, false_and, or_false]
  have hkeysrc := key_source_chain
  have hb : ∀ row, row.Source = source →
      (row ∈ (upstreamRegistry.Register st source P).upstream ↔
        (row ∈ P ∧ ∀ d ∈ st.upstream, d.key = row.key → d.Rpc ≠ row.Rpc) ∨
        (row ∈ st.upstream ∧ ∃ p ∈ P, p.key = row.key ∧ p.Rpc = row.Rpc)) := by
    intro row hrs
    rw [hup]
    constructor
    · rintro (⟨_, hcase, hdel⟩ | ⟨_, _, hne⟩)
      · rcases hcase with ⟨hr, hall⟩ | ⟨hr, hall⟩
        · right
          refine ⟨hr, ?_⟩
          by_contra hno
          push_neg at hno
          have habs : ∀ p ∈ P, p.ChainID ≠ row.ChainID := by
            intro p hp hc
            have hk : p.key = row.key := by
              simp only [UpstreamRow.key, Prod.mk.injEq]
              exact ⟨by rw [hsrc p hp, hrs], hc⟩
            exact hno p hp hk (hall p hp hk)
          exact hdel row ⟨hr, hrs, habs⟩ rfl
        · left
          exact ⟨hr, hall⟩
      · exact absurd hrs hne
    · rintro (⟨hr, hall⟩ | ⟨hr, p, hp, hk, hrpc⟩)
      · left
        refine ⟨List.ne_nil_of_mem hr, Or.inr ⟨hr, hall⟩, ?_⟩
        rintro d ⟨_, _, habs⟩ hk
        exact habs row hr (hkeysrc _ _ hk).2
      · left
        refine ⟨List.ne_nil_of_mem hp, Or.inl ⟨hr, ?_⟩, ?_⟩
        · intro p2 hp2 hk2
          have : p2 = p := key_unique P hPkeys p2 p hp2 hp (by rw [hk2, hk])
          rw [this]
          exact hrpc
        · rintro d ⟨_, _, habs⟩ hkd
          apply habs p hp
          rw [(hkeysrc _ _ hk).2, (hkeysrc _ _ hkd).2]
  refine ⟨?_, hb, ?_, ?_, ?_⟩
  · intro row hrs
    constructor
    · rw [hup]
      constructor
      · rintro (⟨_, hcase, _⟩ | ⟨_, hr, _⟩)
        · rcases hcase with ⟨hr, _⟩ | ⟨hr, _⟩
          · exact hr
          · exact absurd (hsrc row hr) hrs
        · exact hr
      · intro hr
        by_cases hP : P = []
        · right
          exact ⟨hP, hr, hrs⟩
        · left
          refine ⟨hP, Or.inl ⟨hr, ?_⟩, ?_⟩
          · intro p hp hk
            exact absurd ((hkeysrc _ _ hk).1.symm.trans (hsrc p hp)) hrs
          · rintro d ⟨_, hds, _⟩ hk
            exact hrs ((hkeysrc _ _ hk).1.trans hds)
    · rw [hready]
      constructor
      · rintro (⟨_, hr, _⟩ | ⟨_, hr, _⟩) <;> exact hr
      · intro hr
        by_cases hP : P = []
        · right
          exact ⟨hP, hr, hrs⟩
        · left
          refine ⟨hP, hr, ?_⟩
          rintro d ⟨_, hds, _⟩ hk
          exact hrs ((hkeysrc _ _ hk).1.trans hds)
  · intro c rpc
    constructor
    · rintro ⟨row, hrow, hrs, hc, hrpc⟩
      rcases (hb row hrs).mp hrow with ⟨hr, _⟩ | ⟨_, p, hp, hk, hprpc⟩
      · exact ⟨row, hr, hc, hrpc⟩
      · exact ⟨p, hp, by rw [(hkeysrc _ _ hk).2, hc], by rw [hprpc, hrpc]⟩
    · rintro ⟨p, hp, hc, hrpc⟩
      by_cases hex : ∃ d ∈ st.upstream, d.key = p.key ∧ d.Rpc = p.Rpc
      · obtain ⟨d, hd, hk, hdr⟩ := hex
        have hds : d.Source = source := (hkeysrc _ _ hk).1.trans (hsrc p hp)
        refine ⟨d, (hb d hds).mpr (Or.inr ⟨hd, p, hp, hk.symm, hdr.symm⟩), hds, ?_, ?_⟩
        · rw [(hkeysrc _ _ hk).2, hc]
        · rw [hdr, hrpc]
      · push_neg at hex
        exact ⟨p, (hb p (hsrc p hp)).mpr (Or.inl ⟨hp, hex⟩), hsrc p hp, hc, hrpc⟩
  · intro row hrs
    rw [hready]
    constructor
    · rintro (⟨hP, hr, hdel⟩ | ⟨_, _, hne⟩)
      · refine ⟨hr, hP, ?_⟩
        rintro ⟨d, hd, hk, habs⟩
        exact hdel d ⟨hd, (hkeysrc _ _ hk).1.trans hrs, habs⟩ hk.symm
      · exact absurd hrs hne
    · rintro ⟨hr, hP, hno⟩
      left
      refine ⟨hP, hr, ?_⟩
      rintro d ⟨hd, _, habs⟩ hk
      exact hno ⟨d, hd, hk.symm, habs⟩
  · intro d1 h1 d2 h2 hk
    rw [hup] at h1 h2
    rcases h1 with ⟨hP1, c1, _⟩ | ⟨hP1, m1, _⟩ <;> rcases h2 with ⟨hP2, c2, _⟩ | ⟨hP2, m2, _⟩
    · exact reconciled_keyed st.upstream P hkey hPkeys d1 d2 c1 c2 hk
    · exact absurd hP2 hP1
    · exact absurd hP1 hP2
    · exact hkey d1 m1 d2 m2 hk

theorem register_reconciles_witness :
    upstreamRegistry.Register exampleStore "auto" examplePublished =
      { upstream :=
          [{ ChainID := "1", Source := "auto", Rpc := "http://a", CreatedAt := 1 },
           { ChainID := "56", Source := "auto", Rpc := "http://b2", CreatedAt := 5 },
           { ChainID := "1", Source := "manual", Rpc := "http://m", CreatedAt := 1 },
           { ChainID := "137", Source := "auto", Rpc := "http://d", CreatedAt := 5 }],
        readyUpstream :=
          [{ ChainID := "56", Source := "auto", Rpc := "http://b", CreatedAt := 1 },
           { ChainID := "1", Source := "manual", Rpc := "http://m", CreatedAt := 1 }] } ∧
    (∀ c rpc,
      (∃ row ∈ (upstreamRegistry.Register exampleStore "auto" examplePublished).upstream,
        row.Source = "auto" ∧ row.ChainID = c ∧ row.Rpc = rpc) ↔
      (∃ p ∈ examplePublished, p.ChainID = c ∧ p.Rpc = rpc)) :=
  ⟨by decide,
    (register_reconciles exampleStore "auto" examplePublished (by decide) (by decide)
      (by decide)).2.2.1⟩

/-- C19 fails as stated on a `ready_upstream` row without an `upstream` row: the
row of the source `auto` on chain 250, a chain absent from the published list,
is still in `ready_upstream` after `Register`, which removes the ready rows only
as counterparts of the `upstream` rows it deletes; on an empty published list
the row is removed with every other ready row of the source. -/
theorem register_keeps_orphan_ready_row :
    (∀ p ∈ examplePublished, p.Source = "auto" ∧ p.ChainID ≠ "250") ∧
    ({ ChainID := "250", Source := "auto", Rpc := "http://o", CreatedAt := 1 } : UpstreamRow) ∈
      (upstreamRegistry.Register orphanStore "auto" examplePublished).readyUpstream ∧
    (upstreamRegistry.Register orphanStore "auto" examplePublished).readyUpstream =
      [{ ChainID := "56", Source := "auto", Rpc := "http://b", CreatedAt := 1 },
       { ChainID := "1", Source := "manual", Rpc := "http://m", CreatedAt := 1 },
       { ChainID := "250", Source := "auto", Rpc := "http://o", CreatedAt := 1 }] ∧
    (upstreamRegistry.Register orphanStore "auto" []).readyUpstream =
      [{ ChainID := "1", Source := "manual", Rpc := "http://m", CreatedAt := 1 }] := by
  refine ⟨by decide, by decide, by decide, by decide⟩

theorem mem_refreshSource (t : Table) (s : String) (P : Table) (row : UpstreamRow)
    (hsrc : ∀ p ∈ P, p.Source = s)
    (hchains : (P.map (fun r => r.ChainID)).Nodup)
    (hkey : ∀ d1 ∈ t, ∀ d2 ∈ t, d1.key = d2.key → d1 = d2) :
    row ∈ upstreamRegistry.refreshSource t s P ↔
      (row ∈ t ∧ ∀ p ∈ P, p.key = row.key → p.Rpc = row.Rpc) ∨
        (row ∈ P ∧ ∀ d ∈ t, d.key = row.key → d.Rpc ≠ row.Rpc) := by
  unfold upstreamRegistry.refreshSource
  by_cases hlen : P.length = 0
  · rw [List.length_eq_zero] at hlen
    subst hlen
    simp
  · simp only [hlen, if_false]
    exact mem_reconciled t s P row hsrc hchains hkey

theorem mem_refresh_fold :
    ∀ (group : List (String × Table)) (t : Table),
      (group.map Prod.fst).Nodup →
      (∀ g ∈ group, ∀ p ∈ g.2, p.Source = g.1) →
      (∀ g ∈ group, (g.2.map (fun r => r.ChainID)).Nodup) →
      (∀ d1 ∈ t, ∀ d2 ∈ t, d1.key = d2.key → d1 = d2) →
      ∀ row,
        (row ∈ group.foldl (fun t g => upstreamRegistry.refreshSource t g.1 g.2) t ↔
          (row ∈ t ∧ ∀ g ∈ group, ∀ p ∈ g.2, p.key = row.key → p.Rpc = row.Rpc) ∨
            (∃ g ∈ group, row ∈ g.2 ∧ ∀ d ∈ t, d.key = row.key → d.Rpc ≠ row.Rpc)) := by
  intro group
  induction group with
  | nil => intro t _ _ _ row; simp
  | cons g rest ih =>
    intro t hnd hsrc hchains hkey row
    simp only [List.map_cons, List.nodup_cons] at hnd
    have hsrcg := hsrc g (List.mem_cons_self _ _)
    have hchg := hchains g (List.mem_cons_self _ _)
    have hchar := fun r => mem_refreshSource t g.1 g.2 r hsrcg hchg hkey
    have hkey1 : ∀ d1 ∈ upstreamRegistry.refreshSource t g.1 g.2,
        ∀ d2 ∈ upstreamRegistry.refreshSource t g.1 g.2, d1.key = d2.key → d1 = d2 := by
      intro d1 h1 d2 h2 hk
      exact reconciled_keyed t g.2 hkey (keys_nodup_of_chains g.2 hchg) d1 d2
        ((hchar d1).mp h1) ((hchar d2).mp h2) hk
    have hother : ∀ g2 ∈ rest, g2.1 ≠ g.1 := by
      intro g2 hg2 he
      exact hnd.1 (List.mem_map.mpr ⟨g2, hg2, he⟩)
    -- a row of another source is in the table after the step iff it was before
    have hX : ∀ r : UpstreamRow, r.Source ≠ g.1 →
        (r ∈ upstreamRegistry.refreshSource t g.1 g.2 ↔ r ∈ t) := by
      intro r hr
      rw [hchar]
      constructor
      · rintro (⟨h, _⟩ | ⟨h, _⟩)
        · exact h
        · exact absurd (hsrcg r h) hr
      · intro h
        left
        refine ⟨h, ?_⟩
        intro p hp hk
        exact absurd ((key_source_chain _ _ hk).1.symm.trans (hsrcg p hp)) hr
    simp only [List.foldl_cons]
    rw [ih _ hnd.2 (fun g2 hg2 => hsrc g2 (List.mem_cons_of_mem _ hg2))
      (fun g2 hg2 => hchains g2 (List.mem_cons_of_mem _ hg2)) hkey1 row]
    constructor
    · rintro (⟨hr, hall⟩ | ⟨g2, hg2, hr, hall⟩)
      · rcases (hchar row).mp hr with ⟨h, a⟩ | ⟨h, a⟩
        · left
          refine ⟨h, ?_⟩
          intro g2 hg2
          rcases List.mem_cons.mp hg2 with hg2 | hg2
          · rw [hg2]; exact a
          · exact hall g2 hg2
        · right
          exact ⟨g, List.mem_cons_self _ _, h, a⟩
      · right
        refine ⟨g2, List.mem_cons_of_mem _ hg2, hr, ?_⟩
        intro d hd hk
        have hds : d.Source ≠ g.1 := by
          rw [(key_source_chain _ _ hk).1, hsrc g2 (List.mem_cons_of_mem _ hg2) row hr]
          exact hother g2 hg2
        exact hall d ((hX d hds).mpr hd) hk
    · rintro (⟨hr, hall⟩ | ⟨g2, hg2, hr, hall⟩)
      · left
        refine ⟨(hchar row).mpr (Or.inl ⟨hr, hall g (List.mem_cons_self _ _)⟩), ?_⟩
        intro g2 hg2
        exact hall g2 (List.mem_cons_of_mem _ hg2)
      · rcases List.mem_cons.mp hg2 with hg2 | hg2
        · subst hg2
          left
          refine ⟨(hchar row).mpr (Or.inr ⟨hr, hall⟩), ?_⟩
          intro g3 hg3 p hp hk
          have h1 : p.Source = g3.1 := hsrc g3 (List.mem_cons_of_mem _ hg3) p hp
          have h2 : row.Source = g2.1 := hsrcg row hr
          exact absurd (h1.symm.trans ((key_source_chain _ _ hk).1.trans h2)) (hother g3 hg3)
        · right
          refine ⟨g2, hg2, hr, ?_⟩
          intro d hd hk
          have hds : d.Source ≠ g.1 := by
            rw [(key_source_chain _ _ hk).1, hsrc g2 (List.mem_cons_of_mem _ hg2) row hr]
            exact hother g2 hg2
          exact hall d ((hX d hds).mp hd) hk

/-- C20, amended. `Refresh(group)` over a group of distinct sources, each list
carrying its source with distinct chain ids, on a `ready_upstream` table with at
most one row per source and chain id, every query succeeding: the `upstream`
table is not touched; the `ready_upstream` rows afterwards are the published
entries that were new or had a different rpc, as published, and every stored
row that no published entry of another rpc replaces; so a stored row whose
chain id is absent from the published list of its source stays. -/
theorem refresh_upserts (st : Store) (group : List (String × Table))
    (hgroup : (group.map Prod.fst).Nodup)
    (hsrc : ∀ g ∈ group, ∀ p ∈ g.2, p.Source = g.1)
    (hchains : ∀ g ∈ group, (g.2.map (fun r => r.ChainID)).Nodup)
    (hkey : ∀ d1 ∈ st.readyUpstream, ∀ d2 ∈ st.readyUpstream, d1.key = d2.key → d1 = d2) :
    (upstreamRegistry.Refresh st group).upstream = st.upstream ∧
    (∀ row, row ∈ (upstreamRegistry.Refresh st group).readyUpstream ↔
      (row ∈ st.readyUpstream ∧ ∀ g ∈ group, ∀ p ∈ g.2, p.key = row.key → p.Rpc = row.Rpc) ∨
        (∃ g ∈ group, row ∈ g.2 ∧
          ∀ d ∈ st.readyUpstream, d.key = row.key → d.Rpc ≠ row.Rpc)) ∧
    (∀ row ∈ st.readyUpstream, (∀ g ∈ group, ∀ p ∈ g.2, p.ChainID ≠ row.ChainID) →
      row ∈ (upstreamRegistry.Refresh st group).readyUpstream) := by
  have hmem := mem_refresh_fold group st.readyUpstream hgroup hsrc hchains hkey
  refine ⟨rfl, hmem, ?_⟩
  intro row hrow habs
  apply (hmem row).mpr
  left
  refine ⟨hrow, ?_⟩
  intro g hg p hp hk
  exact absurd (key_source_chain _ _ hk).2 (habs g hg p hp)

/-- C20 fails as stated: `Refresh` has no delete step. With the ready rows of
chains 56 and 97 stored for the source `auto` and a published list that holds
chain 56 only, with another rpc, the row of chain 56 is updated and the row of
chain 97 stays; `Register` on the same list removes it. -/
theorem refresh_keeps_absent_row :
    (upstreamRegistry.Refresh exampleStore
        [("auto", [{ ChainID := "56", Source := "auto", Rpc := "http://b2", CreatedAt := 5 }])]
      ).readyUpstream =
      [{ ChainID := "56", Source := "auto", Rpc := "http://b2", CreatedAt := 5 },
       { ChainID := "97", Source := "auto", Rpc := "http://c", CreatedAt := 1 },
       { ChainID := "1", Source := "manual", Rpc := "http://m", CreatedAt := 1 }] ∧
    (upstreamRegistry.Register exampleStore "auto"
        [{ ChainID := "56", Source := "auto", Rpc := "http://b2", CreatedAt := 5 }]
      ).readyUpstream =
      [{ ChainID := "56", Source := "auto", Rpc := "http://b", CreatedAt := 1 },
       { ChainID := "1", Source := "manual", Rpc := "http://m", CreatedAt := 1 }] := by
  decide

theorem refresh_upserts_witness :
    (upstreamRegistry.Refresh exampleStore [("auto", examplePublished), ("manual", [])]
      ).readyUpstream =
      [{ ChainID := "56", Source := "auto", Rpc := "http://b2", CreatedAt := 5 },
       { ChainID := "97", Source := "auto", Rpc := "http://c", CreatedAt := 1 },
       { ChainID := "1", Source := "manual", Rpc := "http://m", CreatedAt := 1 },
       { ChainID := "1", Source := "auto", Rpc := "http://a", CreatedAt := 5 },
       { ChainID := "137", Source := "auto", Rpc := "http://d", CreatedAt := 5 }] ∧
    (∀ row ∈ exampleStore.readyUpstream,
      (∀ g ∈ [("auto", examplePublished), ("manual", ([] : Table))],
        ∀ p ∈ g.2, p.ChainID ≠ row.ChainID) →
      row ∈ (upstreamRegistry.Refresh exampleStore
        [("auto", examplePublished), ("manual", [])]).readyUpstream) :=
  ⟨by decide,
    (refresh_upserts exampleStore [("auto", examplePublished), ("manual", [])]
      (by decide) (by decide) (by decide) (by decide)).2.2⟩

/-! ## ValidCondition (C23) -/

theorem filter_length_zero_iff {α : Type} (p : α → Bool) (l : List α) :
    (l.filter p).length = 0 ↔ ∀ m ∈ l, p m = false := by
  rw [List.length_eq_zero, List.filter_eq_nil_iff]
  simp

/-- C23, amended. The four `ValidCondition` methods: ValueMatch and Manual keep
the matchers of type "=" and "!=" in their order and return an error iff none
remains; BlockHeight with an empty payload returns an error and leaves the
matchers as they are, and with a payload keeps the matchers of type "<" and
"<=" and returns an error iff none remains; Simple leaves the matchers as they
are and returns an error iff the payload is empty. A second call returns the
same error and leaves the same condition as the first. -/
theorem validCondition_filters (c : HealthCheckCondition) :
    ((valueMatchChecker.ValidCondition c).2 = { c with
        Matchers := c.Matchers.filter (fun m => m.MatchType == "=" || m.MatchType == "!=") } ∧
      ((valueMatchChecker.ValidCondition c).1.isSome ↔
        ∀ m ∈ c.Matchers, (m.MatchType == "=" || m.MatchType == "!=") = false) ∧
      valueMatchChecker.ValidCondition (valueMatchChecker.ValidCondition c).2 =
        valueMatchChecker.ValidCondition c) ∧
    ((manualChecker.ValidCondition c).2 = { c with
        Matchers := c.Matchers.filter (fun m => m.MatchType == "=" || m.MatchType == "!=") } ∧
      ((manualChecker.ValidCondition c).1.isSome ↔
        ∀ m ∈ c.Matchers, (m.MatchType == "=" || m.MatchType == "!=") = false) ∧
      manualChecker.ValidCondition (manualChecker.ValidCondition c).2 =
        manualChecker.ValidCondition c) ∧
    ((blockHeightChecker.ValidCondition c).2 =
        (if c.Payload = "" then c else { c with
          Matchers := c.Matchers.filter (fun m => m.MatchType == "<" || m.MatchType == "<=") }) ∧
      ((blockHeightChecker.ValidCondition c).1.isSome ↔
        c.Payload = "" ∨
          ∀ m ∈ c.Matchers, (m.MatchType == "<" || m.MatchType == "<=") = false) ∧
      blockHeightChecker.ValidCondition (blockHeightChecker.ValidCondition c).2 =
        blockHeightChecker.ValidCondition c) ∧
    ((simpleChecker.ValidCondition c).2 = c ∧
      ((simpleChecker.ValidCondition c).1.isSome ↔ c.Payload = "") ∧
      simpleChecker.ValidCondition (simpleChecker.ValidCondition c).2 =
        simpleChecker.ValidCondition c) ∧
    List.Sublist (c.Matchers.filter (fun m => m.MatchType == "=" || m.MatchType == "!="))
      c.Matchers ∧
    List.Sublist (c.Matchers.filter (fun m => m.MatchType == "<" || m.MatchType == "<="))
      c.Matchers := by
  refine ⟨⟨?_, ?_, ?_⟩, ⟨?_, ?_, ?_⟩, ⟨?_, ?_, ?_⟩, ⟨?_, ?_, ?_⟩, List.filter_sublist _,
    List.filter_sublist _⟩
  · unfold valueMatchChecker.ValidCondition
    dsimp only
    split <;> rfl
  · unfold valueMatchChecker.ValidCondition
    dsimp only
    rw [← filter_length_zero_iff]
    split <;> simp_all
  · unfold valueMatchChecker.ValidCondition
    dsimp only
    split <;> simp_all [List.filter_filter]
  · unfold manualChecker.ValidCondition
    dsimp only
    split <;> rfl
  · unfold manualChecker.ValidCondition
    dsimp only
    rw [← filter_length_zero_iff]
    split <;> simp_all
  · unfold manualChecker.ValidCondition
    dsimp only
    split <;> simp_all [List.filter_filter]
  · unfold blockHeightChecker.ValidCondition
    by_cases hp : c.Payload = ""
    · simp [hp]
    · simp only [beq_iff_eq, hp, if_false]
      split <;> rfl
  · unfold blockHeightChecker.ValidCondition
    by_cases hp : c.Payload = ""
    · simp [hp]
    · simp only [beq_iff_eq, hp, if_false, false_or]
      rw [← filter_length_zero_iff]
      split <;> simp_all
  · unfold blockHeightChecker.ValidCondition
    by_cases hp : c.Payload = ""
    · simp [hp]
    · simp only [beq_iff_eq, hp, if_false]
      split <;> simp_all [List.filter_filter]
  · unfold simpleChecker.ValidCondition
    split <;> rfl
  · unfold simpleChecker.ValidCondition
    by_cases hp : c.Payload = "" <;> simp [hp]
  · unfold simpleChecker.ValidCondition
    by_cases hp : c.Payload = "" <;> simp [hp]

/-- C23 fails as stated on a BlockHeight condition with an empty payload: the
error is returned before the matchers are filtered, and the matcher of type "="
stays in the condition. -/
theorem blockHeight_validCondition_keeps_matchers :
    blockHeightChecker.ValidCondition emptyPayloadCondition =
      (some "invalid or empty payload", emptyPayloadCondition) ∧
    emptyPayloadCondition.Matchers.map (fun m => m.MatchType) = ["=", "<"] := by
  decide

theorem validCondition_filters_witness :
    (valueMatchChecker.ValidCondition mixedCondition).2.Matchers.map (fun m => m.MatchType) =
      ["!=", "="] ∧
    (blockHeightChecker.ValidCondition mixedCondition).2.Matchers.map (fun m => m.MatchType) =
      ["<", "<="] ∧
    (valueMatchChecker.ValidCondition mixedCondition).1 = none ∧
    valueMatchChecker.ValidCondition (valueMatchChecker.ValidCondition mixedCondition).2 =
      valueMatchChecker.ValidCondition mixedCondition :=
  ⟨by decide, by decide, by decide, (validCondition_filters mixedCondition).1.2.2⟩

/-! ## The common checker (C24) -/

theorem create_none_iff {X : Type} (strategy : String) :
    (CommonChecker.create strategy : Option (HealthChecker X)) = none ↔
      strategy ≠ "ValueMatch" ∧ strategy ≠ "BlockHeight" ∧ strategy ≠ "Simple" ∧
        strategy ≠ "Manual" ∧ strategy ≠ "GrpcBlockHeight" := by
  unfold CommonChecker.create
  by_cases h1 : strategy = "ValueMatch"
  · simp [h1]
  by_cases h2 : strategy = "BlockHeight"
  · simp [h2]
  by_cases h3 : strategy = "Simple"
  · simp [h3]
  by_cases h4 : strategy = "Manual"
  · simp [h4]
  by_cases h5 : strategy = "GrpcBlockHeight"
  · simp [h5]
  simp [h1, h2, h3, h4, h5]

/-- C24, amended. `CommonChecker.Check` on a non-empty URL list. With no checker
registered for the strategy: a strategy outside the five returns an error and
leaves the registry and the calls as they are; a strategy of the five whose
`ValidCondition` rejects the condition returns that error with the new checker
stored in the registry, `ValidCondition` called once and `Check` not called.
With a checker registered for the strategy the registry stays as it is, and
`ValidCondition` of that checker is called exactly once, followed by exactly one
call of its `Check` when it accepts the condition and by none when it rejects
it. -/
theorem commonChecker_dispatch {X σ : Type}
    (validInstalled : X → HealthCheckCondition → Option String × HealthCheckCondition)
    (check : HealthChecker X → String → List String → HealthCheckCondition → σ →
      Except CheckErr (GoMap Bool) × σ)
    (c : CommonChecker X × σ) (chainId : String) (urls : List String)
    (condition : HealthCheckCondition) (hurls : urls ≠ []) :
    (c.1.checkers.get? condition.CheckStrategy = none →
      (condition.CheckStrategy ≠ "ValueMatch" ∧ condition.CheckStrategy ≠ "BlockHeight" ∧
        condition.CheckStrategy ≠ "Simple" ∧ condition.CheckStrategy ≠ "Manual" ∧
        condition.CheckStrategy ≠ "GrpcBlockHeight") →
      CommonChecker.Check validInstalled check c chainId urls condition =
        (.error (.notSupported condition.CheckStrategy), c)) ∧
    (∀ checker message, c.1.checkers.get? condition.CheckStrategy = none →
      CommonChecker.create condition.CheckStrategy = some checker →
      (checker.ValidCondition validInstalled condition).1 = some message →
      (CommonChecker.Check validInstalled check c chainId urls condition).1 =
          .error (.invalid message) ∧
        (CommonChecker.Check validInstalled check c chainId urls condition).2.1.checkers =
          c.1.checkers.set condition.CheckStrategy checker ∧
        (CommonChecker.Check validInstalled check c chainId urls condition).2.1.checkers.get?
          condition.CheckStrategy = some checker ∧
        (CommonChecker.Check validInstalled check c chainId urls condition).2.1.calls =
          c.1.calls ++ [.validCondition checker] ∧
        (CommonChecker.Check validInstalled check c chainId urls condition).2.2 = c.2) ∧
    (∀ checker, c.1.checkers.get? condition.CheckStrategy = some checker →
      (CommonChecker.Check validInstalled check c chainId urls condition).2.1.checkers =
          c.1.checkers ∧
        (∀ message, (checker.ValidCondition validInstalled condition).1 = some message →
          (CommonChecker.Check validInstalled check c chainId urls condition).1 =
              .error (.invalid message) ∧
            (CommonChecker.Check validInstalled check c chainId urls condition).2.1.calls =
              c.1.calls ++ [.validCondition checker]) ∧
        ((checker.ValidCondition validInstalled condition).1 = none →
          (CommonChecker.Check validInstalled check c chainId urls condition).1 =
              (match (check checker chainId urls
                  (checker.ValidCondition validInstalled condition).2 c.2).1 with
                | .ok ret => .ok ret
                | .error err => .error (.failed err)) ∧
            (CommonChecker.Check validInstalled check c chainId urls condition).2.1.calls =
              c.1.calls ++ [.validCondition checker, .check checker])) := by
  have hlen : ¬ (urls.length = 0) := by
    intro h
    exact hurls (List.length_eq_zero.mp h)
  refine ⟨?_, ?_, ?_⟩
  · intro hnone hout
    have hcreate := (create_none_iff (X := X) condition.CheckStrategy).mpr hout
    unfold CommonChecker.Check
    simp only [hlen, if_false, hnone, hcreate]
  · intro checker message hnone hcreate hvalid
    unfold CommonChecker.Check
    simp only [hlen, if_false, hnone, hcreate, hvalid]
    refine ⟨trivial, trivial, ?_, trivial, trivial⟩
    rw [GoMap.get?_set]
    simp
  · intro checker hsome
    unfold CommonChecker.Check
    simp only [hlen, if_false, hsome]
    refine ⟨?_, ?_, ?_⟩
    · cases hv : (checker.ValidCondition validInstalled condition).1 <;> simp
    · intro message hvalid
      simp [hvalid]
    · intro hvalid
      simp [hvalid]

/-- C24 fails as stated where the registered checker rejects the condition: a
checker registered for ValueMatch whose `ValidCondition` returns an error gets
that one call and no call of `Check`. -/
theorem registered_checker_rejecting_is_not_checked :
    (CommonChecker.Check fakeValid exampleCheck
        (({ checkers := [("ValueMatch", .installed (some "bad"))], calls := [] }
          : CommonChecker (Option String)), ())
        "1" ["http://rpc.example"] mixedCondition).1 = .error (.invalid "bad") ∧
    (CommonChecker.Check fakeValid exampleCheck
        (({ checkers := [("ValueMatch", .installed (some "bad"))], calls := [] }
          : CommonChecker (Option String)), ())
        "1" ["http://rpc.example"] mixedCondition).2.1.calls =
      [.validCondition (.installed (some "bad"))] := by
  constructor <;> rfl

theorem commonChecker_dispatch_witness :
    ["http://rpc.example"] ≠ ([] : List String) ∧
    (CommonChecker.Check fakeValid exampleCheck
        (({ checkers := [("ValueMatch", .installed none)], calls := [] }
          : CommonChecker (Option String)), ())
        "1" ["http://rpc.example"] mixedCondition).2.1.calls =
      [.validCondition (.installed none), .check (.installed none)] ∧
    (CommonChecker.Check fakeValid exampleCheck
        ((CommonChecker.New : CommonChecker (Option String)), ())
        "1" ["http://rpc.example"]
        { mixedCondition with CheckStrategy := "Unknown" }) =
      (.error (.notSupported "Unknown"), ((CommonChecker.New : CommonChecker (Option String)), ())) :=
  ⟨by decide, by rfl,
    (commonChecker_dispatch fakeValid exampleCheck
      ((CommonChecker.New : CommonChecker (Option String)), ()) "1" ["http://rpc.example"]
      { mixedCondition with CheckStrategy := "Unknown" } (by decide)).1 rfl (by decide)⟩

/-! ## The check-upstream job (C21, C28) -/

/-- C21 fails on the code: a checker error on one rule ends the run. With the
rejected rule visited first, the manual rule of chain 97 is not checked and
nothing is saved; with the manual rule visited first its ready set is saved. -/
theorem check_error_ends_the_tick :
    (checkUpstream exampleMainChecker (fun _ => true) exampleCandidates []
        [("auto", [rejectedRule, manualRule])] (CommonChecker.New, ())).checked = [("auto", "1")] ∧
    (checkUpstream exampleMainChecker (fun _ => true) exampleCandidates []
        [("auto", [rejectedRule, manualRule])] (CommonChecker.New, ())).saved = [] ∧
    (checkUpstream exampleMainChecker (fun _ => true) exampleCandidates []
        [("auto", [rejectedRule, manualRule])] (CommonChecker.New, ())).logged =
      ["check upstream fail"] ∧
    (checkUpstream exampleMainChecker (fun _ => true) exampleCandidates []
        [("auto", [manualRule, rejectedRule])] (CommonChecker.New, ())).saved =
      [{ ChainId := "97", Source := "auto",
         RPC := "https://data-seed-prebsc-1-s1.bnbchain.org:8545,https://data-seed-prebsc-2-s1.bnbchain.org:8545",
         Protocol := "jsonrpc" }] ∧
    (checkUpstream exampleMainChecker (fun _ => true) exampleCandidates []
        [("manual", [rejectedRule]), ("auto", [manualRule])] (CommonChecker.New, ())).saved = [] := by
  refine ⟨by decide, by decide, by decide, by decide, by decide⟩

/-- C28. On an empty condition list `HealthCheckConditionList.Check` returns the
empty map and no error for every URL list and checker, without a call of the
checker; the filter of the job, which reads a missing entry as false, then
keeps no URL, and an enabled rule with candidate URLs hands
`saveReadyUpsteam` an upstream with an empty rpc. -/
theorem empty_condition_list_publishes_nothing {σ ε : Type}
    (checker : σ → String → List String → HealthCheckCondition → Except ε (GoMap Bool) × σ)
    (chainId : String) (urls : List String) (s : σ) :
    HealthCheckConditionList.Check [] checker chainId urls s = (.ok [], s) ∧
    (HealthCheckConditionList.Check [] (recordingChecker checker) chainId urls
      ((s, []) : σ × CheckLog ε)).2.2 = [] ∧
    publishedUrls urls [] = [] ∧
    (∀ (save : client.Upstream → Bool) (jsonrpcs grpcs : GoMap (List String)) (source : String)
        (rule : client.CheckRule) (st : TickState σ),
      rule.Rules = [] → rule.Disabled = false → rule.ChainId = chainId →
      (if rule.Protocol == "grpc" then grpcs else jsonrpcs).get? rule.ChainId = some urls →
      (checkUpstream.rules checker save jsonrpcs grpcs source [rule] st).2.saved =
        if save { ChainId := rule.ChainId, Source := source, RPC := "",
                  Protocol := rule.Protocol }
        then st.saved ++ [{ ChainId := rule.ChainId, Source := source, RPC := "",
                            Protocol := rule.Protocol }]
        else st.saved) := by
  refine ⟨rfl, rfl, ?_, ?_⟩
  · simp [publishedUrls, GoMap.getD, GoMap.get?]
  · intro save jsonrpcs grpcs source rule st hrules hdis _ hurls
    have hpub : publishedUrls urls [] = [] := by simp [publishedUrls, GoMap.getD, GoMap.get?]
    have hjoin : String.intercalate "," ([] : List String) = "" := rfl
    simp only [checkUpstream.rules, hdis, Bool.false_eq_true, if_false, hurls, hrules,
      HealthCheckConditionList.Check, HealthCheckConditionList.loop, hpub, hjoin]
    split <;> rfl

theorem empty_condition_list_publishes_nothing_witness :
    (checkUpstream exampleMainChecker (fun _ => true) exampleCandidates []
        [("auto", [{ manualRule with Rules := [] }])] (CommonChecker.New, ())).saved =
      [{ ChainId := "97", Source := "auto", RPC := "", Protocol := "jsonrpc" }] ∧
    publishedUrls manualUrls [] = [] :=
  ⟨by decide,
    (empty_condition_list_publishes_nothing exampleMainChecker "97" manualUrls
      (CommonChecker.New, ())).2.2.1⟩

/-! ## A batch of three or more (C29) -/

theorem intercalate_go_length (sep a : String) :
    ∀ (m : Nat) (acc : String),
      (String.intercalate.go acc sep (List.replicate m a)).length =
        acc.length + m * (sep.length + a.length) := by
  intro m
  induction m with
  | zero => intro acc; simp [String.intercalate.go]
  | succ m ih =>
    intro acc
    simp only [List.replicate_succ, String.intercalate.go]
    rw [ih]
    simp only [String.length_append]
    ring

theorem intercalate_replicate_length (sep a : String) (n : Nat) :
    (String.intercalate sep (List.replicate (n + 1) a)).length =
      a.length + n * (sep.length + a.length) := by
  simp only [List.replicate_succ, String.intercalate]
  exact intercalate_go_length sep a n a

theorem map_status_of_no_error (rs : List JsonRPCResponse)
    (h : ∀ r ∈ rs, r.Error = none) :
    rs.map (fun jr => (responseStatus jr).1) = List.replicate rs.length "200" := by
  induction rs with
  | nil => rfl
  | cons r rest ih =>
    have hr := h r (List.mem_cons_self _ _)
    simp only [List.map_cons, List.length_cons, List.replicate_succ]
    rw [ih (fun x hx => h x (List.mem_cons_of_mem _ hx))]
    simp [responseStatus, hr]

/-- C29. For an HTTP 200 body that decodes as a batch of n >= 3 responses, each
with a null error: the status `withResponse` composes is "200" n times joined by
"&"; it is none of "200", "200&200", "3"; the attempt is not accepted and the
closure returns the retryable error; and when every chosen URL answers so, the
fan-out requests every chosen URL and ends with that error. -/
theorem batch_of_three_is_retried (codec : JsonCodec) (body : String)
    (rs : List JsonRPCResponse)
    (hone : codec.unmarshalResponse body = none)
    (hlist : codec.unmarshalResponses body = some rs)
    (hn : 3 ≤ rs.length)
    (hok : ∀ r ∈ rs, r.Error = none) :
    (∀ rt latency,
      (requestTraceBuilder.withResponse codec rt 200 body latency).1.Status =
        String.intercalate "&" (List.replicate rs.length "200")) ∧
    String.intercalate "&" (List.replicate rs.length "200") ≠ "200" ∧
    String.intercalate "&" (List.replicate rs.length "200") ≠ "200&200" ∧
    String.intercalate "&" (List.replicate rs.length "200") ≠ "3" ∧
    (∀ contentLength : Int, contentLength ≤ 5 * 1024 * 1024 →
      acceptedOutcome codec (.response 200 contentLength body true) = false) ∧
    (∀ (upstream : Nat → String → FetchOutcome) (latency : Nat → Int)
        (targetUrls : List String) (st : FanOutState) (contentLength : Int),
      contentLength ≤ 5 * 1024 * 1024 → st.attempted = [] →
      (∀ i url, upstream i url = .response 200 contentLength body true) →
      (fanOut codec upstream latency targetUrls st).2.attempted = targetUrls ∧
        (targetUrls ≠ [] →
          (fanOut codec upstream latency targetUrls st).1.2 ≠ none ∧
          (fanOut codec upstream latency targetUrls st).2.rt.Retries =
            st.rt.Retries + ((targetUrls.length : Int) - 1))) := by
  have hlen : (String.intercalate "&" (List.replicate rs.length "200")).length =
      3 + (rs.length - 1) * 4 := by
    obtain ⟨m, hm⟩ : ∃ m, rs.length = m + 1 := ⟨rs.length - 1, by omega⟩
    rw [hm, intercalate_replicate_length]
    simp
    rfl
  have hne : ∀ s : String, s.length < 11 →
      String.intercalate "&" (List.replicate rs.length "200") ≠ s := by
    intro s hs he
    rw [he] at hlen
    omega
  have hcompose : composeStatus codec 200 body =
      some (String.intercalate "&" (List.replicate rs.length "200"),
        String.intercalate "&" (rs.map (fun jr => (responseStatus jr).2))) := by
    have h0 : ¬ (rs.length = 0) := by omega
    simp only [composeStatus, ne_eq, not_true_eq_false, if_false, hone, hlist, h0,
      map_status_of_no_error rs hok]
  have hacc : ∀ contentLength : Int, contentLength ≤ 5 * 1024 * 1024 →
      acceptedOutcome codec (.response 200 contentLength body true) = false := by
    intro contentLength hcl
    have hnot : ¬ (contentLength > 5 * 1024 * 1024) := by omega
    simp only [acceptedOutcome, hnot, if_false, hcompose, Bool.true_and]
    have h1 := hne "200" (by decide)
    have h2 := hne "3" (by decide)
    have h3 := hne "200&200" (by decide)
    simp [h1, h2, h3]
  refine ⟨?_, hne "200" (by decide), hne "200&200" (by decide), hne "3" (by decide), hacc, ?_⟩
  · intro rt latency
    simp only [requestTraceBuilder.withResponse, hcompose]
  · intro upstream latency targetUrls st contentLength hcl hst hup
    have hrej : ∀ j, acceptedOutcome codec (upstream j (targetUrls.getD j "")) = false := by
      intro j
      rw [hup]
      exact hacc contentLength hcl
    obtain ⟨k, _, hk2, _, hatt, _, hlast, hfin⟩ :=
      fanOut_loop_spec codec upstream latency targetUrls st.rt.Retries targetUrls.length 0
        ((none, none), st) (by omega) (by simpa using hst) (by intro j hj; omega)
        (fun _ => rfl) (by intro h; omega)
    have hk : k = targetUrls.length := by
      by_contra hkne
      have hlt : k < targetUrls.length := by omega
      have := (hlast hlt).2
      rw [hrej] at this
      exact Bool.false_ne_true this
    subst hk
    unfold fanOut callFuncWithRetry
    refine ⟨?_, ?_⟩
    · rw [hatt, List.take_length]
    · intro hne0
      have hpos : 0 < targetUrls.length := List.length_pos.mpr hne0
      obtain ⟨h1, _, h3⟩ := hfin hpos
      refine ⟨?_, h1⟩
      intro hnone
      have := h3.mp hnone
      rw [hrej] at this
      exact Bool.false_ne_true this

theorem batch_of_three_is_retried_witness :
    (fanOut batchCodec (okUpstream "abc") (fun _ => 5) ["http://a", "http://b"] freshFanOut).2.attempted
      = ["http://a", "http://b"] ∧
    (fanOut batchCodec (okUpstream "abc") (fun _ => 5) ["http://a", "http://b"] freshFanOut).2.rt.Status
      = "200&200&200" ∧
    (fanOut batchCodec (okUpstream "abc") (fun _ => 5) ["http://a", "http://b"] freshFanOut).1
      = (some 200, some (.retryable 200)) ∧
    (fanOut batchCodec (okUpstream "ab") (fun _ => 5) ["http://a", "http://b"] freshFanOut).2.attempted
      = ["http://a"] ∧
    ∀ contentLength : Int, contentLength ≤ 5 * 1024 * 1024 →
      acceptedOutcome batchCodec (.response 200 contentLength "abc" true) = false :=
  ⟨by decide, by decide, by decide, by decide,
    (batch_of_three_is_retried batchCodec "abc"
      [{ Error := none }, { Error := none }, { Error := none }] rfl rfl (by decide)
      (by decide)).2.2.2.2.1⟩

/-! ## The method of a batch request (C30) -/

theorem intercalate_go_mem (sep : String) (c : Char) :
    ∀ (l : List String) (acc : String), c ∈ acc.data →
      c ∈ (String.intercalate.go acc sep l).data := by
  intro l
  induction l with
  | nil => intro acc h; simpa [String.intercalate.go] using h
  | cons a rest ih =>
    intro acc h
    simp only [String.intercalate.go]
    apply ih
    simp only [String.data_append, List.mem_append]
    exact Or.inl (Or.inl h)

theorem intercalate_two_mem (a b : String) (rest : List String) :
    '&' ∈ (String.intercalate "&" (a :: b :: rest)).data := by
  simp only [String.intercalate, String.intercalate.go]
  apply intercalate_go_mem
  simp only [String.data_append, List.mem_append]
  exact Or.inl (Or.inr (by decide))

theorem containsChars_singleton (c : Char) :
    ∀ l : List Char, containsChars l [c] = true ↔ c ∈ l := by
  intro l
  induction l with
  | nil => simp [containsChars]
  | cons x xs ih =>
    simp only [containsChars, Bool.or_eq_true, ih, List.mem_cons]
    constructor
    · rintro (h | h)
      · left
        simp only [List.isPrefixOf, Bool.and_eq_true, beq_iff_eq] at h
        exact h.1
      · exact Or.inr h
    · rintro (h | h)
      · left
        simp [List.isPrefixOf, h]
      · exact Or.inr h

theorem selectTargets_of_not_tx (rnd : RandSource) (endpointMap : GoMap (List String))
    (rp : requestParams) (htx : rp.isTxMethod = false) (mode : String) (targets : List String)
    (h : selectTargets rnd endpointMap rp = .ok (mode, targets)) :
    (mode = "paid_query" ∨ mode = "free_query") ∧ targets.length ≤ 4 := by
  unfold selectTargets at h
  simp only [htx, Bool.false_eq_true, if_false] at h
  split at h
  · simp at h
  split at h
  · simp at h
  split at h
  · simp only [Except.ok.injEq, Prod.mk.injEq] at h
    refine ⟨Or.inl h.1.symm, ?_⟩
    rw [← h.2, List.length_take]
    omega
  · have h3 : ((rnd.shuffle (endpointMap.getD "free" [])).take 3).length ≤ 3 := by
      rw [List.length_take]
      omega
    split at h
    · split at h
      · simp only [Except.ok.injEq, Prod.mk.injEq] at h
        refine ⟨Or.inr h.1.symm, ?_⟩
        rw [← h.2, List.length_append, List.length_singleton]
        omega
      · simp only [Except.ok.injEq, Prod.mk.injEq] at h
        refine ⟨Or.inr h.1.symm, ?_⟩
        rw [← h.2]
        omega
    · simp only [Except.ok.injEq, Prod.mk.injEq] at h
      refine ⟨Or.inr h.1.symm, ?_⟩
      rw [← h.2]
      omega

theorem applyRouteRules_without_key
    (unmarshal : String → Option (Option (GoMap methodRouteRule)))
    (config : ConfigResult) (skRouteRules : String) (rp rp1 : requestParams)
    (hglobal : ∀ g, decodedRules unmarshal config.valueOrEmpty = some g →
      g.get? rp.rpcMethod = none)
    (hkey : ∀ k, decodedRules unmarshal skRouteRules = some k → k.get? rp.rpcMethod = none)
    (h : applyRouteRules unmarshal config skRouteRules rp = .ok rp1) : rp1 = rp := by
  have hfinal : ∀ routeRules : Option (GoMap methodRouteRule),
      (routeRules.getD []).get? rp.rpcMethod = none →
      (match (routeRules.getD []).get? rp.rpcMethod with
        | some rule =>
          if rule.match rp.chainId then
            (Except.ok { rp with source := rule.Source } : Except RouteError requestParams)
          else .ok rp
        | none => .ok rp) = .ok rp1 → rp1 = rp := by
    intro routeRules hnone hres
    rw [hnone] at hres
    simp only [Except.ok.injEq] at hres
    exact hres.symm
  have hnil : GoMap.get? ([] : GoMap methodRouteRule) rp.rpcMethod = none := by
    simp [GoMap.get?]
  -- the global rules
  have hG : ∀ routeRules0 : Option (GoMap methodRouteRule),
      (if config.valueOrEmpty ≠ "" then unmarshal config.valueOrEmpty else some none) =
        some routeRules0 →
      (routeRules0.getD []).get? rp.rpcMethod = none := by
    intro routeRules0 hg
    by_cases hcv : config.valueOrEmpty = ""
    · simp only [hcv, ne_eq, not_true_eq_false, if_false, Option.some.injEq] at hg
      rw [← hg]
      exact hnil
    · simp only [ne_eq, hcv, not_false_eq_true, if_true] at hg
      apply hglobal
      simp [decodedRules, hcv, hg]
  have hK : ∀ skRules : Option (GoMap methodRouteRule),
      skRouteRules ≠ "" → unmarshal skRouteRules = some skRules →
      (skRules.getD []).get? rp.rpcMethod = none := by
    intro skRules hne hs
    apply hkey
    simp [decodedRules, hne, hs]
  unfold applyRouteRules at h
  cases hc : config with
  | failed => rw [hc] at h; simp at h
  | noRows =>
    rw [hc] at h hG
    simp only [ConfigResult.valueOrEmpty] at hG
    simp only at h
    cases hg : (if ("" : String) ≠ "" then unmarshal "" else some none) with
    | none => rw [hg] at h; simp at h
    | some routeRules0 =>
      rw [hg] at h
      simp only at h
      have hG0 := hG routeRules0 hg
      by_cases hsk : skRouteRules = ""
      · simp only [hsk, ne_eq, not_true_eq_false, if_false] at h
        exact hfinal routeRules0 hG0 h
      · simp only [ne_eq, hsk, not_false_eq_true, if_true] at h
        cases hu : unmarshal skRouteRules with
        | none => rw [hu] at h; simp at h
        | some skRules =>
          rw [hu] at h
          have hK0 := hK skRules hsk hu
          cases routeRules0 with
          | none =>
            simp only at h
            exact hfinal skRules hK0 h
          | some routeRules =>
            simp only at h
            apply hfinal (some (GoMap.mergeInto routeRules (skRules.getD []))) _ h
            simp only [Option.getD_some, GoMap.get?_mergeInto, hK0]
            exact hG0
  | value v =>
    rw [hc] at h hG
    simp only [ConfigResult.valueOrEmpty] at hG
    simp only at h
    cases hg : (if v ≠ "" then unmarshal v else some none) with
    | none => rw [hg] at h; simp at h
    | some routeRules0 =>
      rw [hg] at h
      simp only at h
      have hG0 := hG routeRules0 hg
      by_cases hsk : skRouteRules = ""
      · simp only [hsk, ne_eq, not_true_eq_false, if_false] at h
        exact hfinal routeRules0 hG0 h
      · simp only [ne_eq, hsk, not_false_eq_true, if_true] at h
        cases hu : unmarshal skRouteRules with
        | none => rw [hu] at h; simp at h
        | some skRules =>
          rw [hu] at h
          have hK0 := hK skRules hsk hu
          cases routeRules0 with
          | none =>
            simp only at h
            exact hfinal skRules hK0 h
          | some routeRules =>
            simp only at h
            apply hfinal (some (GoMap.mergeInto routeRules (skRules.getD []))) _ h
            simp only [Option.getD_some, GoMap.get?_mergeInto, hK0]
            exact hG0

/-- C30. For a body that decodes as a batch of two or more requests:
`withRequest` records the "&"-join of the element methods and returns no error;
the joined method contains "&"; a request with that method is no transaction
method; its selection, when it returns URLs, is made in a query mode with at
most four URLs; and when neither the global rules nor the rules of the key hold
a rule keyed by the joined method, `applyRouteRules` leaves the request as it
is. -/
theorem batch_request_uses_query_policy (codec : RequestCodec) (body : String)
    (reqs : List JsonRPCRequest)
    (hone : codec.unmarshalRequest body = none)
    (hlist : codec.unmarshalRequests body = some reqs)
    (hn : 2 ≤ reqs.length) :
    (∀ rt visitorIp origin,
      (requestTraceBuilder.withRequest codec rt body visitorIp origin).1.Method =
          String.intercalate "&" (reqs.map (fun jr => jr.Method)) ∧
        (requestTraceBuilder.withRequest codec rt body visitorIp origin).2 = none) ∧
    stringsContains (String.intercalate "&" (reqs.map (fun jr => jr.Method))) "&" = true ∧
    (∀ rp : requestParams,
      rp.rpcMethod = String.intercalate "&" (reqs.map (fun jr => jr.Method)) →
      rp.isTxMethod = false ∧
      (∀ rnd endpointMap mode targets,
        selectTargets rnd endpointMap rp = .ok (mode, targets) →
        (mode = "paid_query" ∨ mode = "free_query") ∧ targets.length ≤ 4) ∧
      (∀ unmarshal config skRouteRules rp1,
        (∀ g, decodedRules unmarshal (ConfigResult.valueOrEmpty config) = some g →
          g.get? rp.rpcMethod = none) →
        (∀ k, decodedRules unmarshal skRouteRules = some k → k.get? rp.rpcMethod = none) →
        applyRouteRules unmarshal config skRouteRules rp = .ok rp1 → rp1 = rp)) := by
  obtain ⟨a, b, rest, hreqs⟩ : ∃ a b rest, reqs = a :: b :: rest := by
    rcases reqs with _ | ⟨a, _ | ⟨b, rest⟩⟩
    · simp at hn
    · simp at hn
    · exact ⟨a, b, rest, rfl⟩
  have hamp : '&' ∈ (String.intercalate "&" (reqs.map (fun jr => jr.Method))).data := by
    rw [hreqs]
    simp only [List.map_cons]
    exact intercalate_two_mem _ _ _
  have htx : ∀ rp : requestParams,
      rp.rpcMethod = String.intercalate "&" (reqs.map (fun jr => jr.Method)) →
      rp.isTxMethod = false := by
    intro rp hrp
    rw [← hrp] at hamp
    by_contra hcon
    simp only [Bool.not_eq_false] at hcon
    simp only [requestParams.isTxMethod, List.any_cons, List.any_nil, Bool.or_false,
      Bool.or_eq_true, beq_iff_eq] at hcon
    rcases hcon with h | h | h | h <;>
    · rw [← h] at hamp
      revert hamp
      decide
  refine ⟨?_, ?_, ?_⟩
  · intro rt visitorIp origin
    have hlen : ¬ (reqs.length = 0) := by omega
    simp [requestTraceBuilder.withRequest, requestList, hone, hlist, hlen]
  · unfold stringsContains
    exact (containsChars_singleton '&' _).mpr hamp
  · intro rp hrp
    refine ⟨htx rp hrp, ?_, ?_⟩
    · intro rnd endpointMap mode targets h
      exact selectTargets_of_not_tx rnd endpointMap rp (htx rp hrp) mode targets h
    · intro unmarshal config skRouteRules rp1 hg hk h
      exact applyRouteRules_without_key unmarshal config skRouteRules rp rp1 hg hk h

theorem batch_request_uses_query_policy_witness :
    (requestTraceBuilder.withRequest exampleRequestCodec (newRequestTraceBuilder "svc" "grp")
        "[tx,call]" "" "").1.Method = "eth_sendRawTransaction&eth_call" ∧
    requestParams.isTxMethod (exampleRequest "eth_sendRawTransaction&eth_call" "") = false ∧
    selectTargets exampleRand
        [("free", ["f1", "f2", "f3", "f4"]), ("paid", ["p1"])]
        (exampleRequest "eth_sendRawTransaction&eth_call" "") =
      .ok ("free_query", ["f4", "f3", "f2", "p1"]) ∧
    selectTargets exampleRand
        [("free", ["f1", "f2", "f3", "f4"]), ("paid", ["p1"])]
        (exampleRequest "eth_sendRawTransaction" "") = .ok ("paid_tx", ["p1"]) ∧
    stringsContains (String.intercalate "&"
      ([({ ID := "1", Method := "eth_sendRawTransaction" } : JsonRPCRequest),
        { ID := "2", Method := "eth_call" }].map (fun jr => jr.Method))) "&" = true :=
  ⟨by decide, by decide, by decide, by decide,
    (batch_request_uses_query_policy exampleRequestCodec "[tx,call]"
      [{ ID := "1", Method := "eth_sendRawTransaction" }, { ID := "2", Method := "eth_call" }]
      rfl rfl (by decide)).2.1⟩

/-! ## The manual checker of pkg/checker (C25) -/

/-- C25 fails on the code: with the single matcher {=, ".*data-seed-prebsc.*"}
the check returns true for the two URLs that match the regex and false for the
one that does not, the opposite of what the claim and `Test_manualChecker_check`
expect. -/
theorem pkg_manual_check_marks_matching_true :
    pkg_checker.manualChecker.check miniRegexp manualUrls manualCondition =
      .ok [("https://bsc-testnet.publicnode.com", false),
           ("https://data-seed-prebsc-2-s1.bnbchain.org:8545", true),
           ("https://data-seed-prebsc-1-s1.bnbchain.org:8545", true)] := by
  decide

/-! ## Parsing a height (C26) -/

theorem digitValue_digitChar (d : Nat) (hd : d < 16) :
    digitValue (Nat.digitChar d) = some d := by
  interval_cases d <;> rfl

theorem digitChar_not_sign (d : Nat) (hd : d < 16) :
    Nat.digitChar d ≠ '+' ∧ Nat.digitChar d ≠ '-' ∧ Nat.digitChar d ≠ 'x' := by
  interval_cases d <;> decide

theorem parseDigits_toDigitsCore (b : Nat) (hb1 : 1 < b) (hb16 : b ≤ 16) :
    ∀ (fuel n : Nat) (ds : List Char), n < fuel →
      parseDigits b (Nat.toDigitsCore b fuel n ds) 0 = parseDigits b ds n := by
  intro fuel
  induction fuel with
  | zero => intro n ds h; omega
  | succ fuel ih =>
    intro n ds hn
    have hmod : n % b < b := Nat.mod_lt _ (by omega)
    have hdv := digitValue_digitChar (n % b) (by omega)
    have hnot : ¬ (n % b ≥ b) := by omega
    simp only [Nat.toDigitsCore]
    by_cases hq : n / b = 0
    · simp only [hq, if_true, parseDigits, hdv, hnot, if_false, Nat.zero_mul, Nat.zero_add]
      have : n % b = n := Nat.mod_eq_of_lt ((Nat.div_eq_zero_iff (by omega)).mp hq)
      rw [this]
    · simp only [hq, if_false]
      have hlt : n / b < fuel := by
        have : n / b < n := Nat.div_lt_self (by
          rcases Nat.eq_zero_or_pos n with h0 | h0
          · subst h0; simp at hq
          · exact h0) hb1
        omega
      rw [ih (n / b) _ hlt]
      simp only [parseDigits, hdv, hnot, if_false]
      have : n / b * b + n % b = n := by
        rw [Nat.mul_comm]; exact Nat.div_add_mod n b
      rw [this]

theorem toDigitsCore_head (b : Nat) (hb1 : 1 < b) (hb16 : b ≤ 16) :
    ∀ (fuel n : Nat) (ds : List Char),
      ∃ c cs, Nat.toDigitsCore b (fuel + 1) n ds = c :: cs ∧
        ((∃ d, d < 16 ∧ c = Nat.digitChar d) ∧
         (cs = ds ∨ ∃ d c2 cs2, d < 16 ∧ c2 = Nat.digitChar d ∧ cs = c2 :: cs2)) := by
  intro fuel
  induction fuel with
  | zero =>
    intro n ds
    have hmod : n % b < 16 := lt_of_lt_of_le (Nat.mod_lt _ (by omega)) hb16
    simp only [Nat.toDigitsCore]
    by_cases hq : n / b = 0
    · simp only [hq, if_true]
      exact ⟨_, _, rfl, ⟨_, hmod, rfl⟩, Or.inl rfl⟩
    · simp only [hq, if_false]
      exact ⟨_, _, rfl, ⟨_, hmod, rfl⟩, Or.inl rfl⟩
  | succ fuel ih =>
    intro n ds
    have hmod : n % b < 16 := lt_of_lt_of_le (Nat.mod_lt _ (by omega)) hb16
    rw [Nat.toDigitsCore]
    by_cases hq : n / b = 0
    · simp only [hq, if_true]
      exact ⟨_, _, rfl, ⟨_, hmod, rfl⟩, Or.inl rfl⟩
    · simp only [hq, if_false]
      obtain ⟨c, cs, heq, hc, hcs⟩ := ih (n / b) (Nat.digitChar (n % b) :: ds)
      refine ⟨c, cs, heq, hc, ?_⟩
      rcases hcs with h | h
      · right
        exact ⟨n % b, Nat.digitChar (n % b), ds, hmod, rfl, h⟩
      · right
        exact h

theorem parseInt64_of_digits (b : Nat) (s : List Char) (c : Char) (cs : List Char) (n : Nat)
    (hs : s = c :: cs) (hplus : c ≠ '+') (hminus : c ≠ '-')
    (hparse : parseDigits b s 0 = some n) (hn : n < 2 ^ 63) :
    parseInt64 s b = some (n : Int) := by
  subst hs
  unfold parseInt64
  split
  · rename_i h; simp at h
  · rename_i h
    simp only [List.cons.injEq] at h
    exact absurd h.1 hplus
  · rename_i h
    simp only [List.cons.injEq] at h
    exact absurd h.1 hminus
  · have hnot : ¬ (n ≥ 2 ^ 63) := by omega
    have hlit : n < 9223372036854775808 := by
      have : (2 : Nat) ^ 63 = 9223372036854775808 := by norm_num
      omega
    simp [hparse, hlit]

theorem parseHeight_decimal (n : Nat) (hn : n < 2 ^ 63) :
    blockHeightChecker.parseHeight (toString n) = some (n : Int) := by
  obtain ⟨c, cs, heq, ⟨d, hd, hc⟩, hcs⟩ := toDigitsCore_head 10 (by decide) (by decide) n n []
  have hdata : (toString n).data = c :: cs := by
    show (Nat.repr n).data = c :: cs
    simp only [Nat.repr, Nat.toDigits, List.asString]
    exact heq
  have hsign := digitChar_not_sign d hd
  rw [← hc] at hsign
  have hparse : parseDigits 10 (c :: cs) 0 = some n := by
    rw [← heq, parseDigits_toDigitsCore 10 (by decide) (by decide) (n + 1) n [] (by omega)]
    rfl
  have hdec : parseInt64 (c :: cs) 10 = some (n : Int) :=
    parseInt64_of_digits 10 (c :: cs) c cs n rfl hsign.1 hsign.2.1 hparse hn
  unfold blockHeightChecker.parseHeight
  rw [hdata]
  split
  · rename_i rest h
    simp only [List.cons.injEq] at h
    rcases hcs with h1 | ⟨d2, c2, cs2, hd2, hc2, h2⟩
    · rw [h1] at h; simp at h
    · rw [h2] at h
      simp only [List.cons.injEq] at h
      have := (digitChar_not_sign d2 hd2).2.2
      rw [← hc2, h.2.1] at this
      exact absurd rfl this
  · exact hdec

theorem parseHeight_hex (n : Nat) (hn : n < 2 ^ 63) :
    blockHeightChecker.parseHeight ("0x" ++ String.mk (Nat.toDigits 16 n)) = some (n : Int) := by
  obtain ⟨c, cs, heq, ⟨d, hd, hc⟩, _⟩ := toDigitsCore_head 16 (by decide) (by decide) n n []
  have hsign := digitChar_not_sign d hd
  rw [← hc] at hsign
  have hparse : parseDigits 16 (c :: cs) 0 = some n := by
    rw [← heq, parseDigits_toDigitsCore 16 (by decide) (by decide) (n + 1) n [] (by omega)]
    rfl
  have hhex : parseInt64 (c :: cs) 16 = some (n : Int) :=
    parseInt64_of_digits 16 (c :: cs) c cs n rfl hsign.1 hsign.2.1 hparse hn
  have hdata : ("0x" ++ String.mk (Nat.toDigits 16 n)).data = '0' :: 'x' :: c :: cs := by
    simp only [String.data_append, Nat.toDigits]
    rw [heq]
    rfl
  unfold blockHeightChecker.parseHeight
  rw [hdata]
  exact hhex

theorem parseDigits_iff (b : Nat) :
    ∀ (ds : List Char) (acc r : Nat),
      parseDigits b ds acc = some r ↔
        (∀ c ∈ ds, isDigitOf b c = true) ∧ r = acc * b ^ ds.length + numeralValue b ds := by
  intro ds
  induction ds with
  | nil =>
    intro acc r
    simp only [parseDigits, Option.some.injEq, List.not_mem_nil, false_implies, implies_true,
      true_and, List.length_nil, pow_zero, mul_one, numeralValue, List.reverse_nil, List.map_nil,
      Nat.ofDigits_nil, add_zero]
    exact eq_comm
  | cons c cs ih =>
    intro acc r
    have hval : ∀ d, digitValue c = some d →
        numeralValue b (c :: cs) = d * b ^ cs.length + numeralValue b cs := by
      intro d hd
      simp only [numeralValue, List.reverse_cons, List.map_append, List.map_cons, List.map_nil,
        Nat.ofDigits_append, List.length_map, List.length_reverse, hd, Option.getD_some,
        Nat.ofDigits_singleton]
      ring
    simp only [parseDigits, List.mem_cons, forall_eq_or_imp, isDigitOf]
    cases hd : digitValue c with
    | none => simp
    | some d =>
      simp only
      by_cases hlt : d < b
      · have hge : ¬ (d ≥ b) := by omega
        simp only [hge, if_false, ih, hlt, decide_True, true_and, hval d hd, List.length_cons]
        constructor
        · rintro ⟨h1, h2⟩
          refine ⟨h1, ?_⟩
          rw [h2]; ring
        · rintro ⟨h1, h2⟩
          refine ⟨h1, ?_⟩
          rw [h2]; ring
      · have hge : d ≥ b := by omega
        simp [hge, hlt]

theorem isDigitOf_not_sign (b : Nat) (c : Char) (h : isDigitOf b c = true) :
    c ≠ '+' ∧ c ≠ '-' := by
  constructor
  · intro hc
    rw [hc] at h
    revert h
    simp [isDigitOf, digitValue]
  · intro hc
    rw [hc] at h
    revert h
    simp [isDigitOf, digitValue]

theorem parseInt64_body_iff (b : Nat) (neg : Bool) (digits : List Char) (v : Int) :
    (match digits with
      | [] => (none : Option Int)
      | _ =>
        match parseDigits b digits 0 with
        | none => none
        | some un =>
          if !neg && un ≥ 2 ^ 63 then none
          else if neg && un > 2 ^ 63 then none
          else some (if neg then -(un : Int) else (un : Int))) = some v ↔
      digits ≠ [] ∧ (∀ c ∈ digits, isDigitOf b c = true) ∧
        v = (if neg = true then -(numeralValue b digits : Int) else (numeralValue b digits : Int)) ∧
        -(2 : Int) ^ 63 ≤ v ∧ v < (2 : Int) ^ 63 := by
  have hlit : (2 : Nat) ^ 63 = 9223372036854775808 := by norm_num
  have hlitZ : (2 : Int) ^ 63 = 9223372036854775808 := by norm_num
  cases digits with
  | nil => simp
  | cons c cs =>
    simp only [ne_eq, reduceCtorEq, not_false_eq_true, true_and]
    cases hp : parseDigits b (c :: cs) 0 with
    | none =>
      have hno : ¬ (∀ x ∈ c :: cs, isDigitOf b x = true) := by
        intro hall
        have := (parseDigits_iff b (c :: cs) 0 (0 * b ^ (c :: cs).length + numeralValue b (c :: cs))).2
          ⟨hall, rfl⟩
        rw [hp] at this
        cases this
      refine ⟨fun h => (by cases h), fun h => ?_⟩
      exact absurd h.1 hno
    | some un =>
      obtain ⟨hall, hun⟩ := (parseDigits_iff b (c :: cs) 0 un).1 hp
      have hun2 : numeralValue b (c :: cs) = un := by rw [hun]; simp
      simp only [hun2]
      cases neg with
      | false =>
        simp only [Bool.not_false, Bool.true_and, Bool.false_and, decide_eq_true_eq,
          Bool.false_eq_true, if_false]
        by_cases hge : un ≥ 2 ^ 63
        · simp only [hge, if_true]
          refine ⟨fun h => (by cases h), fun h => ?_⟩
          exfalso
          rw [hlit] at hge
          rw [hlitZ] at h
          omega
        · simp only [hge, if_false, Option.some.injEq]
          constructor
          · intro h
            rw [hlit] at hge
            rw [hlitZ]
            refine ⟨hall, h.symm, ?_, ?_⟩ <;> omega
          · intro h
            exact h.2.1.symm
      | true =>
        simp only [Bool.not_true, Bool.false_and, Bool.true_and, decide_eq_true_eq,
          Bool.false_eq_true, if_false, if_true]
        by_cases hgt : un > 2 ^ 63
        · simp only [hgt, if_true]
          refine ⟨fun h => (by cases h), fun h => ?_⟩
          exfalso
          rw [hlit] at hgt
          rw [hlitZ] at h
          omega
        · simp only [hgt, if_false, Option.some.injEq]
          constructor
          · intro h
            rw [hlit] at hgt
            rw [hlitZ]
            refine ⟨hall, h.symm, ?_, ?_⟩ <;> omega
          · intro h
            exact h.2.1.symm

theorem parseInt64_iff (b : Nat) (s : List Char) (v : Int) :
    parseInt64 s b = some v ↔
      IsNumeral b s v ∧ -(2 : Int) ^ 63 ≤ v ∧ v < (2 : Int) ^ 63 := by
  unfold parseInt64
  simp only
  split
  · -- the empty string
    refine ⟨fun h => (by cases h), ?_⟩
    rintro ⟨⟨sign, digits, hs, hsign, hne, -, -⟩, -⟩
    exfalso
    rcases hsign with h | h | h <;> subst h
    · exact hne (by simpa using hs.symm)
    · simp at hs
    · simp at hs
  · -- a leading plus sign
    rename_i rest
    refine Iff.trans (parseInt64_body_iff b false rest v) ?_
    constructor
    · rintro ⟨hne, hall, hv, hlo, hhi⟩
      refine ⟨⟨['+'], rest, rfl, Or.inr (Or.inl rfl), hne, hall, ?_⟩, hlo, hhi⟩
      simpa using hv
    · rintro ⟨⟨sign, digits, hs, hsign, hne, hall, hv⟩, hlo, hhi⟩
      rcases hsign with h | h | h <;> subst h
      · simp only [List.nil_append] at hs
        subst hs
        exact absurd rfl (isDigitOf_not_sign b '+' (hall '+' (List.mem_cons_self _ _))).1
      · simp only [List.singleton_append, List.cons.injEq, true_and] at hs
        subst hs
        refine ⟨hne, hall, ?_, hlo, hhi⟩
        simpa using hv
      · simp at hs
  · -- a leading minus sign
    rename_i rest
    refine Iff.trans (parseInt64_body_iff b true rest v) ?_
    constructor
    · rintro ⟨hne, hall, hv, hlo, hhi⟩
      refine ⟨⟨['-'], rest, rfl, Or.inr (Or.inr rfl), hne, hall, ?_⟩, hlo, hhi⟩
      simpa using hv
    · rintro ⟨⟨sign, digits, hs, hsign, hne, hall, hv⟩, hlo, hhi⟩
      rcases hsign with h | h | h <;> subst h
      · simp only [List.nil_append] at hs
        subst hs
        exact absurd rfl (isDigitOf_not_sign b '-' (hall '-' (List.mem_cons_self _ _))).2
      · simp at hs
      · simp only [List.singleton_append, List.cons.injEq, true_and] at hs
        subst hs
        refine ⟨hne, hall, ?_, hlo, hhi⟩
        simpa using hv
  · -- no sign
    rename_i hnil hplus hminus
    refine Iff.trans (parseInt64_body_iff b false s v) ?_
    constructor
    · rintro ⟨hne, hall, hv, hlo, hhi⟩
      refine ⟨⟨[], s, rfl, Or.inl rfl, hne, hall, ?_⟩, hlo, hhi⟩
      simpa using hv
    · rintro ⟨⟨sign, digits, hs, hsign, hne, hall, hv⟩, hlo, hhi⟩
      rcases hsign with h | h | h <;> subst h
      · simp only [List.nil_append] at hs
        subst hs
        refine ⟨hne, hall, ?_, hlo, hhi⟩
        simpa using hv
      · exact absurd hs (hplus digits)
      · exact absurd hs (hminus digits)

theorem parseHeight_some_iff (val : String) (v : Int) :
    blockHeightChecker.parseHeight val = some v ↔
      ((∃ rest, val.data = '0' :: 'x' :: rest ∧ IsNumeral 16 rest v) ∨
        ((∀ rest, val.data ≠ '0' :: 'x' :: rest) ∧ IsNumeral 10 val.data v)) ∧
      -(2 : Int) ^ 63 ≤ v ∧ v < (2 : Int) ^ 63 := by
  unfold blockHeightChecker.parseHeight
  split
  · rename_i rest heq
    rw [parseInt64_iff]
    constructor
    · rintro ⟨hnum, hlo, hhi⟩
      exact ⟨Or.inl ⟨rest, heq, hnum⟩, hlo, hhi⟩
    · rintro ⟨h | h, hlo, hhi⟩
      · obtain ⟨rest2, h2, hnum⟩ := h
        rw [heq] at h2
        simp only [List.cons.injEq, true_and] at h2
        subst h2
        exact ⟨hnum, hlo, hhi⟩
      · exact absurd heq (h.1 rest)
  · rename_i cs hno
    rw [parseInt64_iff]
    constructor
    · rintro ⟨hnum, hlo, hhi⟩
      exact ⟨Or.inr ⟨fun rest h => hno rest h, hnum⟩, hlo, hhi⟩
    · rintro ⟨h | h, hlo, hhi⟩
      · obtain ⟨rest2, h2, -⟩ := h
        exact absurd h2 (hno rest2)
      · exact ⟨h.2, hlo, hhi⟩

/-- C26. Method `parseHeight` reads a height as decimal, or as hexadecimal after
a leading "0x": for every `n` below `2^63` the decimal digits of `n` and "0x"
followed by its hexadecimal digits both parse to `n` ("42" and "0x2a" give 42),
and a string is parsed to `v` exactly when what the selected base reads is a
numeral of value `v` that fits in int64, so that every other string, one that is
no numeral of the base or whose value is out of range, yields an error. -/
theorem parseHeight_reads_decimal_and_hex (n : Nat) (hn : n < 2 ^ 63) :
    blockHeightChecker.parseHeight (toString n) = some (n : Int) ∧
    blockHeightChecker.parseHeight ("0x" ++ String.mk (Nat.toDigits 16 n)) = some (n : Int) ∧
    blockHeightChecker.parseHeight "42" = some 42 ∧
    blockHeightChecker.parseHeight "0x2a" = some 42 ∧
    (∀ (val : String) (v : Int),
      blockHeightChecker.parseHeight val = some v ↔
        ((∃ rest, val.data = '0' :: 'x' :: rest ∧ IsNumeral 16 rest v) ∨
          ((∀ rest, val.data ≠ '0' :: 'x' :: rest) ∧ IsNumeral 10 val.data v)) ∧
        -(2 : Int) ^ 63 ≤ v ∧ v < (2 : Int) ^ 63) ∧
    (∀ (val : String),
      (¬ ∃ v : Int,
        ((∃ rest, val.data = '0' :: 'x' :: rest ∧ IsNumeral 16 rest v) ∨
          ((∀ rest, val.data ≠ '0' :: 'x' :: rest) ∧ IsNumeral 10 val.data v)) ∧
        -(2 : Int) ^ 63 ≤ v ∧ v < (2 : Int) ^ 63) →
      blockHeightChecker.parseHeight val = none) := by
  refine ⟨parseHeight_decimal n hn, parseHeight_hex n hn, by decide, by decide,
    parseHeight_some_iff, ?_⟩
  intro val hno
  cases h : blockHeightChecker.parseHeight val with
  | none => rfl
  | some v => exact absurd ⟨v, (parseHeight_some_iff val v).1 h⟩ hno

theorem parseHeight_reads_decimal_and_hex_witness :
    blockHeightChecker.parseHeight (toString 9223372036854775807) =
        some (9223372036854775807 : Int) ∧
      blockHeightChecker.parseHeight "9223372036854775808" = none ∧
      blockHeightChecker.parseHeight "0x" = none ∧
      blockHeightChecker.parseHeight "0x7fffffffffffffff" =
        some (9223372036854775807 : Int) :=
  ⟨(parseHeight_reads_decimal_and_hex 9223372036854775807 (by norm_num)).1,
    by decide, by decide, by decide⟩

/-! ## The height of a gRPC endpoint (C27) -/

theorem splitOnChar_ne_nil (sep : Char) (cs : List Char) : splitOnChar sep cs ≠ [] := by
  cases cs with
  | nil => simp [splitOnChar]
  | cons c cs =>
    simp only [splitOnChar]
    split
    · simp
    · split <;> simp

theorem splitOnChar_no_sep (sep : Char) (cs : List Char) (h : sep ∉ cs) :
    splitOnChar sep cs = [cs] := by
  induction cs with
  | nil => rfl
  | cons c cs ih =>
    simp only [List.mem_cons, not_or] at h
    have hc : ¬ c = sep := fun e => h.1 e.symm
    simp only [splitOnChar, hc, if_false, ih h.2]

theorem splitOnChar_first (sep : Char) (before after : List Char) (h : sep ∉ before) :
    splitOnChar sep (before ++ sep :: after) = before :: splitOnChar sep after := by
  induction before with
  | nil => simp [splitOnChar]
  | cons c cs ih =>
    simp only [List.mem_cons, not_or] at h
    have hc : ¬ c = sep := fun e => h.1 e.symm
    have hrec := ih h.2
    simp only [List.cons_append, splitOnChar, hc, if_false]
    rw [show cs.append (sep :: after) = cs ++ sep :: after from rfl, hrec]

theorem finish_eq (val : String) :
    grpcBlockHeightChecker.finish val = .ok ((blockHeightChecker.parseHeight val).getD (-1)) := by
  unfold grpcBlockHeightChecker.finish
  cases blockHeightChecker.parseHeight val <;> rfl

/-- C27, amended. Method `getHeight` of the gRPC checker, on a condition with a
matcher, the call, the template and the regex taken as given functions: a
payload that does not decode is an error, and so is a key whose template fails
to render on the response; a failed call, a field that renders empty or as
"<no value>", a regex after "|" that does not match, and a string that does not
parse all give the height -1 with a nil error; otherwise the height is
`parseHeight` of the rendered string, or of the first capture group when a
regex is given. The field is what stands before the first "|" of the key, and
"0x2a" under the key "result|^(0x[0-9a-fA-F]+)$" gives 42. -/
theorem grpc_getHeight_cases {V : Type} (env : GrpcEnv V) (url : String)
    (condition : HealthCheckCondition) (matcher : Matcher) (rest : List Matcher)
    (hm : condition.Matchers = matcher :: rest) :
    (env.unmarshalPayload condition.Payload = none →
      grpcBlockHeightChecker.getHeight env url condition = .error .payload) ∧
    (∀ payload, env.unmarshalPayload condition.Payload = some payload →
      (env.call url payload.Protoset payload.Service payload.Method = none →
        grpcBlockHeightChecker.getHeight env url condition = .ok (-1)) ∧
      (∀ values, env.call url payload.Protoset payload.Service payload.Method = some values →
        (env.render ((splitKey matcher.Key).headD "") values = none →
          grpcBlockHeightChecker.getHeight env url condition = .error .template) ∧
        (∀ val, env.render ((splitKey matcher.Key).headD "") values = some val →
          (val = "" ∨ val = "<no value>" →
            grpcBlockHeightChecker.getHeight env url condition = .ok (-1)) ∧
          (val ≠ "" → val ≠ "<no value>" →
            ((splitKey matcher.Key).length ≤ 1 →
              grpcBlockHeightChecker.getHeight env url condition =
                .ok ((blockHeightChecker.parseHeight val).getD (-1))) ∧
            (∀ find, 1 < (splitKey matcher.Key).length →
              env.compile ((splitKey matcher.Key).getD 1 "") = some find →
              (find val = [] →
                grpcBlockHeightChecker.getHeight env url condition = .ok (-1)) ∧
              (∀ whole group more, find val = whole :: group :: more →
                grpcBlockHeightChecker.getHeight env url condition =
                  .ok ((blockHeightChecker.parseHeight group).getD (-1)))))))) ∧
    ('|' ∉ matcher.Key.data → splitKey matcher.Key = [matcher.Key]) ∧
    (∀ before after, '|' ∉ before → matcher.Key.data = before ++ '|' :: after →
      (splitKey matcher.Key).headD "" = String.mk before ∧ 1 < (splitKey matcher.Key).length) ∧
    grpcBlockHeightChecker.getHeight (exampleGrpcEnv "0x2a") "localhost:9090"
      (grpcCondition "result|^(0x[0-9a-fA-F]+)$") = .ok 42 := by
  refine ⟨?_, ?_, ?_, ?_, by decide⟩
  · intro h
    simp only [grpcBlockHeightChecker.getHeight, h]
  · intro payload hp
    refine ⟨?_, ?_⟩
    · intro h
      simp only [grpcBlockHeightChecker.getHeight, hp, h]
    · intro values hc
      refine ⟨?_, ?_⟩
      · intro h
        simp only [grpcBlockHeightChecker.getHeight, hp, hc, hm, h]
      · intro val hr
        refine ⟨?_, ?_⟩
        · intro hv
          have hb : (val == "" || val == "<no value>") = true := by
            rcases hv with h | h <;> subst h <;> decide
          simp only [grpcBlockHeightChecker.getHeight, hp, hc, hm, hr, hb, if_true]
        · intro h1 h2
          have hb : (val == "" || val == "<no value>") = false := by
            simp [h1, h2]
          refine ⟨?_, ?_⟩
          · intro hlen
            have hl : ¬ (splitKey matcher.Key).length > 1 := by omega
            simp only [grpcBlockHeightChecker.getHeight, hp, hc, hm, hr, hb, hl, if_false,
              Bool.false_eq_true, finish_eq]
          · intro find hlen hcomp
            have hl : (splitKey matcher.Key).length > 1 := hlen
            refine ⟨?_, ?_⟩
            · intro hf
              simp only [grpcBlockHeightChecker.getHeight, hp, hc, hm, hr, hb, hl, if_true,
                if_false, Bool.false_eq_true, hcomp, hf]
            · intro whole group more hf
              simp only [grpcBlockHeightChecker.getHeight, hp, hc, hm, hr, hb, hl, if_true,
                if_false, Bool.false_eq_true, hcomp, hf, finish_eq]
  · intro h
    simp only [splitKey, splitOnChar_no_sep '|' _ h, List.map_cons, List.map_nil]
  · intro before after hb hkey
    simp only [splitKey, hkey, splitOnChar_first '|' before after hb, List.map_cons,
      List.headD_cons, List.length_cons, List.length_map, true_and]
    have := splitOnChar_ne_nil '|' after
    have : 0 < (splitOnChar '|' after).length := List.length_pos.mpr this
    omega

/-- The claim has a key whose field is missing give the height -1 with a nil
error: on the response whose member `result` is the string "0x2a", the key
"result.height" names no field, the payload decodes and the call succeeds, and
the result is the error of the template. -/
theorem grpc_template_failure_is_an_error :
    (exampleGrpcEnv "0x2a").unmarshalPayload (grpcCondition "result.height").Payload ≠ none ∧
    (exampleGrpcEnv "0x2a").call "localhost:9090" "unused" "Svc" "M" = some [("result", "0x2a")] ∧
    grpcBlockHeightChecker.getHeight (exampleGrpcEnv "0x2a") "localhost:9090"
      (grpcCondition "result.height") = .error .template := by
  refine ⟨by decide, by decide, by decide⟩

theorem grpc_getHeight_cases_witness :
    grpcBlockHeightChecker.getHeight (exampleGrpcEnv "abc") "localhost:9090"
        (grpcCondition "result|^(0x[0-9a-fA-F]+)$") = .ok (-1) ∧
      grpcBlockHeightChecker.getHeight (exampleGrpcEnv "42") "localhost:9090"
        (grpcCondition "result") = .ok 42 :=
  ⟨((((grpc_getHeight_cases (exampleGrpcEnv "abc") "localhost:9090"
        (grpcCondition "result|^(0x[0-9a-fA-F]+)$")
        { MatchType := "<=", Key := "result|^(0x[0-9a-fA-F]+)$", Value := "2" } [] rfl).2.1
      { Protoset := "unused", Service := "Svc", Method := "M" } rfl).2
      [("result", "abc")] rfl).2 "abc" (by decide)).2 (by decide) (by decide) |>.2
      (fun val => if isHexLiteral val then [val, val] else []) (by decide) rfl |>.1
      (by decide),
    ((((grpc_getHeight_cases (exampleGrpcEnv "42") "localhost:9090"
        (grpcCondition "result")
        { MatchType := "<=", Key := "result", Value := "2" } [] rfl).2.1
      { Protoset := "unused", Service := "Svc", Method := "M" } rfl).2
      [("result", "42")] rfl).2 "42" (by decide)).2 (by decide) (by decide) |>.1 (by decide)⟩

/-! ## The path of a request (C22) -/

theorem stripLit_eq_some (s : List Char) :
    ∀ (input rest : List Char), stripLit s input = some rest ↔ input = s ++ rest := by
  induction s with
  | nil =>
    intro input rest
    simp only [stripLit, Option.some.injEq, List.nil_append]
  | cons c cs ih =>
    intro input rest
    cases input with
    | nil => simp [stripLit]
    | cons d ds =>
      simp only [stripLit, List.cons_append, List.cons.injEq]
      by_cases h : c = d
      · subst h
        simp only [if_true, ih, true_and]
      · have h2 : ¬ d = c := fun e => h e.symm
        simp only [h, if_false, h2, false_and, iff_false]
        intro hx
        cases hx

theorem tryRuns_some (cont : List Char → Option (List (List Char))) (input : List Char) :
    ∀ (n : Nat) (r : List (List Char)), tryRuns cont input n = some r →
      ∃ j groups, 1 ≤ j ∧ j ≤ n ∧ cont (input.drop j) = some groups ∧
        r = input.take j :: groups := by
  intro n
  induction n with
  | zero =>
    intro r h
    simp [tryRuns] at h
  | succ k ih =>
    intro r h
    simp only [tryRuns] at h
    cases hc : cont (input.drop (k + 1)) with
    | some groups =>
      rw [hc] at h
      simp only [Option.some.injEq] at h
      exact ⟨k + 1, groups, by omega, le_refl _, hc, h.symm⟩
    | none =>
      rw [hc] at h
      obtain ⟨j, groups, h1, h2, h3, h4⟩ := ih r h
      exact ⟨j, groups, h1, by omega, h3, h4⟩

theorem tryRuns_top (cont : List Char → Option (List (List Char))) (input : List Char)
    (n : Nat) (groups : List (List Char)) (hn : 0 < n)
    (h : cont (input.drop n) = some groups) :
    tryRuns cont input n = some (input.take n :: groups) := by
  cases n with
  | zero => omega
  | succ k => simp only [tryRuns, h]

theorem matchItems_exact_last (cls : Char → Bool) (n : Nat) (input : List Char)
    (groups : List (List Char)) :
    matchItems [.exact cls n] input = some groups ↔
      input.length = n ∧ (∀ c ∈ input, cls c = true) ∧ groups = [input] := by
  simp only [matchItems]
  constructor
  · intro h
    split at h
    · rename_i hcond
      by_cases hd : input.drop n = []
      · simp only [hd, if_true, Option.some.injEq] at h
        have hlen : input.length ≤ n := List.drop_eq_nil_iff.mp hd
        have htake : input.take n = input := List.take_of_length_le hlen
        rw [htake] at h hcond
        refine ⟨by omega, ?_, h.symm⟩
        simpa using hcond.2
      · simp [hd] at h
    · cases h
  · rintro ⟨hlen, hall, hg⟩
    have htake : input.take n = input := List.take_of_length_le (by omega)
    have hdrop : input.drop n = [] := List.drop_eq_nil_iff.mpr (by omega)
    have hall2 : input.all cls = true := by simpa using hall
    simp only [htake, hdrop, hall2, hlen, le_refl, and_self, if_true, hg]

theorem take_of_takeWhile (cls : Char → Bool) (input : List Char) (j : Nat)
    (hj : j ≤ (input.takeWhile cls).length) : ∀ c ∈ input.take j, cls c = true := by
  intro c hc
  have hsplit : input = input.takeWhile cls ++ input.dropWhile cls :=
    (List.takeWhile_append_dropWhile cls input).symm
  rw [hsplit, List.take_append_of_le_length hj] at hc
  exact List.mem_takeWhile_imp (List.mem_of_mem_take hc)

theorem takeWhile_run (cls : Char → Bool) (run rest : List Char) (stop : Char)
    (hrun : ∀ c ∈ run, cls c = true) (hstop : cls stop = false) :
    (run ++ stop :: rest).takeWhile cls = run := by
  induction run with
  | nil => simp [List.takeWhile, hstop]
  | cons c cs ih =>
    have hc : cls c = true := hrun c (List.mem_cons_self _ _)
    simp only [List.cons_append, List.takeWhile, hc]
    rw [show cs.append (stop :: rest) = cs ++ stop :: rest from rfl,
      ih (fun x hx => hrun x (List.mem_cons_of_mem _ hx))]

theorem matchV2_iff (input : List Char) (groups : List (List Char)) :
    matchItems [.lit "/v2/".data, .exact isLowerAlnum 32] input = some groups ↔
      ∃ k, input = "/v2/".data ++ k ∧ k.length = 32 ∧ (∀ c ∈ k, isLowerAlnum c = true) ∧
        groups = [k] := by
  rw [matchItems]
  constructor
  · intro h
    cases hs : stripLit "/v2/".data input with
    | none => simp [hs] at h
    | some rest =>
      simp only [hs] at h
      obtain ⟨h1, h2, h3⟩ := (matchItems_exact_last _ _ _ _).1 h
      exact ⟨rest, (stripLit_eq_some _ _ _).1 hs, h1, h2, h3⟩
  · rintro ⟨k, hin, h1, h2, h3⟩
    have hs := (stripLit_eq_some _ _ _).2 hin
    simp only [hs]
    exact (matchItems_exact_last _ _ _ _).2 ⟨h1, h2, h3⟩

theorem matchV1_iff (input : List Char) (groups : List (List Char)) :
    matchItems [.lit "/v1/".data, .plus isChainIdChar, .lit "/".data, .exact isLowerAlnum 32]
        input = some groups ↔
      ∃ c k, input = "/v1/".data ++ c ++ '/' :: k ∧ c ≠ [] ∧
        (∀ ch ∈ c, isChainIdChar ch = true) ∧ k.length = 32 ∧
        (∀ ch ∈ k, isLowerAlnum ch = true) ∧ groups = [c, k] := by
  have htail : ∀ (tail : List Char) (gs : List (List Char)),
      matchItems [.lit "/".data, .exact isLowerAlnum 32] tail = some gs ↔
        ∃ k, tail = '/' :: k ∧ k.length = 32 ∧ (∀ ch ∈ k, isLowerAlnum ch = true) ∧ gs = [k] := by
    intro tail gs
    rw [matchItems]
    constructor
    · intro h
      cases hs : stripLit "/".data tail with
      | none => simp [hs] at h
      | some rest =>
        simp only [hs] at h
        obtain ⟨h1, h2, h3⟩ := (matchItems_exact_last _ _ _ _).1 h
        exact ⟨rest, (stripLit_eq_some _ _ _).1 hs, h1, h2, h3⟩
    · rintro ⟨k, hin, h1, h2, h3⟩
      have hs := (stripLit_eq_some "/".data tail k).2 hin
      simp only [hs]
      exact (matchItems_exact_last _ _ _ _).2 ⟨h1, h2, h3⟩
  rw [matchItems]
  constructor
  · intro h
    cases hs : stripLit "/v1/".data input with
    | none => simp [hs] at h
    | some rest =>
      simp only [hs] at h
      rw [matchItems] at h
      obtain ⟨j, gs, hj1, hj2, hcont, hr⟩ := tryRuns_some _ _ _ _ h
      obtain ⟨k, hk, hlen, hall, hgs⟩ := (htail _ _).1 hcont
      have hin := (stripLit_eq_some _ _ _).1 hs
      have hrest : rest = rest.take j ++ '/' :: k := by
        rw [← hk, List.take_append_drop]
      have hjlen : j ≤ rest.length :=
        le_trans hj2 (List.takeWhile_prefix isChainIdChar).length_le
      refine ⟨rest.take j, k, ?_, ?_, take_of_takeWhile _ _ _ hj2, hlen, hall, ?_⟩
      · rw [hin, List.append_assoc, ← hrest]
      · intro hnil
        have := congrArg List.length hnil
        simp only [List.length_take, List.length_nil] at this
        omega
      · rw [hr, hgs]
  · rintro ⟨c, k, hin, hne, hc, hlen, hk, hg⟩
    have hs := (stripLit_eq_some "/v1/".data input (c ++ '/' :: k)).2
      (by rw [hin, List.append_assoc])
    simp only [hs]
    rw [matchItems]
    have hrun : (c ++ '/' :: k).takeWhile isChainIdChar = c :=
      takeWhile_run _ _ _ _ hc (by decide)
    rw [hrun]
    have hpos : 0 < c.length := List.length_pos.mpr hne
    have hdrop : (c ++ '/' :: k).drop c.length = '/' :: k := List.drop_left _ _
    have htake : (c ++ '/' :: k).take c.length = c := List.take_left _ _
    have hcont := (htail ('/' :: k) [k]).2 ⟨k, rfl, hlen, hk, rfl⟩
    rw [← hdrop] at hcont
    rw [tryRuns_top _ _ _ _ hpos hcont, htake, hg]

theorem path_v1_data (path c k : String) :
    path = "/v1/" ++ c ++ "/" ++ k ↔ path.data = "/v1/".data ++ c.data ++ '/' :: k.data := by
  rw [String.ext_iff]
  simp only [String.data_append]
  constructor
  · intro h
    rw [h]
    simp
  · intro h
    rw [h]
    simp

theorem path_v2_data (path k : String) :
    path = "/v2/" ++ k ↔ path.data = "/v2/".data ++ k.data := by
  rw [String.ext_iff]
  simp only [String.data_append]

theorem isLowerAlnum_iff (ch : Char) :
    isLowerAlnum ch = true ↔ ('a' ≤ ch ∧ ch ≤ 'z') ∨ ('0' ≤ ch ∧ ch ≤ '9') := by
  simp only [isLowerAlnum, Char.isLower, Char.isDigit, Bool.or_eq_true, Bool.and_eq_true,
    decide_eq_true_eq, Char.le_def]
  rfl

/-- C22. Method `parseV1PathParameters` succeeds exactly on the paths
"/v1/" + c + "/" + k with c a non-empty string over `[a-z0-9-]` and k a string
of 32 characters over `[a-z0-9]`, and then returns the chain id c and the access
key k; method `parseV2PathParameters` succeeds exactly on the paths "/v2/" + k
with such a k, and then returns the access key k with an empty chain id; on
every other path each returns the error "invalid path". -/
theorem path_parameters_parse :
    (∀ (path : String) (rp : requestParams),
      parseV1PathParameters path = .ok rp ↔
        ∃ c k : String, path = "/v1/" ++ c ++ "/" ++ k ∧ c ≠ "" ∧
          (∀ ch ∈ c.data, isChainIdChar ch = true) ∧ k.length = 32 ∧
          (∀ ch ∈ k.data, isLowerAlnum ch = true) ∧
          rp = { requestParams.zero with chainId := c, accessKey := k }) ∧
    (∀ (path : String), (¬ ∃ rp, parseV1PathParameters path = .ok rp) →
      parseV1PathParameters path = .error "invalid path") ∧
    (∀ (path : String) (rp : requestParams),
      parseV2PathParameters path = .ok rp ↔
        ∃ k : String, path = "/v2/" ++ k ∧ k.length = 32 ∧
          (∀ ch ∈ k.data, isLowerAlnum ch = true) ∧
          rp = { requestParams.zero with accessKey := k } ∧ rp.chainId = "") ∧
    (∀ (path : String), (¬ ∃ rp, parseV2PathParameters path = .ok rp) →
      parseV2PathParameters path = .error "invalid path") ∧
    (∀ ch : Char, isChainIdChar ch = true ↔
      ('a' ≤ ch ∧ ch ≤ 'z') ∨ ('0' ≤ ch ∧ ch ≤ '9') ∨ ch = '-') ∧
    (∀ ch : Char, isLowerAlnum ch = true ↔ ('a' ≤ ch ∧ ch ≤ 'z') ∨ ('0' ≤ ch ∧ ch ≤ '9')) := by
  refine ⟨?_, ?_, ?_, ?_, ?_, isLowerAlnum_iff⟩
  · intro path rp
    unfold parseV1PathParameters
    cases hm : matchItems [.lit "/v1/".data, .plus isChainIdChar, .lit "/".data,
        .exact isLowerAlnum 32] path.data with
    | none =>
      refine ⟨fun h => (by cases h), ?_⟩
      rintro ⟨c, k, hp, hne, hc, hlen, hk, -⟩
      have := (matchV1_iff path.data [c.data, k.data]).2
        ⟨c.data, k.data, (path_v1_data path c k).1 hp,
          fun h => hne (String.ext_iff.mpr h), hc, hlen, hk, rfl⟩
      rw [hm] at this
      cases this
    | some groups =>
      obtain ⟨c, k, hin, hne, hc, hlen, hk, hg⟩ := (matchV1_iff path.data groups).1 hm
      subst hg
      simp only [Except.ok.injEq]
      constructor
      · intro h
        refine ⟨String.mk c, String.mk k, (path_v1_data _ _ _).2 hin, ?_, hc, hlen, hk, h.symm⟩
        intro h0
        exact hne (congrArg String.data h0)
      · rintro ⟨c2, k2, hp, hne2, hc2, hlen2, hk2, hrp⟩
        have hm2 := (matchV1_iff path.data [c2.data, k2.data]).2
          ⟨c2.data, k2.data, (path_v1_data path c2 k2).1 hp,
            fun h => hne2 (String.ext_iff.mpr h), hc2, hlen2, hk2, rfl⟩
        rw [hm] at hm2
        simp only [Option.some.injEq, List.cons.injEq, and_true] at hm2
        rw [hrp, hm2.1, hm2.2]
  · intro path hno
    cases h : parseV1PathParameters path with
    | ok rp => exact absurd ⟨rp, h⟩ hno
    | error e =>
      unfold parseV1PathParameters at h
      split at h
      · cases h
      · simp only [Except.error.injEq] at h
        rw [h]
  · intro path rp
    unfold parseV2PathParameters
    cases hm : matchItems [.lit "/v2/".data, .exact isLowerAlnum 32] path.data with
    | none =>
      refine ⟨fun h => (by cases h), ?_⟩
      rintro ⟨k, hp, hlen, hk, -⟩
      have := (matchV2_iff path.data [k.data]).2
        ⟨k.data, (path_v2_data path k).1 hp, hlen, hk, rfl⟩
      rw [hm] at this
      cases this
    | some groups =>
      obtain ⟨k, hin, hlen, hk, hg⟩ := (matchV2_iff path.data groups).1 hm
      subst hg
      simp only [Except.ok.injEq]
      constructor
      · intro h
        refine ⟨String.mk k, (path_v2_data _ _).2 hin, hlen, hk, h.symm, ?_⟩
        rw [← h]
        rfl
      · rintro ⟨k2, hp, hlen2, hk2, hrp, -⟩
        have hm2 := (matchV2_iff path.data [k2.data]).2
          ⟨k2.data, (path_v2_data path k2).1 hp, hlen2, hk2, rfl⟩
        rw [hm] at hm2
        simp only [Option.some.injEq, List.cons.injEq, and_true] at hm2
        rw [hrp, hm2]
  · intro path hno
    cases h : parseV2PathParameters path with
    | ok rp => exact absurd ⟨rp, h⟩ hno
    | error e =>
      unfold parseV2PathParameters at h
      split at h
      · cases h
      · simp only [Except.error.injEq] at h
        rw [h]
  · intro ch
    simp only [isChainIdChar, Bool.or_eq_true, isLowerAlnum_iff, beq_iff_eq, or_assoc]

end ChainGateway
